import Mathlib

/-!
# TorgManager stock-ledger and transfer engine: a shallow embedding

This file embeds the stock-ledger core of the TorgManager backend
(`src/backend/main.py`, with `src/backend/models.py` and
`src/backend/schemas.py`) in Lean and proves the testable properties of
its specification against that embedding.

Modelling conventions:
* The database is an explicit `DB` value (lists of rows).  Each HTTP
  handler is a function `DB → … → Except Err …`; SQLAlchemy row
  mutations are modelled by threading the product list.  An `Except.error`
  result models a rolled-back transaction (every handler either commits
  at its end or rolls back, so an error leaves the persisted state
  unchanged; the legacy `create_order` handler commits only after its
  loop, so an exception there likewise persists nothing).
* Python `Decimal`/`float` amounts are modelled as `ℚ`; `int()` applied
  to a decimal (truncation toward zero) is `pyInt`.
* `query(...).first()` is `List.find?`; an in-place mutation of the row
  returned by `first()` is `modifyFirst`.  A Python `dict` built by
  repeated `setdefault`/`get` updates is an insertion-ordered
  association list built by `upsert`.
* `models.Product` has no `is_archived` attribute, so every
  `getattr(models.Product, "is_archived", None)` probe in `main.py`
  yields `None` and the archived filters are dead code; they are omitted.
* Timestamps are an abstract `Nat` parameter `now`.
-/

namespace TorgManager

/-- `models.Product` (models.py lines 17-28): a stock row, owned by the
central pool (`manager_id = none`) or by a manager. -/
structure Product where
  id : Nat
  name : String
  quantity : Int
  price : ℚ
  manager_id : Option Nat
  is_return : Bool
deriving Repr, DecidableEq

/-- A row of the `dispatch_items` table (created by `create_dispatch`,
read by `accept_dispatch`); `price` is nullable in the table. -/
structure DispatchItem where
  product_id : Nat
  quantity : Int
  price : Option ℚ
deriving Repr, DecidableEq

/-- A row of the `dispatches` table together with its items.  `status`
is nullable (legacy rows); `accept_dispatch` coalesces it to
`"pending"`. -/
structure Dispatch where
  id : Nat
  manager_id : Nat
  status : Option String
  accepted_at : Option Nat
  items : List DispatchItem
deriving Repr, DecidableEq

/-- `models.Shop` (the fields the core reads). -/
structure Shop where
  id : Nat
  manager_id : Option Nat
deriving Repr, DecidableEq

/-- `models.User` (the fields the core reads). -/
structure User where
  id : Nat
  role : String
deriving Repr, DecidableEq

/-- `models.ShopReturn` together with its `ShopReturnItem` rows
(`product_id`, `quantity`). -/
structure ShopReturnDoc where
  id : Nat
  manager_id : Nat
  shop_id : Nat
  items : List (Nat × Int)
deriving Repr, DecidableEq

/-- `models.ManagerReturn` together with its `ManagerReturnItem` rows;
also used for the legacy `returns` table, which has the same shape. -/
structure ManagerReturnDoc where
  id : Nat
  manager_id : Nat
  items : List (Nat × Int)
deriving Repr, DecidableEq

/-- `models.Order`: one row of the legacy flat `orders` table. -/
structure OrderRow where
  manager_id : Nat
  shop_id : Nat
  product_id : Nat
  quantity : Int
  price : ℚ
deriving Repr, DecidableEq

/-- `models.Incoming` together with its `IncomingItem` rows. -/
structure IncomingDoc where
  id : Nat
  items : List (Nat × Int)
deriving Repr, DecidableEq

/-- The persisted state read and written by the transfer engine. -/
structure DB where
  users : List User
  products : List Product
  shops : List Shop
  dispatches : List Dispatch
  shop_returns : List ShopReturnDoc
  manager_returns : List ManagerReturnDoc
  legacy_returns : List ManagerReturnDoc
  orders : List OrderRow
  incomings : List IncomingDoc
  next_product_id : Nat
deriving Repr, DecidableEq

/-- One entry of a structured insufficient-stock conflict detail:
`{"product_id": …, "requested"/"required": …, "available": …}`. -/
structure Shortage where
  product_id : Nat
  requested : Int
  available : Int
deriving Repr, DecidableEq

/-- The detail payload of a raised `HTTPException`. -/
inductive ErrDetail where
  /-- a plain message string -/
  | msg (s : String)
  /-- a structured list of short items (`INSUFFICIENT_STOCK` payloads and
  the bare list used by `accept_dispatch`) -/
  | insufficient (items : List Shortage)
deriving Repr, DecidableEq

/-- An aborted request: either a raised `HTTPException` carrying a status
code, or an uncaught Python `AttributeError` (reading an attribute that
the pydantic request model does not define). -/
inductive Err where
  | http (status : Nat) (detail : ErrDetail)
  | attrError (attr : String)
deriving Repr, DecidableEq

instance {ε α : Type} [DecidableEq ε] [DecidableEq α] : DecidableEq (Except ε α)
  | .error a, .error b =>
    if h : a = b then isTrue (by rw [h]) else isFalse (fun he => h (by injection he))
  | .error _, .ok _ => isFalse (fun he => Except.noConfusion he)
  | .ok _, .error _ => isFalse (fun he => Except.noConfusion he)
  | .ok a, .ok b =>
    if h : a = b then isTrue (by rw [h]) else isFalse (fun he => h (by injection he))

/-- Python `int()` on a `Decimal`: truncation toward zero.  `Int.tdiv`
is truncated division, so `num.tdiv den` is exactly CPython's
`int(Decimal(...))` on the fraction `num/den`. -/
def pyInt (q : ℚ) : Int :=
  q.num.tdiv q.den

/-- Insertion-ordered dict update, as performed by
`d.setdefault(k, default)` followed by in-place updates, or by
`d[k] = f(d.get(k, default))`: the first binding of `k` is updated in
place; a missing key is appended. -/
def upsert {α : Type} (l : List (Nat × α)) (k : Nat) (d : α) (f : α → α) :
    List (Nat × α) :=
  match l with
  | [] => [(k, f d)]
  | (k', a) :: t => if k' = k then (k', f a) :: t else (k', a) :: upsert t k d f

/-- Mutation of the row returned by `query(...).first()`: replace the
first element satisfying `p` by its image under `f`. -/
def modifyFirst {α : Type} (p : α → Bool) (f : α → α) : List α → List α
  | [] => []
  | x :: t => if p x then f x :: t else x :: modifyFirst p f t

/-- Association-list lookup (Python `dict` access keyed by product id). -/
def alookup {α : Type} : List (Nat × α) → Nat → Option α
  | [], _ => none
  | (k, a) :: t, k' => if k = k' then some a else alookup t k'

/-! ## Row filters

The SQLAlchemy query filters used by the handlers, as boolean predicates
on `Product`. -/

/-- Central-pool row by id: `Product.id == pid, manager_id IS NULL,
is_return IS FALSE` (`create_dispatch`, `accept_dispatch`,
`create_incoming`, `create_dispatch` availability query). -/
def isPoolRow (pid : Nat) (p : Product) : Bool :=
  decide (p.id = pid ∧ p.manager_id = none ∧ p.is_return = false)

/-- Central-pool row by name: `manager_id IS NULL, is_return IS FALSE,
name == nm` (credit target of manager→pool returns). -/
def isPoolName (nm : String) (p : Product) : Bool :=
  decide (p.manager_id = none ∧ p.is_return = false ∧ p.name = nm)

/-- A manager's non-return row by id (`create_shop_order`,
`create_shop_return`, `create_manager_return`, `create_return`). -/
def isMgrRow (uid pid : Nat) (p : Product) : Bool :=
  decide (p.id = pid ∧ p.manager_id = some uid ∧ p.is_return = false)

/-- A manager's non-return row by name (credit target of
`accept_dispatch`). -/
def isMgrName (uid : Nat) (nm : String) (p : Product) : Bool :=
  decide (p.manager_id = some uid ∧ p.name = nm ∧ p.is_return = false)

/-- The legacy `create_order` product filter: id and owner only — it has
no `is_return` filter. -/
def isMgrAnyRow (uid pid : Nat) (p : Product) : Bool :=
  decide (p.id = pid ∧ p.manager_id = some uid)

/-! ## Return endpoints -/

/-- A line of `schemas.ShopReturnItemCreate` / `ManagerReturnItemCreate`:
`product_id : int`, `quantity : condecimal(gt=0)` (the schema accepts any
positive decimal). -/
structure ReturnLine where
  product_id : Nat
  quantity : ℚ
deriving Repr, DecidableEq

/-- The validation/aggregation loop of `create_shop_return`
(main.py lines 2520-2525) and `create_manager_return` (lines 2657-2662):
`quantity_value = int(item.quantity)` (truncation toward zero), reject
`quantity_value <= 0`, then `aggregated[pid] = aggregated.get(pid, 0) +
quantity_value`. -/
def returnAgg (acc : List (Nat × Int)) : List ReturnLine → Except Err (List (Nat × Int))
  | [] => .ok acc
  | it :: rest =>
    let qv := pyInt it.quantity
    if qv ≤ 0 then .error (Err.http 400 (.msg "quantity must be positive"))
    else returnAgg (upsert acc it.product_id 0 (· + qv)) rest

/-- `create_shop_return` (main.py lines 2497-2578).  After validating the
shop, the lines and the presence of every referenced product among the
manager's non-return rows, it inserts the `ShopReturn` document and its
items and commits — it performs no quantity mutation on any product. -/
def create_shop_return (db : DB) (u : User) (shop_id : Nat) (items : List ReturnLine) :
    Except Err (DB × ShopReturnDoc) :=
  if u.role ≠ "manager" then .error (Err.http 403 (.msg "forbidden"))
  else
    match db.shops.find? (fun s => decide (s.id = shop_id ∧ s.manager_id = some u.id)) with
    | none => .error (Err.http 404 (.msg "shop not found or not owned by manager"))
    | some shop =>
      if items = [] then .error (Err.http 400 (.msg "items required"))
      else
        match returnAgg [] items with
        | .error e => .error e
        | .ok aggregated =>
          let product_ids := aggregated.map Prod.fst
          let missing_ids :=
            product_ids.filter (fun pid => (db.products.find? (isMgrRow u.id pid)).isNone)
          if missing_ids ≠ [] then
            .error (Err.http 404 (.msg "products not found in manager stock"))
          else
            let doc : ShopReturnDoc :=
              { id := db.shop_returns.length + 1, manager_id := u.id, shop_id := shop.id,
                items := aggregated }
            .ok ({ db with shop_returns := db.shop_returns ++ [doc] }, doc)

/-- The debit/credit loop shared by `create_manager_return` (main.py
lines 2732-2745) and the legacy `create_return` (lines 1473-1487): for
each aggregated `(product_id, quantity)`, debit the manager's row and
credit the pool row matched by name, recording an item row carrying the
pool product's id.  The Python loop mutates objects fetched before the
loop through the session's identity map; threading the product list and
re-locating rows by id/name is equivalent because ids and names are never
mutated.  `base_map` is a dict comprehension keyed by name, which keeps
the *last* matching row, hence `getLast?`; the credit then updates that
row (ids are unique, the table's primary key).  The `none` fallbacks are
unreachable: presence of every row was checked before the loop.
The body of the loop for one aggregated `(product_id, quantity)` pair: -/
def managerReturnStep (uid : Nat) (ps : List Product) (docItems : List (Nat × Int))
    (pid : Nat) (q : Int) : List Product × List (Nat × Int) :=
  match ps.find? (isMgrRow uid pid) with
  | none => (ps, docItems)
  | some mp =>
    let ps1 := modifyFirst (isMgrRow uid pid)
      (fun p => { p with quantity := p.quantity - q }) ps
    match (ps1.filter (isPoolName mp.name)).getLast? with
    | none => (ps1, docItems)
    | some bp =>
      let ps2 := modifyFirst (fun p => decide (p.id = bp.id))
        (fun p => { p with quantity := p.quantity + q }) ps1
      (ps2, docItems ++ [(bp.id, q)])

def managerReturnApply (uid : Nat) (ps : List Product) (docItems : List (Nat × Int)) :
    List (Nat × Int) → List Product × List (Nat × Int)
  | [] => (ps, docItems)
  | (pid, q) :: rest =>
    managerReturnApply uid (managerReturnStep uid ps docItems pid q).1
      (managerReturnStep uid ps docItems pid q).2 rest

/-- `create_manager_return` (main.py lines 2645-2755): validate and
aggregate the lines, require every product among the manager's non-return
rows, collect *all* shortages into a 409 conflict, require a pool row by
name for every involved product (404 otherwise), then debit the manager
and credit the pool inside one transaction, writing the `ManagerReturn`
document.  The Python `product_names` set comprehension de-duplicates
names; order only affects the 404 detail string, which is not modelled. -/
def create_manager_return (db : DB) (u : User) (items : List ReturnLine) :
    Except Err (DB × ManagerReturnDoc) :=
  if u.role ≠ "manager" then .error (Err.http 403 (.msg "forbidden"))
  else if items = [] then .error (Err.http 400 (.msg "items required"))
  else
    match returnAgg [] items with
    | .error e => .error e
    | .ok aggregated =>
      let product_ids := aggregated.map Prod.fst
      let missing_ids :=
        product_ids.filter (fun pid => (db.products.find? (isMgrRow u.id pid)).isNone)
      if missing_ids ≠ [] then
        .error (Err.http 404 (.msg "products not found in manager stock"))
      else
        let insufficient := aggregated.filterMap (fun e =>
          match db.products.find? (isMgrRow u.id e.1) with
          | some p => if e.2 > p.quantity then some ⟨e.1, e.2, p.quantity⟩ else none
          | none => none)
        if insufficient ≠ [] then .error (Err.http 409 (.insufficient insufficient))
        else
          let product_names :=
            (product_ids.filterMap
              (fun pid => (db.products.find? (isMgrRow u.id pid)).map Product.name)).dedup
          let missing_base :=
            product_names.filter (fun nm => (db.products.filter (isPoolName nm)).getLast?.isNone)
          if missing_base ≠ [] then
            .error (Err.http 404 (.msg "no pool product for some names"))
          else
            let res := managerReturnApply u.id db.products [] aggregated
            let doc : ManagerReturnDoc :=
              { id := db.manager_returns.length + 1, manager_id := u.id, items := res.2 }
            .ok ({ db with
                    products := res.1
                    manager_returns := db.manager_returns ++ [doc] }, doc)

/-! ## Shop orders -/

/-- A line of `schemas.ShopOrderItemCreate` (schemas.py lines 197-203):
`quantity : condecimal(gt=0)`, `price : Optional[condecimal(ge=0)]`,
`is_bonus : bool = False`.  (The schema's unused `is_return` flag is
omitted.) -/
structure ShopOrderLine where
  product_id : Nat
  quantity : ℚ
  price : Option ℚ
  is_bonus : Bool
deriving Repr, DecidableEq

/-- A validated entry of `line_items` in `create_shop_order` (main.py
lines 2267-2274): quantity already truncated by `int(Decimal(...))`. -/
structure LineItem where
  product_id : Nat
  quantity : Int
  price : Option ℚ
  is_bonus : Bool
deriving Repr, DecidableEq

/-- The validation/aggregation loop of `create_shop_order` (main.py lines
2252-2274): truncate the quantity toward zero, reject non-positive
results and negative explicit prices, accumulate `totals_by_product` and
`line_items`. -/
def shopOrderAgg (totals : List (Nat × Int)) (line_items : List LineItem) :
    List ShopOrderLine → Except Err (List (Nat × Int) × List LineItem)
  | [] => .ok (totals, line_items)
  | it :: rest =>
    let qv := pyInt it.quantity
    if qv ≤ 0 then .error (Err.http 400 (.msg "quantity must be positive"))
    else
      match it.price with
      | some pr =>
        if pr < 0 then .error (Err.http 400 (.msg "price must not be negative"))
        else
          shopOrderAgg (upsert totals it.product_id 0 (· + qv))
            (line_items ++ [⟨it.product_id, qv, some pr, it.is_bonus⟩]) rest
      | none =>
        shopOrderAgg (upsert totals it.product_id 0 (· + qv))
          (line_items ++ [⟨it.product_id, qv, none, it.is_bonus⟩]) rest

/-- `create_shop_order` (main.py lines 2229-2397).  After the role,
shop-ownership, line-validation, presence and sufficiency checks, line
2316 evaluates `order.returns` — but `schemas.ShopOrderCreate`
(schemas.py lines 205-208) declares only `shop_id`, `items` and
`paid_amount`, and a pydantic model raises `AttributeError` for an
undeclared attribute (extra request fields are ignored, not stored).  The
access is outside the handler's `try` block, so the exception propagates
before any product mutation or insert is committed; the debit/payment
code at lines 2329-2391 is unreachable.  Hence the result type: this
handler never returns a committed state. -/
def create_shop_order (db : DB) (u : User) (shop_id : Nat) (items : List ShopOrderLine)
    (paid_amount : ℚ) : Except Err DB :=
  if u.role ≠ "manager" then .error (Err.http 403 (.msg "forbidden"))
  else
    match db.shops.find? (fun s => decide (s.id = shop_id ∧ s.manager_id = some u.id)) with
    | none => .error (Err.http 404 (.msg "shop not found or not owned by manager"))
    | some _shop =>
      if items = [] then .error (Err.http 400 (.msg "items required"))
      else
        match shopOrderAgg [] [] items with
        | .error e => .error e
        | .ok agg =>
          let product_ids := agg.1.map Prod.fst
          let missing_ids :=
            product_ids.filter (fun pid => (db.products.find? (isMgrRow u.id pid)).isNone)
          if missing_ids ≠ [] then
            .error (Err.http 404 (.msg "products not found in manager stock"))
          else
            let insufficient := agg.1.filterMap (fun e =>
              match db.products.find? (isMgrRow u.id e.1) with
              | some p => if e.2 > p.quantity then some ⟨e.1, e.2, p.quantity⟩ else none
              | none => none)
            if insufficient ≠ [] then .error (Err.http 409 (.insufficient insufficient))
            else
              -- line 2316: `if order.returns and order.returns.amount is not None:`
              .error (Err.attrError "returns")

/-- The payment arithmetic of the unreachable tail of `create_shop_order`
(main.py lines 2342-2383), kept as a standalone definition: line totals
use the explicit price when given, else the manager product's live price
(`Decimal(str(product.price or 0))`); bonus lines accumulate separately;
`payable = max(goods − returns, 0)`; `debt = max(payable − paid, 0)`.
`priceOf` maps a line's product id to its manager row's price. -/
def shopOrderPaymentCalc (line_items : List LineItem) (priceOf : Nat → ℚ)
    (returns_amount paid_amount : ℚ) : ℚ × ℚ × ℚ × ℚ :=
  let totals := line_items.foldl (fun acc it =>
    let price_decimal := it.price.getD (priceOf it.product_id)
    let line_total := (it.quantity : ℚ) * price_decimal
    if it.is_bonus then (acc.1, acc.2 + line_total) else (acc.1 + line_total, acc.2)) (0, 0)
  let payable_raw := totals.1 - returns_amount
  let payable_amount := if payable_raw < 0 then 0 else payable_raw
  let debt_raw := payable_amount - paid_amount
  let debt_amount := if debt_raw < 0 then 0 else debt_raw
  (totals.1, totals.2, payable_amount, debt_amount)

/-! ## Dispatch creation -/

/-- A line of `schemas.DispatchItemCreate`: integral quantity, required
float price. -/
structure DispatchLine where
  product_id : Nat
  quantity : Int
  price : ℚ
deriving Repr, DecidableEq

/-- The validation/aggregation loop of `create_dispatch` (main.py lines
724-733): reject non-positive quantities and negative prices;
`setdefault` + in-place update sums quantities per product and keeps the
last-seen price. -/
def dispatchAgg (acc : List (Nat × (Int × ℚ))) :
    List DispatchLine → Except Err (List (Nat × (Int × ℚ)))
  | [] => .ok acc
  | it :: rest =>
    if it.quantity ≤ 0 then .error (Err.http 400 (.msg "quantity must be positive"))
    else if it.price < 0 then .error (Err.http 400 (.msg "price must not be negative"))
    else
      dispatchAgg
        (upsert acc it.product_id (0, it.price) (fun a => (a.1 + it.quantity, it.price))) rest

/-- `create_dispatch` (main.py lines 704-829): admin-only; the target
manager must exist; aggregate and validate the lines; every product must
be a pool non-return row (404 listing the missing ids otherwise); compare
each aggregated quantity against the pool availability, collecting every
shortfall into a 409 conflict (`availability.get(product_id, 0)` is the
unreachable `none` fallback); on success insert the `pending` dispatch
header and one item row per aggregated product.  No product quantity is
touched at creation; the debit happens at acceptance. -/
def create_dispatch (db : DB) (u : User) (manager_id : Nat) (items : List DispatchLine)
    (_now : Nat) : Except Err (DB × Nat) :=
  if u.role ≠ "admin" then .error (Err.http 403 (.msg "forbidden"))
  else
    match db.users.find? (fun m => decide (m.id = manager_id ∧ m.role = "manager")) with
    | none => .error (Err.http 404 (.msg "manager not found"))
    | some _ =>
      if items = [] then .error (Err.http 400 (.msg "items required"))
      else
        match dispatchAgg [] items with
        | .error e => .error e
        | .ok aggregated =>
          let product_ids := aggregated.map Prod.fst
          let missing_ids :=
            product_ids.filter (fun pid => (db.products.find? (isPoolRow pid)).isNone)
          if missing_ids ≠ [] then
            .error (Err.http 404 (.msg "products not found in admin inventory"))
          else
            let insufficient := aggregated.filterMap (fun (e : Nat × (Int × ℚ)) =>
              let available : Int :=
                match db.products.find? (isPoolRow e.1) with
                | some p => p.quantity
                | none => 0
              if e.2.1 > available then some (Shortage.mk e.1 e.2.1 available) else none)
            if insufficient ≠ [] then .error (Err.http 409 (.insufficient insufficient))
            else
              let d : Dispatch :=
                { id := db.dispatches.length + 1
                  manager_id := manager_id
                  status := some "pending"
                  accepted_at := none
                  items := aggregated.map (fun e => ⟨e.1, e.2.1, some e.2.2⟩) }
              .ok ({ db with dispatches := db.dispatches ++ [d] }, d.id)

/-! ## Dispatch acceptance -/

/-- The check loop of `accept_dispatch` (main.py lines 943-967): for each
dispatch line, lock the pool row by id (404 immediately if absent) and
collect a shortage entry whenever `available < required` — every short
line is collected before the 409 is raised. -/
def acceptCheck (ps : List Product) : List DispatchItem → Except Err (List Shortage)
  | [] => .ok []
  | it :: rest =>
    match ps.find? (isPoolRow it.product_id) with
    | none => .error (Err.http 404 (.msg "product not found in warehouse"))
    | some p =>
      match acceptCheck ps rest with
      | .error e => .error e
      | .ok tailShort =>
        if p.quantity < it.quantity then
          .ok (⟨it.product_id, it.quantity, p.quantity⟩ :: tailShort)
        else .ok tailShort

/-- The apply loop of `accept_dispatch` (main.py lines 974-1000): for
each line, debit the pool row, then credit the manager's same-name
non-return row — merging the quantity and overwriting the price with the
line's price (falling back to the pool price when the line's stored price
is NULL) — or create that row with exactly the line's quantity when it is
absent.  Mutations are modelled by threading the product list; re-locating
rows is equivalent to Python's identity-mapped objects because ids and
names are never mutated, and a freshly created manager row is visible to
later lines (the session autoflushes before queries).  `np` models the
SERIAL id given to created rows.  The `none` pool fallback is unreachable
(presence was established by `acceptCheck`).
The body of the loop for one dispatch line: debit the pool row, then
credit (or create) the manager's same-name non-return row: -/
def acceptStep (uid : Nat) (ps : List Product) (np : Nat) (it : DispatchItem) :
    List Product × Nat :=
  match ps.find? (isPoolRow it.product_id) with
  | none => (ps, np)
  | some product =>
    let ps1 := modifyFirst (isPoolRow it.product_id)
      (fun p => { p with quantity := p.quantity - it.quantity }) ps
    let price_value := it.price.getD product.price
    match ps1.find? (isMgrName uid product.name) with
    | some _ =>
      (modifyFirst (isMgrName uid product.name)
        (fun p => { p with quantity := p.quantity + it.quantity, price := price_value }) ps1,
       np)
    | none =>
      (ps1 ++ [{ id := np, name := product.name, quantity := it.quantity,
                 price := price_value, manager_id := some uid, is_return := false }],
       np + 1)

def acceptApply (uid : Nat) (ps : List Product) (np : Nat) :
    List DispatchItem → List Product × Nat
  | [] => (ps, np)
  | it :: rest =>
    acceptApply uid (acceptStep uid ps np it).1 (acceptStep uid ps np it).2 rest

/-- `accept_dispatch` (main.py lines 892-1026): manager-only; the
dispatch must exist and belong to the caller; a dispatch whose coalesced
status is not `pending` is rejected with status 400 ("already
processed"); an empty dispatch is a 400; then the check loop and, if no
line is short, the apply loop run and the dispatch is marked
`status='sent', accepted_at=now`, all in one transaction. -/
def accept_dispatch (db : DB) (u : User) (dispatch_id : Nat) (now : Nat) :
    Except Err DB :=
  if u.role ≠ "manager" then .error (Err.http 403 (.msg "forbidden"))
  else
    match db.dispatches.find? (fun d => decide (d.id = dispatch_id)) with
    | none => .error (Err.http 404 (.msg "dispatch not found"))
    | some d =>
      if d.manager_id ≠ u.id then .error (Err.http 403 (.msg "no access to dispatch"))
      else if d.status.getD "pending" ≠ "pending" then
        .error (Err.http 400 (.msg "dispatch already processed"))
      else if d.items = [] then .error (Err.http 400 (.msg "dispatch has no items"))
      else
        match acceptCheck db.products d.items with
        | .error e => .error e
        | .ok missing =>
          if missing ≠ [] then .error (Err.http 409 (.insufficient missing))
          else
            let res := acceptApply u.id db.products db.next_product_id d.items
            .ok { db with
                    products := res.1
                    next_product_id := res.2
                    dispatches := db.dispatches.map (fun d' =>
                      if d'.id = dispatch_id then
                        { d' with status := some "sent", accepted_at := some now }
                      else d') }

/-! ## Legacy endpoints and incoming stock -/

/-- A line of `schemas.OrderItem`: integral quantity (no positivity
constraint in the schema or the handler), required price. -/
structure OrderItemReq where
  product_id : Nat
  quantity : Int
  price : ℚ
deriving Repr, DecidableEq

/-- The per-line loop of the legacy `create_order` (main.py lines
1043-1065): find the manager's product (no `is_return` filter), raise 400
if absent or short, debit it, and append an order row.  Later lines see
earlier debits (session identity map); an exception mid-loop commits
nothing. -/
def orderLoop (uid shop_id : Nat) (ps : List Product) (rows : List OrderRow) :
    List OrderItemReq → Except Err (List Product × List OrderRow)
  | [] => .ok (ps, rows)
  | it :: rest =>
    match ps.find? (isMgrAnyRow uid it.product_id) with
    | none => .error (Err.http 400 (.msg "insufficient quantity"))
    | some p =>
      if p.quantity < it.quantity then .error (Err.http 400 (.msg "insufficient quantity"))
      else
        orderLoop uid shop_id
          (modifyFirst (isMgrAnyRow uid it.product_id)
            (fun x => { x with quantity := x.quantity - it.quantity }) ps)
          (rows ++ [⟨uid, shop_id, it.product_id, it.quantity, it.price⟩]) rest

/-- Legacy `create_order` (main.py lines 1029-1068): manager-only, the
shop must exist (no ownership check), then the per-line debit loop;
commit happens only after all lines succeed. -/
def create_order (db : DB) (u : User) (shop_id : Nat) (items : List OrderItemReq) :
    Except Err DB :=
  if u.role ≠ "manager" then .error (Err.http 403 (.msg "forbidden"))
  else
    match db.shops.find? (fun s => decide (s.id = shop_id)) with
    | none => .error (Err.http 404 (.msg "shop not found"))
    | some _ =>
      match orderLoop u.id shop_id db.products [] items with
      | .error e => .error e
      | .ok res => .ok { db with products := res.1, orders := db.orders ++ res.2 }

/-- A line of `schemas.ReturnItemCreate` (legacy returns): integral
quantity. -/
structure LegacyReturnLine where
  product_id : Nat
  quantity : Int
deriving Repr, DecidableEq

/-- The validation/aggregation loop of the legacy `create_return`
(main.py lines 1394-1398): reject non-positive quantities, sum per
product (quantities are already integers here, no truncation). -/
def legacyReturnAgg (acc : List (Nat × Int)) :
    List LegacyReturnLine → Except Err (List (Nat × Int))
  | [] => .ok acc
  | it :: rest =>
    if it.quantity ≤ 0 then .error (Err.http 400 (.msg "quantity must be positive"))
    else legacyReturnAgg (upsert acc it.product_id 0 (· + it.quantity)) rest

/-- The sufficiency loop of the legacy `create_return` (main.py lines
1424-1430): unlike `create_manager_return`, it raises a 400 at the
*first* short product instead of collecting all shortages. -/
def legacyReturnCheck (uid : Nat) (ps : List Product) :
    List (Nat × Int) → Option Err
  | [] => none
  | (pid, q) :: rest =>
    match ps.find? (isMgrRow uid pid) with
    | none => legacyReturnCheck uid ps rest
    | some p =>
      if q > p.quantity then some (Err.http 400 (.msg "insufficient stock for product"))
      else legacyReturnCheck uid ps rest

/-- Legacy `create_return` (main.py lines 1382-1495): manager-only;
validate and aggregate; all products must be manager non-return rows
(404); first shortage aborts with 400; every involved name must have a
pool row (404); then the same debit/credit loop as
`create_manager_return` (`managerReturnApply`), writing into the legacy
`returns` table. -/
def create_return (db : DB) (u : User) (items : List LegacyReturnLine) :
    Except Err (DB × ManagerReturnDoc) :=
  if u.role ≠ "manager" then .error (Err.http 403 (.msg "forbidden"))
  else if items = [] then .error (Err.http 400 (.msg "items required"))
  else
    match legacyReturnAgg [] items with
    | .error e => .error e
    | .ok aggregated =>
      let product_ids := aggregated.map Prod.fst
      let missing_ids :=
        product_ids.filter (fun pid => (db.products.find? (isMgrRow u.id pid)).isNone)
      if missing_ids ≠ [] then
        .error (Err.http 404 (.msg "products not found in manager stock"))
      else
        match legacyReturnCheck u.id db.products aggregated with
        | some e => .error e
        | none =>
          let base_names :=
            (product_ids.filterMap
              (fun pid => (db.products.find? (isMgrRow u.id pid)).map Product.name)).dedup
          let missing_base :=
            base_names.filter (fun nm => (db.products.filter (isPoolName nm)).getLast?.isNone)
          if missing_base ≠ [] then
            .error (Err.http 404 (.msg "no pool product for some names"))
          else
            let res := managerReturnApply u.id db.products [] aggregated
            let doc : ManagerReturnDoc :=
              { id := db.legacy_returns.length + 1, manager_id := u.id, items := res.2 }
            .ok ({ db with
                    products := res.1
                    legacy_returns := db.legacy_returns ++ [doc] }, doc)

/-- A line of `schemas.IncomingItemCreate`: `quantity : condecimal(gt=0)`. -/
structure IncomingLine where
  product_id : Nat
  quantity : ℚ
deriving Repr, DecidableEq

/-- `schemas.IncomingCreate`: either a list of items or a single
product/quantity pair. -/
structure IncomingReq where
  product_id : Option Nat
  quantity : Option ℚ
  items : Option (List IncomingLine)
deriving Repr, DecidableEq

/-- The validation/aggregation loop of `create_incoming` (main.py lines
1605-1609): reject `item.quantity <= 0` (checked on the decimal), then
`aggregated[pid] = aggregated.get(pid, 0) + int(item.quantity)`. -/
def incomingAgg (acc : List (Nat × Int)) :
    List IncomingLine → Except Err (List (Nat × Int))
  | [] => .ok acc
  | it :: rest =>
    if it.quantity ≤ 0 then .error (Err.http 400 (.msg "quantity must be positive"))
    else incomingAgg (upsert acc it.product_id 0 (· + pyInt it.quantity)) rest

/-- The credit loop of `create_incoming` (main.py lines 1644-1645): each
matching pool row's quantity grows by its aggregated amount
(`(product.quantity or 0) + aggregated[product.id]`; `or 0` is the
identity on a non-null integer). -/
def incomingApply (ps : List Product) : List (Nat × Int) → List Product
  | [] => ps
  | (pid, q) :: rest =>
    incomingApply
      (modifyFirst (isPoolRow pid) (fun p => { p with quantity := p.quantity + q }) ps) rest

/-- `create_incoming` (main.py lines 1581-1680): admin-only; the item
list comes from `items` when non-empty, else from the single
product/quantity pair; aggregate; every product must be a pool
non-return row (the Python `len(found_ids) != len(product_ids)`
comparison over the distinct dict keys is equivalent to "some id has no
matching row"); credit each pool row and write the `Incoming` document. -/
def create_incoming (db : DB) (u : User) (req : IncomingReq) :
    Except Err (DB × Nat) :=
  if u.role ≠ "admin" then .error (Err.http 403 (.msg "forbidden"))
  else
    let items : List IncomingLine :=
      match req.items with
      | some l =>
        if l ≠ [] then l
        else
          match req.product_id, req.quantity with
          | some pid, some q => [⟨pid, q⟩]
          | _, _ => []
      | none =>
        match req.product_id, req.quantity with
        | some pid, some q => [⟨pid, q⟩]
        | _, _ => []
    if items = [] then .error (Err.http 400 (.msg "items required"))
    else
      match incomingAgg [] items with
      | .error e => .error e
      | .ok aggregated =>
        let product_ids := aggregated.map Prod.fst
        if product_ids = [] then .error (Err.http 400 (.msg "items required"))
        else
          let missing_ids :=
            product_ids.filter (fun pid => (db.products.find? (isPoolRow pid)).isNone)
          if missing_ids ≠ [] then .error (Err.http 404 (.msg "product not found"))
          else
            let doc : IncomingDoc := { id := db.incomings.length + 1, items := aggregated }
            .ok ({ db with
                    products := incomingApply db.products aggregated
                    incomings := db.incomings ++ [doc] }, doc.id)

/-! ## Well-formedness

The state invariant maintained by the operation surface: every product
quantity is non-negative, and every stored dispatch has pairwise-distinct
line product ids and positive line quantities (both guaranteed by
`create_dispatch`, which writes aggregated validated lines). -/

/-- The ledger invariant together with the shape facts on which it
depends: product ids are unique (the table's primary key) and below the
id counter (the SERIAL sequence), and stored dispatches have
pairwise-distinct line product ids with positive quantities. -/
def WF (db : DB) : Prop :=
  (∀ p ∈ db.products, 0 ≤ p.quantity) ∧
  ((db.products.map Product.id).Nodup ∧
    ∀ p ∈ db.products, p.id < db.next_product_id) ∧
  (∀ d ∈ db.dispatches,
    (d.items.map DispatchItem.product_id).Nodup ∧ ∀ it ∈ d.items, 0 < it.quantity)

instance (db : DB) : Decidable (WF db) := by
  unfold WF
  infer_instance

/-! ## Pure aggregation folds and request-level aggregates

The validation loops above interleave guard checks with dict updates.
`sumFold` (and `dispatchFold`) are the same folds without the guards;
when every guard passes, each loop returns `.ok` of the corresponding
pure fold.  The `…Qty`/`lastPriceD` functions are the request-level
characterisations (sum over the lines for one product; last price seen
for one product) that the fold is proved to compute. -/

/-- The guard-free sum-per-key fold underlying the aggregation loops. -/
def sumFold {α : Type} (key : α → Nat) (val : α → Int) (acc : List (Nat × Int)) :
    List α → List (Nat × Int)
  | [] => acc
  | it :: rest => sumFold key val (upsert acc (key it) 0 (· + val it)) rest

/-- The guard-free fold underlying `dispatchAgg`. -/
def dispatchFold (acc : List (Nat × (Int × ℚ))) : List DispatchLine → List (Nat × (Int × ℚ))
  | [] => acc
  | it :: rest =>
    dispatchFold
      (upsert acc it.product_id (0, it.price) (fun a => (a.1 + it.quantity, it.price))) rest

/-- Total quantity requested for one product across a dispatch request. -/
def dispatchReqQty (items : List DispatchLine) (pid : Nat) : Int :=
  ((items.filter (fun it => decide (it.product_id = pid))).map DispatchLine.quantity).sum

/-- The last-seen price for one product across a dispatch request. -/
def lastPriceD (items : List DispatchLine) (pid : Nat) : Option ℚ :=
  match items with
  | [] => none
  | it :: rest =>
    match lastPriceD rest pid with
    | some pr => some pr
    | none => if it.product_id = pid then some it.price else none

/-- Total truncated quantity requested for one product across a shop
order request. -/
def shopOrderReqQty (items : List ShopOrderLine) (pid : Nat) : Int :=
  ((items.filter (fun it => decide (it.product_id = pid))).map (fun it => pyInt it.quantity)).sum

/-- Total truncated quantity for one product across a return request. -/
def returnReqQty (items : List ReturnLine) (pid : Nat) : Int :=
  ((items.filter (fun it => decide (it.product_id = pid))).map (fun it => pyInt it.quantity)).sum

/-- Total quantity for one product across a legacy return request. -/
def legacyReturnReqQty (items : List LegacyReturnLine) (pid : Nat) : Int :=
  ((items.filter (fun it => decide (it.product_id = pid))).map LegacyReturnLine.quantity).sum

/-! ## Concrete states used by witnesses and counterexamples -/

/-- The admin actor. -/
def adminUser : User := ⟨1, "admin"⟩

/-- The manager actor (id 2). -/
def mgrUser : User := ⟨2, "manager"⟩

/-- Pool product "P": id 10, quantity 100, price 5. -/
def poolP : Product := ⟨10, "P", 100, 5, none, false⟩

/-- Pool product "Q": id 11, quantity 50, price 7. -/
def poolQ : Product := ⟨11, "Q", 50, 7, none, false⟩

/-- Manager 2's row for "P": id 20, quantity 5, price 4. -/
def mgrP : Product := ⟨20, "P", 5, 4, some 2, false⟩

/-- Shop 30 belonging to manager 2. -/
def shopA : Shop := ⟨30, some 2⟩

/-- A small well-stocked state. -/
def baseDB : DB :=
  { users := [adminUser, mgrUser], products := [poolP, poolQ, mgrP], shops := [shopA],
    dispatches := [], shop_returns := [], manager_returns := [], legacy_returns := [],
    orders := [], incomings := [], next_product_id := 100 }

/-- Manager 2's row for "R": a name with no pool counterpart. -/
def mgrR : Product := ⟨21, "R", 4, 6, some 2, false⟩

/-- `baseDB` plus `mgrR`: manager 2 holds a product whose name has no
non-return pool row. -/
def noPoolDB : DB := { baseDB with products := [poolP, poolQ, mgrP, mgrR] }

/-- `noPoolDB` plus a pending dispatch asking for 300 of product 10
(pool holds 100): every shortage path can fire. -/
def shortDB : DB :=
  { noPoolDB with dispatches := [⟨1, 2, some "pending", none, [⟨10, 300, some 5⟩]⟩] }

/-- `baseDB` plus a pending dispatch (30 of product 10 at price 5) for
manager 2. -/
def pendingDB : DB :=
  { baseDB with dispatches := [⟨1, 2, some "pending", none, [⟨10, 30, some 5⟩]⟩] }

/-- `baseDB` plus an already-sent dispatch for manager 2. -/
def sentDB : DB :=
  { baseDB with dispatches := [⟨1, 2, some "sent", some 3, [⟨10, 3, some 5⟩]⟩] }

/-! ## Lemmas about the list helpers -/

theorem alookup_upsert {α : Type} (l : List (Nat × α)) (k k' : Nat) (d : α) (f : α → α) :
    alookup (upsert l k d f) k' =
      if k = k' then some (f ((alookup l k).getD d)) else alookup l k' := by
  induction l with
  | nil => by_cases h : k = k' <;> simp [upsert, alookup, h]
  | cons x t ih =>
    obtain ⟨k₀, a⟩ := x
    by_cases h0 : k₀ = k
    · subst h0
      by_cases h1 : k₀ = k'
      · subst h1; simp [upsert, alookup]
      · simp [upsert, alookup, h1]
    · by_cases h1 : k₀ = k'
      · subst h1
        simp [upsert, alookup, h0, Ne.symm h0]
      · simp [upsert, alookup, h0, h1, ih]

theorem upsert_keys {α : Type} (l : List (Nat × α)) (k : Nat) (d : α) (f : α → α) :
    (upsert l k d f).map Prod.fst =
      if (alookup l k).isSome then l.map Prod.fst else l.map Prod.fst ++ [k] := by
  induction l with
  | nil => simp [upsert, alookup]
  | cons x t ih =>
    obtain ⟨k₀, a⟩ := x
    by_cases h0 : k₀ = k
    · subst h0; simp [upsert, alookup]
    · simp only [upsert, if_neg h0, List.map, alookup, if_neg h0, ih]
      by_cases h : (alookup t k).isSome <;> simp [h]

theorem mem_upsert_val {α : Type} (l : List (Nat × α)) (k : Nat) (d : α) (f : α → α)
    (x : Nat × α) :
    x ∈ upsert l k d f → x ∈ l ∨ x = (k, f ((alookup l k).getD d)) := by
  induction l with
  | nil =>
    intro hx
    simp only [upsert, List.mem_singleton] at hx
    exact Or.inr (by simpa [alookup] using hx)
  | cons y t ih =>
    obtain ⟨k₀, a⟩ := y
    intro hx
    by_cases h0 : k₀ = k
    · subst h0
      simp only [upsert, List.mem_cons, reduceIte] at hx
      rcases hx with h | h
      · exact Or.inr (by simpa [alookup] using h)
      · exact Or.inl (List.mem_cons_of_mem _ h)
    · simp only [upsert, if_neg h0, List.mem_cons] at hx
      rcases hx with h | h
      · exact Or.inl (by simp [h])
      · rcases ih h with h' | h'
        · exact Or.inl (List.mem_cons_of_mem _ h')
        · refine Or.inr (by simpa [alookup, h0] using h')

theorem modifyFirst_of_find?_none {α : Type} {p : α → Bool} (f : α → α) {l : List α}
    (h : l.find? p = none) : modifyFirst p f l = l := by
  induction l with
  | nil => rfl
  | cons x t ih =>
    rw [List.find?_eq_none] at h
    have hx : p x = false := by
      have := h x (List.mem_cons_self x t)
      simpa using this
    have ht : t.find? p = none := by
      rw [List.find?_eq_none]
      exact fun y hy => h y (List.mem_cons_of_mem _ hy)
    simp [modifyFirst, hx, ih ht]

theorem find?_modifyFirst_disjoint {α : Type} (p q : α → Bool) (f : α → α) (l : List α)
    (hpq : ∀ x ∈ l, p x = true → q x = false)
    (hf : ∀ x ∈ l, p x = true → q (f x) = false) :
    (modifyFirst p f l).find? q = l.find? q := by
  induction l with
  | nil => rfl
  | cons x t ih =>
    have hmem := List.mem_cons_self x t
    by_cases hx : p x = true
    · simp only [modifyFirst, if_pos hx]
      rw [List.find?_cons_of_neg _ (by simp [hf x hmem hx]),
        List.find?_cons_of_neg _ (by simp [hpq x hmem hx])]
    · simp only [modifyFirst, if_neg hx]
      by_cases hq : q x = true
      · rw [List.find?_cons_of_pos _ hq, List.find?_cons_of_pos _ hq]
      · rw [List.find?_cons_of_neg _ (by simpa using hq),
          List.find?_cons_of_neg _ (by simpa using hq),
          ih (fun y hy => hpq y (List.mem_cons_of_mem _ hy))
            (fun y hy => hf y (List.mem_cons_of_mem _ hy))]

theorem filter_modifyFirst_disjoint {α : Type} (p q : α → Bool) (f : α → α) (l : List α)
    (hpq : ∀ x ∈ l, p x = true → q x = false)
    (hf : ∀ x ∈ l, p x = true → q (f x) = false) :
    (modifyFirst p f l).filter q = l.filter q := by
  induction l with
  | nil => rfl
  | cons x t ih =>
    have hmem := List.mem_cons_self x t
    have ihr := ih (fun y hy => hpq y (List.mem_cons_of_mem _ hy))
      (fun y hy => hf y (List.mem_cons_of_mem _ hy))
    by_cases hx : p x = true
    · simp only [modifyFirst, if_pos hx, List.filter_cons, hf x hmem hx, hpq x hmem hx]
      simp
    · simp only [modifyFirst, if_neg hx, List.filter_cons, ihr]

theorem find?_modifyFirst_self {α : Type} (p : α → Bool) (f : α → α) (l : List α)
    (hf : ∀ x, p (f x) = p x) :
    (modifyFirst p f l).find? p = (l.find? p).map f := by
  induction l with
  | nil => rfl
  | cons x t ih =>
    by_cases hx : p x = true
    · simp only [modifyFirst, if_pos hx]
      rw [List.find?_cons_of_pos _ (by rw [hf]; exact hx), List.find?_cons_of_pos _ hx]
      rfl
    · simp only [modifyFirst, if_neg hx]
      rw [List.find?_cons_of_neg _ (by simpa using hx),
        List.find?_cons_of_neg _ (by simpa using hx), ih]

theorem mem_modifyFirst {α : Type} (p : α → Bool) (f : α → α) (l : List α) (x : α) :
    x ∈ modifyFirst p f l → x ∈ l ∨ ∃ a, l.find? p = some a ∧ x = f a := by
  induction l with
  | nil => intro hx; exact Or.inl hx
  | cons y t ih =>
    intro hx
    by_cases hy : p y = true
    · simp only [modifyFirst, if_pos hy, List.mem_cons] at hx
      rcases hx with h | h
      · exact Or.inr ⟨y, List.find?_cons_of_pos _ hy, h⟩
      · exact Or.inl (List.mem_cons_of_mem _ h)
    · simp only [modifyFirst, if_neg hy, List.mem_cons] at hx
      rcases hx with h | h
      · exact Or.inl (by simp [h])
      · rcases ih h with h' | h'
        · exact Or.inl (List.mem_cons_of_mem _ h')
        · rcases h' with ⟨a, ha, hxa⟩
          exact Or.inr ⟨a, by rw [List.find?_cons_of_neg _ (by simpa using hy)]; exact ha, hxa⟩

theorem alookup_isSome_iff {α : Type} (l : List (Nat × α)) (k : Nat) :
    (alookup l k).isSome ↔ k ∈ l.map Prod.fst := by
  induction l with
  | nil => simp [alookup]
  | cons x t ih =>
    obtain ⟨k₀, a⟩ := x
    by_cases h : k₀ = k
    · subst h; simp [alookup]
    · simp [alookup, h, ih, Ne.symm h]

theorem alookup_eq_none_iff {α : Type} (l : List (Nat × α)) (k : Nat) :
    alookup l k = none ↔ k ∉ l.map Prod.fst := by
  rw [← alookup_isSome_iff, Option.isSome_iff_ne_none]
  tauto

theorem mem_of_alookup_eq_some {α : Type} {l : List (Nat × α)} {k : Nat} {v : α}
    (h : alookup l k = some v) : (k, v) ∈ l := by
  induction l with
  | nil => simp [alookup] at h
  | cons x t ih =>
    obtain ⟨k₀, a⟩ := x
    by_cases h0 : k₀ = k
    · subst h0
      simp only [alookup, reduceIte, Option.some_inj] at h
      simp [h]
    · simp only [alookup, if_neg h0] at h
      exact List.mem_cons_of_mem _ (ih h)

theorem alookup_eq_some_of_mem {α : Type} {l : List (Nat × α)} {k : Nat} {v : α}
    (hnd : (l.map Prod.fst).Nodup) (hm : (k, v) ∈ l) : alookup l k = some v := by
  induction l with
  | nil => simp at hm
  | cons x t ih =>
    obtain ⟨k₀, a⟩ := x
    simp only [List.map_cons, List.nodup_cons] at hnd
    rcases List.mem_cons.mp hm with h | h
    · rw [Prod.mk.injEq] at h
      obtain ⟨h1, h2⟩ := h
      subst h1
      subst h2
      simp [alookup]
    · have hk : k₀ ≠ k := by
        intro he
        subst he
        exact hnd.1 (by simpa using List.mem_map_of_mem Prod.fst h)
      simp only [alookup, if_neg hk]
      exact ih hnd.2 h

theorem sumFold_alookup {α : Type} (key : α → Nat) (val : α → Int) (items : List α)
    (acc : List (Nat × Int)) (pid : Nat) :
    alookup (sumFold key val acc items) pid =
      if pid ∈ items.map key then
        some (((alookup acc pid).getD 0) +
          ((items.filter (fun it => decide (key it = pid))).map val).sum)
      else alookup acc pid := by
  induction items generalizing acc with
  | nil => simp [sumFold]
  | cons it rest ih =>
    simp only [sumFold]
    rw [ih]
    have hlk := alookup_upsert acc (key it) pid 0 (· + val it)
    by_cases hk : key it = pid
    · subst hk
      by_cases hr : key it ∈ rest.map key
      · simp only [hr, if_true, List.map_cons, List.mem_cons, true_or, if_true, hlk, reduceIte,
          List.filter_cons, decide_True, List.map_cons, List.sum_cons]
        have : ((alookup acc (key it)).getD 0 + val it : Int) +
            ((rest.filter (fun x => decide (key x = key it))).map val).sum =
            (alookup acc (key it)).getD 0 +
              (val it + ((rest.filter (fun x => decide (key x = key it))).map val).sum) := by
          ring
        simp [this]
      · simp only [hr, if_false, hlk, reduceIte, List.map_cons, List.mem_cons, true_or, if_true,
          List.filter_cons, decide_True, List.map_cons, List.sum_cons]
        have hnil : rest.filter (fun x => decide (key x = key it)) = [] := by
          rw [List.filter_eq_nil_iff]
          intro x hx
          simp only [decide_eq_true_eq]
          intro he
          exact hr (he ▸ List.mem_map_of_mem key hx)
        simp [hnil]
    · have hmem : (pid ∈ (it :: rest).map key) ↔ (pid ∈ rest.map key) := by
        simp only [List.map_cons, List.mem_cons]
        constructor
        · rintro (h | h)
          · exact absurd h.symm hk
          · exact h
        · exact Or.inr
      have hlk' : alookup (upsert acc (key it) 0 (· + val it)) pid = alookup acc pid := by
        rw [hlk, if_neg hk]
      have hfil : (it :: rest).filter (fun x => decide (key x = pid)) =
          rest.filter (fun x => decide (key x = pid)) := by
        simp [List.filter_cons, hk]
      by_cases hr : pid ∈ rest.map key
      · simp [hr, hmem.mpr hr, hlk', hfil]
      · simp only [hr, if_false, hlk']
        rw [if_neg (fun h => hr (hmem.mp h))]

theorem sumFold_mem_keys {α : Type} (key : α → Nat) (val : α → Int) (items : List α)
    (acc : List (Nat × Int)) (k : Nat) :
    k ∈ (sumFold key val acc items).map Prod.fst ↔
      k ∈ acc.map Prod.fst ∨ k ∈ items.map key := by
  rw [← alookup_isSome_iff, sumFold_alookup]
  by_cases h : k ∈ items.map key
  · simp [h]
  · rw [if_neg h, alookup_isSome_iff]
    tauto

theorem sumFold_keys_nodup {α : Type} (key : α → Nat) (val : α → Int) (items : List α)
    (acc : List (Nat × Int)) (h : (acc.map Prod.fst).Nodup) :
    ((sumFold key val acc items).map Prod.fst).Nodup := by
  induction items generalizing acc with
  | nil => exact h
  | cons it rest ih =>
    simp only [sumFold]
    refine ih _ ?_
    rw [upsert_keys]
    by_cases hs : (alookup acc (key it)).isSome
    · simpa [hs] using h
    · rw [if_neg hs]
      rw [List.nodup_append]
      refine ⟨h, List.nodup_singleton _, ?_⟩
      intro a ha hb
      simp only [List.mem_singleton] at hb
      subst hb
      rw [← alookup_isSome_iff] at ha
      exact hs ha

theorem sumFold_val_pos {α : Type} (key : α → Nat) (val : α → Int) (items : List α)
    (acc : List (Nat × Int)) (hacc : ∀ e ∈ acc, 0 < e.2)
    (hval : ∀ it ∈ items, 0 < val it) :
    ∀ e ∈ sumFold key val acc items, 0 < e.2 := by
  induction items generalizing acc with
  | nil => exact hacc
  | cons it rest ih =>
    simp only [sumFold]
    refine ih _ ?_ (fun x hx => hval x (List.mem_cons_of_mem _ hx))
    intro e he
    rcases mem_upsert_val _ _ _ _ _ he with h | h
    · exact hacc e h
    · subst h
      simp only
      have hv := hval it (List.mem_cons_self it rest)
      rcases ho : alookup acc (key it) with _ | v
      · simpa [ho] using hv
      · have := hacc _ (mem_of_alookup_eq_some ho)
        simp only [ho, Option.getD_some]
        omega

/-! ## Facts about `pyInt` (Python truncation) -/

theorem pyInt_eq_floor (q : ℚ) (h : 0 ≤ q) : pyInt q = ⌊q⌋ := by
  unfold pyInt
  rw [Rat.floor_def, Int.tdiv_eq_ediv (Rat.num_nonneg.mpr h) (by positivity)]

theorem pyInt_nonneg (q : ℚ) (h : 0 < q) : 0 ≤ pyInt q :=
  Int.tdiv_nonneg (Rat.num_nonneg.mpr h.le) (by positivity)

theorem pyInt_eq_zero_of_lt_one (q : ℚ) (h0 : 0 < q) (h1 : q < 1) : pyInt q = 0 := by
  rw [pyInt_eq_floor q h0.le, Int.floor_eq_zero_iff, Set.mem_Ico]
  exact ⟨h0.le, h1⟩

theorem one_le_pyInt (q : ℚ) (h : 1 ≤ q) : 1 ≤ pyInt q := by
  rw [pyInt_eq_floor q (by linarith)]
  exact Int.le_floor.mpr (by exact_mod_cast h)

/-! ## The row filters depend only on id, owner, name and the return
flag, never on quantity or price -/

theorem isPoolRow_set_quantity (pid : Nat) (p : Product) (v : Int) :
    isPoolRow pid { p with quantity := v } = isPoolRow pid p := rfl

theorem isPoolName_set_quantity (nm : String) (p : Product) (v : Int) :
    isPoolName nm { p with quantity := v } = isPoolName nm p := rfl

theorem isMgrRow_set_quantity (uid pid : Nat) (p : Product) (v : Int) :
    isMgrRow uid pid { p with quantity := v } = isMgrRow uid pid p := rfl

theorem isMgrName_set_quantity (uid : Nat) (nm : String) (p : Product) (v : Int) :
    isMgrName uid nm { p with quantity := v } = isMgrName uid nm p := rfl

theorem isMgrAnyRow_set_quantity (uid pid : Nat) (p : Product) (v : Int) :
    isMgrAnyRow uid pid { p with quantity := v } = isMgrAnyRow uid pid p := rfl

theorem isPoolRow_set_qp (pid : Nat) (p : Product) (v : Int) (w : ℚ) :
    isPoolRow pid { p with quantity := v, price := w } = isPoolRow pid p := rfl

theorem isPoolName_set_qp (nm : String) (p : Product) (v : Int) (w : ℚ) :
    isPoolName nm { p with quantity := v, price := w } = isPoolName nm p := rfl

theorem isMgrRow_set_qp (uid pid : Nat) (p : Product) (v : Int) (w : ℚ) :
    isMgrRow uid pid { p with quantity := v, price := w } = isMgrRow uid pid p := rfl

theorem isMgrName_set_qp (uid : Nat) (nm : String) (p : Product) (v : Int) (w : ℚ) :
    isMgrName uid nm { p with quantity := v, price := w } = isMgrName uid nm p := rfl

theorem isMgrAnyRow_set_qp (uid pid : Nat) (p : Product) (v : Int) (w : ℚ) :
    isMgrAnyRow uid pid { p with quantity := v, price := w } = isMgrAnyRow uid pid p := rfl

/-! ## The validation loops compute the pure folds when every guard
passes -/

theorem returnAgg_eq_ok (items : List ReturnLine) (acc : List (Nat × Int))
    (h : ∀ it ∈ items, 0 < pyInt it.quantity) :
    returnAgg acc items =
      .ok (sumFold ReturnLine.product_id (fun it => pyInt it.quantity) acc items) := by
  induction items generalizing acc with
  | nil => rfl
  | cons it rest ih =>
    have h0 := h it (List.mem_cons_self it rest)
    simp only [returnAgg, sumFold]
    rw [if_neg (by omega)]
    exact ih _ (fun x hx => h x (List.mem_cons_of_mem _ hx))

theorem legacyReturnAgg_eq_ok (items : List LegacyReturnLine) (acc : List (Nat × Int))
    (h : ∀ it ∈ items, 0 < it.quantity) :
    legacyReturnAgg acc items =
      .ok (sumFold LegacyReturnLine.product_id LegacyReturnLine.quantity acc items) := by
  induction items generalizing acc with
  | nil => rfl
  | cons it rest ih =>
    have h0 := h it (List.mem_cons_self it rest)
    simp only [legacyReturnAgg, sumFold]
    rw [if_neg (by omega)]
    exact ih _ (fun x hx => h x (List.mem_cons_of_mem _ hx))

theorem incomingAgg_eq_ok (items : List IncomingLine) (acc : List (Nat × Int))
    (h : ∀ it ∈ items, 0 < it.quantity) :
    incomingAgg acc items =
      .ok (sumFold IncomingLine.product_id (fun it => pyInt it.quantity) acc items) := by
  induction items generalizing acc with
  | nil => rfl
  | cons it rest ih =>
    have h0 := h it (List.mem_cons_self it rest)
    simp only [incomingAgg, sumFold]
    rw [if_neg (by exact not_le.mpr h0)]
    exact ih _ (fun x hx => h x (List.mem_cons_of_mem _ hx))

theorem shopOrderAgg_eq_ok (items : List ShopOrderLine) (totals : List (Nat × Int))
    (lines : List LineItem)
    (h : ∀ it ∈ items, 0 < pyInt it.quantity ∧ (∀ pr, it.price = some pr → ¬ pr < 0)) :
    shopOrderAgg totals lines items =
      .ok (sumFold ShopOrderLine.product_id (fun it => pyInt it.quantity) totals items,
        lines ++ items.map (fun it => ⟨it.product_id, pyInt it.quantity, it.price, it.is_bonus⟩)) := by
  induction items generalizing totals lines with
  | nil => simp [shopOrderAgg, sumFold]
  | cons it rest ih =>
    obtain ⟨h0, h1⟩ := h it (List.mem_cons_self it rest)
    have htail := fun x hx => h x (List.mem_cons_of_mem _ hx)
    simp only [shopOrderAgg, sumFold]
    rw [if_neg (by omega)]
    rcases hp : it.price with _ | pr
    · dsimp only
      rw [ih _ _ htail]
      simp [hp]
    · dsimp only
      rw [if_neg (h1 pr hp), ih _ _ htail]
      simp [hp]

theorem dispatchAgg_eq_ok (items : List DispatchLine) (acc : List (Nat × (Int × ℚ)))
    (h : ∀ it ∈ items, 0 < it.quantity ∧ ¬ it.price < 0) :
    dispatchAgg acc items = .ok (dispatchFold acc items) := by
  induction items generalizing acc with
  | nil => rfl
  | cons it rest ih =>
    obtain ⟨h0, h1⟩ := h it (List.mem_cons_self it rest)
    simp only [dispatchAgg, dispatchFold]
    rw [if_neg (by omega), if_neg h1]
    exact ih _ (fun x hx => h x (List.mem_cons_of_mem _ hx))

theorem dispatchFold_alookup_fst (items : List DispatchLine) (acc : List (Nat × (Int × ℚ)))
    (pid : Nat) :
    (alookup (dispatchFold acc items) pid).map Prod.fst =
      if pid ∈ items.map DispatchLine.product_id then
        some (((alookup acc pid).map Prod.fst).getD 0 + dispatchReqQty items pid)
      else (alookup acc pid).map Prod.fst := by
  induction items generalizing acc with
  | nil => simp [dispatchFold, dispatchReqQty]
  | cons it rest ih =>
    simp only [dispatchFold]
    rw [ih]
    have hlk := alookup_upsert acc it.product_id pid (0, it.price)
      (fun a => (a.1 + it.quantity, it.price))
    by_cases hk : it.product_id = pid
    · subst hk
      have hfst : (alookup (upsert acc it.product_id (0, it.price)
          (fun a => (a.1 + it.quantity, it.price))) it.product_id).map Prod.fst =
          some (((alookup acc it.product_id).map Prod.fst).getD 0 + it.quantity) := by
        rw [hlk, if_pos rfl]
        rcases alookup acc it.product_id with _ | v <;> simp
      by_cases hr : it.product_id ∈ rest.map DispatchLine.product_id
      · simp only [hr, if_true, List.map_cons, List.mem_cons, true_or, if_true, hfst]
        have : dispatchReqQty (it :: rest) it.product_id =
            it.quantity + dispatchReqQty rest it.product_id := by
          simp [dispatchReqQty, List.filter_cons]
        rw [this]
        congr 1
        simp only [Option.getD_some]
        ring
      · simp only [hr, if_false, hfst, List.map_cons, List.mem_cons, true_or, if_true]
        have hnil : rest.filter (fun x => decide (x.product_id = it.product_id)) = [] := by
          rw [List.filter_eq_nil_iff]
          intro x hx
          simp only [decide_eq_true_eq]
          intro he
          exact hr (he ▸ List.mem_map_of_mem DispatchLine.product_id hx)
        have : dispatchReqQty (it :: rest) it.product_id = it.quantity := by
          simp [dispatchReqQty, List.filter_cons, hnil]
        rw [this]
    · have hmem : (pid ∈ (it :: rest).map DispatchLine.product_id) ↔
          (pid ∈ rest.map DispatchLine.product_id) := by
        simp only [List.map_cons, List.mem_cons]
        constructor
        · rintro (h | h)
          · exact absurd h.symm hk
          · exact h
        · exact Or.inr
      have hlk' : alookup (upsert acc it.product_id (0, it.price)
          (fun a => (a.1 + it.quantity, it.price))) pid = alookup acc pid := by
        rw [hlk, if_neg hk]
      have hfil : dispatchReqQty (it :: rest) pid = dispatchReqQty rest pid := by
        simp [dispatchReqQty, List.filter_cons, hk]
      by_cases hr : pid ∈ rest.map DispatchLine.product_id
      · simp [hr, hmem.mpr hr, hlk', hfil]
      · simp only [hr, if_false, hlk']
        rw [if_neg (fun h => hr (hmem.mp h))]

theorem lastPriceD_isSome_iff (items : List DispatchLine) (pid : Nat) :
    (lastPriceD items pid).isSome ↔ pid ∈ items.map DispatchLine.product_id := by
  induction items with
  | nil => simp [lastPriceD]
  | cons it rest ih =>
    rcases h : lastPriceD rest pid with _ | pr
    · rw [h] at ih
      by_cases hk : it.product_id = pid
      · simp [lastPriceD, h, hk]
      · have : pid ∉ rest.map DispatchLine.product_id := by
          intro hm
          have := ih.mpr hm
          simp at this
        simp only [lastPriceD, h, List.map_cons, List.mem_cons]
        constructor
        · intro hs
          rw [if_neg hk] at hs
          simp at hs
        · rintro (he | he)
          · exact absurd he.symm hk
          · exact absurd he this
    · have hm := ih.mp (by rw [h]; simp)
      simp [lastPriceD, h, hm]

theorem lastPriceD_cons_ne (it : DispatchLine) (rest : List DispatchLine) (pid : Nat)
    (hk : it.product_id ≠ pid) : lastPriceD (it :: rest) pid = lastPriceD rest pid := by
  rcases h : lastPriceD rest pid with _ | pr <;> simp [lastPriceD, h, hk]

theorem dispatchFold_alookup_snd (items : List DispatchLine) (acc : List (Nat × (Int × ℚ)))
    (pid : Nat) :
    (alookup (dispatchFold acc items) pid).map Prod.snd =
      if pid ∈ items.map DispatchLine.product_id then lastPriceD items pid
      else (alookup acc pid).map Prod.snd := by
  induction items generalizing acc with
  | nil => simp [dispatchFold]
  | cons it rest ih =>
    simp only [dispatchFold]
    rw [ih]
    have hlk := alookup_upsert acc it.product_id pid (0, it.price)
      (fun a => (a.1 + it.quantity, it.price))
    by_cases hk : it.product_id = pid
    · subst hk
      have hsnd : (alookup (upsert acc it.product_id (0, it.price)
          (fun a => (a.1 + it.quantity, it.price))) it.product_id).map Prod.snd =
          some it.price := by
        rw [hlk, if_pos rfl]
        rcases alookup acc it.product_id with _ | v <;> simp
      by_cases hr : it.product_id ∈ rest.map DispatchLine.product_id
      · have hsome := (lastPriceD_isSome_iff rest it.product_id).mpr hr
        rcases hlp : lastPriceD rest it.product_id with _ | pr
        · rw [hlp] at hsome; simp at hsome
        · have hcons : lastPriceD (it :: rest) it.product_id = some pr := by
            simp [lastPriceD, hlp]
          simp only [hr, if_true, List.map_cons, List.mem_cons, true_or, if_true, hlp, hcons]
      · have hnone : lastPriceD rest it.product_id = none := by
          rcases hlp : lastPriceD rest it.product_id with _ | pr
          · rfl
          · exact absurd ((lastPriceD_isSome_iff rest it.product_id).mp (by rw [hlp]; simp)) hr
        have hcons : lastPriceD (it :: rest) it.product_id = some it.price := by
          simp [lastPriceD, hnone]
        simp only [hr, if_false, hsnd, List.map_cons, List.mem_cons, true_or, if_true, hcons]
    · have hmem : (pid ∈ (it :: rest).map DispatchLine.product_id) ↔
          (pid ∈ rest.map DispatchLine.product_id) := by
        simp only [List.map_cons, List.mem_cons]
        constructor
        · rintro (h | h)
          · exact absurd h.symm hk
          · exact h
        · exact Or.inr
      have hlk' : alookup (upsert acc it.product_id (0, it.price)
          (fun a => (a.1 + it.quantity, it.price))) pid = alookup acc pid := by
        rw [hlk, if_neg hk]
      have hcons := lastPriceD_cons_ne it rest pid hk
      by_cases hr : pid ∈ rest.map DispatchLine.product_id
      · simp [hr, hmem.mpr hr, hcons]
      · simp only [hr, if_false, hlk']
        rw [if_neg (fun h => hr (hmem.mp h))]

theorem sumFold_val_nonneg {α : Type} (key : α → Nat) (val : α → Int) (items : List α)
    (acc : List (Nat × Int)) (hacc : ∀ e ∈ acc, 0 ≤ e.2)
    (hval : ∀ it ∈ items, 0 ≤ val it) :
    ∀ e ∈ sumFold key val acc items, 0 ≤ e.2 := by
  induction items generalizing acc with
  | nil => exact hacc
  | cons it rest ih =>
    simp only [sumFold]
    refine ih _ ?_ (fun x hx => hval x (List.mem_cons_of_mem _ hx))
    intro e he
    rcases mem_upsert_val _ _ _ _ _ he with h | h
    · exact hacc e h
    · subst h
      simp only
      have hv := hval it (List.mem_cons_self it rest)
      rcases ho : alookup acc (key it) with _ | v
      · simpa [ho] using hv
      · have := hacc _ (mem_of_alookup_eq_some ho)
        simp only [ho, Option.getD_some]
        omega

theorem dispatchFold_mem_keys (items : List DispatchLine) (acc : List (Nat × (Int × ℚ)))
    (k : Nat) :
    k ∈ (dispatchFold acc items).map Prod.fst ↔
      k ∈ acc.map Prod.fst ∨ k ∈ items.map DispatchLine.product_id := by
  rw [← alookup_isSome_iff, ← alookup_isSome_iff]
  have hmap : ∀ (o : Option (Int × ℚ)), (o.map Prod.fst).isSome = o.isSome := by
    intro o
    rcases o with _ | v <;> simp
  rw [← hmap, ← hmap, dispatchFold_alookup_fst]
  by_cases h : k ∈ items.map DispatchLine.product_id
  · simp [h]
  · simp [h]

theorem dispatchFold_keys_nodup (items : List DispatchLine) (acc : List (Nat × (Int × ℚ)))
    (h : (acc.map Prod.fst).Nodup) :
    ((dispatchFold acc items).map Prod.fst).Nodup := by
  induction items generalizing acc with
  | nil => exact h
  | cons it rest ih =>
    simp only [dispatchFold]
    refine ih _ ?_
    rw [upsert_keys]
    by_cases hs : (alookup acc it.product_id).isSome
    · simpa [hs] using h
    · rw [if_neg hs]
      rw [List.nodup_append]
      refine ⟨h, List.nodup_singleton _, ?_⟩
      intro a ha hb
      simp only [List.mem_singleton] at hb
      subst hb
      rw [← alookup_isSome_iff] at ha
      exact hs ha

/-- Membership in the dispatch aggregation fold started from the empty
dict: the entries are exactly (product, summed quantity, last price). -/
theorem dispatchFold_nil_mem (items : List DispatchLine) (pid : Nat) (q : Int) (pr : ℚ) :
    (pid, (q, pr)) ∈ dispatchFold [] items ↔
      pid ∈ items.map DispatchLine.product_id ∧ q = dispatchReqQty items pid ∧
        lastPriceD items pid = some pr := by
  constructor
  · intro h
    have hnd := dispatchFold_keys_nodup items [] (by simp)
    have hal := alookup_eq_some_of_mem hnd h
    have hf := dispatchFold_alookup_fst items [] pid
    have hsn := dispatchFold_alookup_snd items [] pid
    rw [hal] at hf hsn
    by_cases hm : pid ∈ items.map DispatchLine.product_id
    · rw [if_pos hm] at hf hsn
      simp [alookup] at hf hsn
      exact ⟨hm, hf, hsn.symm⟩
    · rw [if_neg hm] at hf
      simp [alookup] at hf
  · rintro ⟨hm, rfl, hpr⟩
    apply mem_of_alookup_eq_some
    have hf := dispatchFold_alookup_fst items [] pid
    have hsn := dispatchFold_alookup_snd items [] pid
    rw [if_pos hm] at hf hsn
    rw [hpr] at hsn
    rcases ho : alookup (dispatchFold [] items) pid with _ | w
    · rw [ho] at hf
      simp at hf
    · rw [ho] at hf hsn
      obtain ⟨w1, w2⟩ := w
      simp [alookup] at hf hsn
      rw [hf, hsn]

theorem create_dispatch_reduce (db : DB) (u : User) (mid : Nat) (mgr : User)
    (items : List DispatchLine) (now : Nat)
    (hrole : u.role = "admin")
    (hmgr : db.users.find? (fun m => decide (m.id = mid ∧ m.role = "manager")) = some mgr)
    (hne : items ≠ [])
    (hval : ∀ it ∈ items, 0 < it.quantity ∧ ¬ it.price < 0)
    (hfound : ∀ it ∈ items, (db.products.find? (isPoolRow it.product_id)).isSome) :
    create_dispatch db u mid items now =
      (let aggregated := dispatchFold [] items
       let insufficient := aggregated.filterMap (fun (e : Nat × (Int × ℚ)) =>
         let available : Int :=
           match db.products.find? (isPoolRow e.1) with
           | some p => p.quantity
           | none => 0
         if e.2.1 > available then some (Shortage.mk e.1 e.2.1 available) else none)
       if insufficient ≠ [] then .error (Err.http 409 (.insufficient insufficient))
       else
         let d : Dispatch :=
           { id := db.dispatches.length + 1
             manager_id := mid
             status := some "pending"
             accepted_at := none
             items := aggregated.map (fun (e : Nat × (Int × ℚ)) =>
               ⟨e.1, e.2.1, some e.2.2⟩) }
         .ok ({ db with dispatches := db.dispatches ++ [d] }, d.id)) := by
  have hfil : ((dispatchFold [] items).map Prod.fst).filter
      (fun pid => (db.products.find? (isPoolRow pid)).isNone) = [] := by
    rw [List.filter_eq_nil_iff]
    intro pid hpid
    rw [dispatchFold_mem_keys] at hpid
    rcases hpid with h | h
    · simp at h
    · rcases List.mem_map.mp h with ⟨it, hit, rfl⟩
      have hs := hfound it hit
      simp only [Option.isNone_iff_eq_none]
      intro hcon
      rw [hcon] at hs
      simp at hs
  simp only [create_dispatch, hrole, hmgr]
  rw [if_neg (by simp), if_neg hne, dispatchAgg_eq_ok items [] hval]
  simp only [hfil]
  rfl

/-- Membership in an aggregation fold started from the empty dict: the
entries are exactly (product, sum over that product's lines). -/
theorem sumFold_nil_mem {α : Type} (key : α → Nat) (val : α → Int) (items : List α)
    (pid : Nat) (v : Int) :
    (pid, v) ∈ sumFold key val [] items ↔
      pid ∈ items.map key ∧
        v = ((items.filter (fun it => decide (key it = pid))).map val).sum := by
  constructor
  · intro he
    have hnd := sumFold_keys_nodup key val items [] (by simp)
    have hal := alookup_eq_some_of_mem hnd he
    rw [sumFold_alookup] at hal
    by_cases hm : pid ∈ items.map key
    · rw [if_pos hm] at hal
      simp only [alookup, Option.getD_none, zero_add, Option.some_inj] at hal
      exact ⟨hm, hal.symm⟩
    · rw [if_neg hm] at hal
      simp [alookup] at hal
  · rintro ⟨hm, rfl⟩
    apply mem_of_alookup_eq_some
    rw [sumFold_alookup, if_pos hm]
    simp [alookup]

/-- When every product of the request is found and sufficiently stocked,
the collected shortage list is empty. -/
theorem filterMap_short_eq_nil {α : Type} (key : α → Nat) (val : α → Int) (items : List α)
    (find : Nat → Option Product)
    (hfound : ∀ it ∈ items, (find (key it)).isSome)
    (hsuff : ∀ it ∈ items, ∀ p, find (key it) = some p →
      ¬ ((items.filter (fun x => decide (key x = key it))).map val).sum > p.quantity) :
    (sumFold key val [] items).filterMap (fun (e : Nat × Int) =>
      match find e.1 with
      | some p => if e.2 > p.quantity then some (Shortage.mk e.1 e.2 p.quantity) else none
      | none => none) = [] := by
  rw [List.filterMap_eq_nil_iff]
  intro e he
  obtain ⟨pid, v⟩ := e
  rw [sumFold_nil_mem] at he
  obtain ⟨hm, hv⟩ := he
  rcases List.mem_map.mp hm with ⟨it, hit, rfl⟩
  have hs := hfound it hit
  rcases hf : find (key it) with _ | p
  · rw [hf] at hs
  · dsimp only
    rw [if_neg (by rw [hv]; exact hsuff it hit p hf)]

/-- The collected shortage list contains exactly one entry per product
whose summed request exceeds its available quantity, carrying that sum
and that availability. -/
theorem filterMap_short_mem {α : Type} (key : α → Nat) (val : α → Int) (items : List α)
    (find : Nat → Option Product) (s : Shortage) :
    s ∈ (sumFold key val [] items).filterMap (fun (e : Nat × Int) =>
      match find e.1 with
      | some p => if e.2 > p.quantity then some (Shortage.mk e.1 e.2 p.quantity) else none
      | none => none) ↔
      s.product_id ∈ items.map key ∧
      s.requested = ((items.filter (fun x => decide (key x = s.product_id))).map val).sum ∧
      ∃ p, find s.product_id = some p ∧ s.available = p.quantity ∧ s.requested > p.quantity := by
  rw [List.mem_filterMap]
  constructor
  · rintro ⟨e, he, hfn⟩
    obtain ⟨pid, v⟩ := e
    rw [sumFold_nil_mem] at he
    obtain ⟨hm, hv⟩ := he
    rcases hf : find pid with _ | p
    · rw [hf] at hfn; simp at hfn
    · rw [hf] at hfn
      dsimp only at hfn
      by_cases hq : v > p.quantity
      · rw [if_pos hq, Option.some_inj] at hfn
        subst hfn
        exact ⟨hm, hv, p, hf, rfl, hq⟩
      · rw [if_neg hq] at hfn
        simp at hfn
  · rintro ⟨hm, hreq, p, hf, hav, hgt⟩
    refine ⟨(s.product_id, s.requested), ?_, ?_⟩
    · rw [sumFold_nil_mem]
      exact ⟨hm, hreq⟩
    · rw [hf]
      dsimp only
      rw [if_pos hgt]
      cases s
      simp only at hav ⊢
      rw [hav]

/-- Python's `x if x >= 0 else 0` written as in the source
(`if x < 0: x = 0`) equals `max x 0`. -/
theorem if_neg_clamp_eq_max (x : ℚ) : (if x < 0 then 0 else x) = max x 0 := by
  rcases le_or_lt 0 x with h | h
  · rw [if_neg (not_lt.mpr h), max_eq_left h]
  · rw [if_pos h, max_eq_right h.le]

/-! ## Endpoint reduction lemmas

Each lemma pushes a handler through its role/validation/presence guards
under explicit hypotheses, leaving the interesting decision (shortages,
pool lookup, apply loop). -/

theorem create_manager_return_reduce (db : DB) (u : User) (items : List ReturnLine)
    (hrole : u.role = "manager") (hne : items ≠ [])
    (hval : ∀ it ∈ items, 0 < pyInt it.quantity)
    (hfound : ∀ it ∈ items, (db.products.find? (isMgrRow u.id it.product_id)).isSome) :
    create_manager_return db u items =
      (let aggregated := sumFold ReturnLine.product_id (fun it => pyInt it.quantity) [] items
       let insufficient := aggregated.filterMap (fun (e : Nat × Int) =>
         match db.products.find? (isMgrRow u.id e.1) with
         | some p => if e.2 > p.quantity then some (Shortage.mk e.1 e.2 p.quantity) else none
         | none => none)
       if insufficient ≠ [] then .error (Err.http 409 (.insufficient insufficient))
       else
         let product_ids := aggregated.map Prod.fst
         let product_names :=
           (product_ids.filterMap
             (fun pid => (db.products.find? (isMgrRow u.id pid)).map Product.name)).dedup
         let missing_base :=
           product_names.filter (fun nm => (db.products.filter (isPoolName nm)).getLast?.isNone)
         if missing_base ≠ [] then
           .error (Err.http 404 (.msg "no pool product for some names"))
         else
           let res := managerReturnApply u.id db.products [] aggregated
           let doc : ManagerReturnDoc :=
             { id := db.manager_returns.length + 1, manager_id := u.id, items := res.2 }
           .ok ({ db with
                   products := res.1
                   manager_returns := db.manager_returns ++ [doc] }, doc)) := by
  have hfil : ((sumFold ReturnLine.product_id (fun it => pyInt it.quantity) [] items).map
      Prod.fst).filter (fun pid => (db.products.find? (isMgrRow u.id pid)).isNone) = [] := by
    rw [List.filter_eq_nil_iff]
    intro pid hpid
    rw [sumFold_mem_keys] at hpid
    rcases hpid with h | h
    · simp at h
    · rcases List.mem_map.mp h with ⟨it, hit, rfl⟩
      have hs := hfound it hit
      simp only [Option.isNone_iff_eq_none]
      intro hcon
      rw [hcon] at hs
      simp at hs
  simp only [create_manager_return, hrole]
  rw [if_neg (by simp), if_neg hne, returnAgg_eq_ok items [] hval]
  simp only [hfil]
  rfl

theorem create_shop_order_reduce (db : DB) (u : User) (sid : Nat) (shop : Shop)
    (items : List ShopOrderLine) (paid : ℚ)
    (hrole : u.role = "manager")
    (hshop : db.shops.find? (fun s => decide (s.id = sid ∧ s.manager_id = some u.id)) = some shop)
    (hne : items ≠ [])
    (hval : ∀ it ∈ items, 0 < pyInt it.quantity ∧ (∀ pr, it.price = some pr → ¬ pr < 0))
    (hfound : ∀ it ∈ items, (db.products.find? (isMgrRow u.id it.product_id)).isSome) :
    create_shop_order db u sid items paid =
      (let totals := sumFold ShopOrderLine.product_id (fun it => pyInt it.quantity) [] items
       let insufficient := totals.filterMap (fun (e : Nat × Int) =>
         match db.products.find? (isMgrRow u.id e.1) with
         | some p => if e.2 > p.quantity then some (Shortage.mk e.1 e.2 p.quantity) else none
         | none => none)
       if insufficient ≠ [] then .error (Err.http 409 (.insufficient insufficient))
       else .error (Err.attrError "returns")) := by
  have hfil : ((sumFold ShopOrderLine.product_id (fun it => pyInt it.quantity) [] items).map
      Prod.fst).filter (fun pid => (db.products.find? (isMgrRow u.id pid)).isNone) = [] := by
    rw [List.filter_eq_nil_iff]
    intro pid hpid
    rw [sumFold_mem_keys] at hpid
    rcases hpid with h | h
    · simp at h
    · rcases List.mem_map.mp h with ⟨it, hit, rfl⟩
      have hs := hfound it hit
      simp only [Option.isNone_iff_eq_none]
      intro hcon
      rw [hcon] at hs
      simp at hs
  simp only [create_shop_order, hrole, hshop]
  rw [if_neg (by simp), if_neg hne, shopOrderAgg_eq_ok items [] [] hval]
  simp only [hfil]
  rfl

theorem create_shop_return_reduce (db : DB) (u : User) (sid : Nat) (shop : Shop)
    (items : List ReturnLine)
    (hrole : u.role = "manager")
    (hshop : db.shops.find? (fun s => decide (s.id = sid ∧ s.manager_id = some u.id)) = some shop)
    (hne : items ≠ [])
    (hval : ∀ it ∈ items, 0 < pyInt it.quantity)
    (hfound : ∀ it ∈ items, (db.products.find? (isMgrRow u.id it.product_id)).isSome) :
    create_shop_return db u sid items =
      (let aggregated := sumFold ReturnLine.product_id (fun it => pyInt it.quantity) [] items
       let doc : ShopReturnDoc :=
         { id := db.shop_returns.length + 1, manager_id := u.id, shop_id := shop.id,
           items := aggregated }
       .ok ({ db with shop_returns := db.shop_returns ++ [doc] }, doc)) := by
  have hfil : ((sumFold ReturnLine.product_id (fun it => pyInt it.quantity) [] items).map
      Prod.fst).filter (fun pid => (db.products.find? (isMgrRow u.id pid)).isNone) = [] := by
    rw [List.filter_eq_nil_iff]
    intro pid hpid
    rw [sumFold_mem_keys] at hpid
    rcases hpid with h | h
    · simp at h
    · rcases List.mem_map.mp h with ⟨it, hit, rfl⟩
      have hs := hfound it hit
      simp only [Option.isNone_iff_eq_none]
      intro hcon
      rw [hcon] at hs
      simp at hs
  simp only [create_shop_return, hrole, hshop]
  rw [if_neg (by simp), if_neg hne, returnAgg_eq_ok items [] hval]
  simp only [hfil]
  rfl

theorem create_return_reduce (db : DB) (u : User) (items : List LegacyReturnLine)
    (hrole : u.role = "manager") (hne : items ≠ [])
    (hval : ∀ it ∈ items, 0 < it.quantity)
    (hfound : ∀ it ∈ items, (db.products.find? (isMgrRow u.id it.product_id)).isSome) :
    create_return db u items =
      (let aggregated := sumFold LegacyReturnLine.product_id LegacyReturnLine.quantity [] items
       match legacyReturnCheck u.id db.products aggregated with
       | some e => .error e
       | none =>
         let product_ids := aggregated.map Prod.fst
         let base_names :=
           (product_ids.filterMap
             (fun pid => (db.products.find? (isMgrRow u.id pid)).map Product.name)).dedup
         let missing_base :=
           base_names.filter (fun nm => (db.products.filter (isPoolName nm)).getLast?.isNone)
         if missing_base ≠ [] then
           .error (Err.http 404 (.msg "no pool product for some names"))
         else
           let res := managerReturnApply u.id db.products [] aggregated
           let doc : ManagerReturnDoc :=
             { id := db.legacy_returns.length + 1, manager_id := u.id, items := res.2 }
           .ok ({ db with
                   products := res.1
                   legacy_returns := db.legacy_returns ++ [doc] }, doc)) := by
  have hfil : ((sumFold LegacyReturnLine.product_id LegacyReturnLine.quantity [] items).map
      Prod.fst).filter (fun pid => (db.products.find? (isMgrRow u.id pid)).isNone) = [] := by
    rw [List.filter_eq_nil_iff]
    intro pid hpid
    rw [sumFold_mem_keys] at hpid
    rcases hpid with h | h
    · simp at h
    · rcases List.mem_map.mp h with ⟨it, hit, rfl⟩
      have hs := hfound it hit
      simp only [Option.isNone_iff_eq_none]
      intro hcon
      rw [hcon] at hs
      simp at hs
  simp only [create_return, hrole]
  rw [if_neg (by simp), if_neg hne, legacyReturnAgg_eq_ok items [] hval]
  simp only [hfil]
  rfl

/-- If every aggregated requirement is within the available quantity of
its (present) manager row, the legacy per-item check finds nothing. -/
theorem legacyReturnCheck_eq_none (uid : Nat) (ps : List Product) (agg : List (Nat × Int))
    (h : ∀ e ∈ agg, ∀ p, ps.find? (isMgrRow uid e.1) = some p → ¬ e.2 > p.quantity) :
    legacyReturnCheck uid ps agg = none := by
  induction agg with
  | nil => rfl
  | cons e rest ih =>
    obtain ⟨pid, q⟩ := e
    have htail := ih (fun x hx => h x (List.mem_cons_of_mem _ hx))
    simp only [legacyReturnCheck]
    rcases hf : ps.find? (isMgrRow uid pid) with _ | p
    · exact htail
    · dsimp only
      rw [if_neg (h (pid, q) (List.mem_cons_self _ _) p hf)]
      exact htail

/-- The check loop of `accept_dispatch` returns the full list of
shortages when every line's pool row is present. -/
theorem acceptCheck_eq_ok (ps : List Product) (items : List DispatchItem)
    (hfound : ∀ it ∈ items, (ps.find? (isPoolRow it.product_id)).isSome) :
    acceptCheck ps items =
      .ok (items.filterMap (fun (it : DispatchItem) =>
        match ps.find? (isPoolRow it.product_id) with
        | some p =>
          if p.quantity < it.quantity then some (Shortage.mk it.product_id it.quantity p.quantity)
          else none
        | none => none)) := by
  induction items with
  | nil => rfl
  | cons it rest ih =>
    have hs := hfound it (List.mem_cons_self it rest)
    rcases hf : ps.find? (isPoolRow it.product_id) with _ | p
    · rw [hf] at hs; simp at hs
    · have htail := ih (fun x hx => hfound x (List.mem_cons_of_mem _ hx))
      simp only [acceptCheck, hf, htail, List.filterMap_cons]
      by_cases hq : p.quantity < it.quantity
      · simp [hq]
      · simp [hq]

theorem accept_dispatch_reduce (db : DB) (u : User) (did now : Nat) (d : Dispatch)
    (hrole : u.role = "manager")
    (hfind : db.dispatches.find? (fun d' => decide (d'.id = did)) = some d)
    (hown : d.manager_id = u.id)
    (hstat : d.status.getD "pending" = "pending")
    (hne : d.items ≠ [])
    (hfound : ∀ it ∈ d.items, (db.products.find? (isPoolRow it.product_id)).isSome) :
    accept_dispatch db u did now =
      (let missing := d.items.filterMap (fun (it : DispatchItem) =>
        match db.products.find? (isPoolRow it.product_id) with
        | some p =>
          if p.quantity < it.quantity then some (Shortage.mk it.product_id it.quantity p.quantity)
          else none
        | none => none)
       if missing ≠ [] then .error (Err.http 409 (.insufficient missing))
       else
         let res := acceptApply u.id db.products db.next_product_id d.items
         .ok { db with
                 products := res.1
                 next_product_id := res.2
                 dispatches := db.dispatches.map (fun d' =>
                   if d'.id = did then
                     { d' with status := some "sent", accepted_at := some now }
                   else d') }) := by
  simp only [accept_dispatch, hrole, hfind, hown]
  rw [if_neg (by simp), if_neg (by simp), if_neg (by simp [hstat]), if_neg hne,
    acceptCheck_eq_ok db.products d.items hfound]

/-- **C2** (code_bug evidence).  The payment block of `create_shop_order`
(main.py lines 2342-2383, embedded standalone as `shopOrderPaymentCalc`
because the handler can never reach it) does implement the claimed
arithmetic — `payable = max(goods_total − returns, 0)`,
`debt = max(payable − paid, 0)`, both non-negative — but the handler
itself raises `AttributeError` at line 2316 on every request (the
`ShopOrderCreate` schema declares no `returns` field), shown here on a
fully valid, fully stocked request, so no payment row is ever persisted
and the claim's "successful createShopOrder request" never occurs. -/
theorem C2_payment_arithmetic_unreachable :
    (∀ (line_items : List LineItem) (priceOf : Nat → ℚ) (returns_amount paid_amount : ℚ),
      (shopOrderPaymentCalc line_items priceOf returns_amount paid_amount).2.2.1 =
        max ((shopOrderPaymentCalc line_items priceOf returns_amount paid_amount).1
          - returns_amount) 0 ∧
      (shopOrderPaymentCalc line_items priceOf returns_amount paid_amount).2.2.2 =
        max ((shopOrderPaymentCalc line_items priceOf returns_amount paid_amount).2.2.1
          - paid_amount) 0 ∧
      0 ≤ (shopOrderPaymentCalc line_items priceOf returns_amount paid_amount).2.2.1 ∧
      0 ≤ (shopOrderPaymentCalc line_items priceOf returns_amount paid_amount).2.2.2) ∧
    create_shop_order baseDB mgrUser 30 [⟨20, 2, some 3, false⟩] 40 =
      .error (Err.attrError "returns") := by
  constructor
  · intro line_items priceOf returns_amount paid_amount
    simp only [shopOrderPaymentCalc, if_neg_clamp_eq_max]
    exact ⟨trivial, trivial, le_max_right _ _, le_max_right _ _⟩
  · decide

/-- **C5** (code_bug evidence).  The handler reads `order.returns`
(main.py line 2316) to obtain the caller's returns adjustment, but the
request schema `ShopOrderCreate` (schemas.py lines 205-208) has no
`returns` field — pydantic models raise `AttributeError` on undeclared
attributes and ignore extra request fields — so the read crashes every
request (HTTP 500) before any payment is recorded; in particular no
returns deduction, caller-supplied or derived from `ShopReturn`
documents, is ever persisted. -/
theorem C5_returns_read_always_crashes :
    create_shop_order baseDB mgrUser 30 [⟨20, 1, none, false⟩, ⟨20, 1, some 2, true⟩] 10 =
      .error (Err.attrError "returns") := by
  decide

/-- **C6** (counterexample).  A fully valid `createShopReturn` of
quantity 2 of product 20 ("P") succeeds (the document is written with
that aggregated quantity), yet **no** product quantity changes: the
manager's same-name row — the destination scope of a shop→manager
return — still holds quantity 5, not 5 + 2, and the product table is
unchanged row for row.  The claim's conservation property therefore
fails for the shop→manager direction. -/
theorem C6_counterexample_shop_return_moves_no_stock :
    create_shop_return baseDB mgrUser 30 [⟨20, 2⟩] =
      .ok ({ baseDB with shop_returns := [⟨1, 2, 30, [(20, 2)]⟩] }, ⟨1, 2, 30, [(20, 2)]⟩) ∧
    ({ baseDB with shop_returns := [⟨1, 2, 30, [(20, 2)]⟩] } : DB).products = baseDB.products ∧
    (baseDB.products.find? (isMgrName 2 "P")).map Product.quantity = some 5 ∧
    (2 : Int) ≠ 0 := by
  refine ⟨by decide, rfl, by decide, by decide⟩

/-- **C8** (counterexample).  Accepting an already-`sent` dispatch is
rejected with HTTP **400** ("Отправка уже обработана", main.py lines
920-922), not with the 409 conflict status that the code uses for its
structured stock conflicts; the rejection does leave state untouched
(the embedding returns only an error, i.e. the transaction performs no
write). -/
theorem C8_counterexample_accept_sent_rejected_with_400 :
    accept_dispatch sentDB mgrUser 1 9 =
      .error (Err.http 400 (.msg "dispatch already processed")) ∧
    ((400 : Nat) = 409 ↔ False) := by
  refine ⟨by decide, by decide⟩

/-- **C8 (amended).**  Accepting a dispatch whose (coalesced) status is
not `pending` — in particular an already-sent one — is rejected with an
HTTP 400 error ("dispatch already processed"), not a 409 conflict, and
since the handler raises before any mutation the products and the
dispatch record are unchanged (an error result is a rolled-back
transaction in this embedding). -/
theorem C8_accept_nonpending_rejected_400 (db : DB) (u : User) (did now : Nat) (d : Dispatch)
    (hrole : u.role = "manager")
    (hfind : db.dispatches.find? (fun d' => decide (d'.id = did)) = some d)
    (hown : d.manager_id = u.id)
    (hstat : d.status.getD "pending" ≠ "pending") :
    accept_dispatch db u did now = .error (Err.http 400 (.msg "dispatch already processed")) := by
  simp only [accept_dispatch, hrole, hfind, hown]
  rw [if_neg (by simp), if_neg (by simp), if_pos hstat]

/-- Witness for `C8_accept_nonpending_rejected_400` at the concrete
`sentDB` state. -/
theorem C8_accept_nonpending_rejected_400_witness :
    accept_dispatch sentDB mgrUser 1 9 =
      .error (Err.http 400 (.msg "dispatch already processed")) :=
  C8_accept_nonpending_rejected_400 sentDB mgrUser 1 9
    ⟨1, 2, some "sent", some 3, [⟨10, 3, some 5⟩]⟩
    (by decide) (by decide) (by decide) (by decide)

/-- **C3.**  When a multi-line request to `create_shop_order`,
`accept_dispatch` or `create_manager_return` passes validation and every
referenced product exists, but at least one product's required quantity
(the per-request aggregate; for a dispatch, the line quantity) exceeds
its available quantity, the operation fails with an HTTP 409 conflict
whose structured detail contains an entry for **every** short product —
characterised below by an if-and-only-if over the whole list — carrying
its requested (aggregated) and available quantities.  The handlers raise
before any mutation, and an error result is a rolled-back transaction in
this embedding, so no product quantity changes. -/
theorem C3_conflict_lists_every_shortage (db : DB) (u : User)
    (sid : Nat) (shop : Shop) (oitems : List ShopOrderLine) (paid : ℚ)
    (did now : Nat) (d : Dispatch) (ritems : List ReturnLine)
    (hrole : u.role = "manager")
    (hshop : db.shops.find? (fun s => decide (s.id = sid ∧ s.manager_id = some u.id)) = some shop)
    (hone : oitems ≠ [])
    (hoval : ∀ it ∈ oitems, 0 < pyInt it.quantity ∧ (∀ pr, it.price = some pr → ¬ pr < 0))
    (hofound : ∀ it ∈ oitems, (db.products.find? (isMgrRow u.id it.product_id)).isSome)
    (hoshort : ∃ it ∈ oitems, ∃ p, db.products.find? (isMgrRow u.id it.product_id) = some p ∧
      shopOrderReqQty oitems it.product_id > p.quantity)
    (hfind : db.dispatches.find? (fun d' => decide (d'.id = did)) = some d)
    (hown : d.manager_id = u.id)
    (hstat : d.status.getD "pending" = "pending")
    (hdne : d.items ≠ [])
    (hdfound : ∀ it ∈ d.items, (db.products.find? (isPoolRow it.product_id)).isSome)
    (hdshort : ∃ it ∈ d.items, ∃ p, db.products.find? (isPoolRow it.product_id) = some p ∧
      p.quantity < it.quantity)
    (hrne : ritems ≠ [])
    (hrval : ∀ it ∈ ritems, 0 < pyInt it.quantity)
    (hrfound : ∀ it ∈ ritems, (db.products.find? (isMgrRow u.id it.product_id)).isSome)
    (hrshort : ∃ it ∈ ritems, ∃ p, db.products.find? (isMgrRow u.id it.product_id) = some p ∧
      returnReqQty ritems it.product_id > p.quantity) :
    (∃ sl, create_shop_order db u sid oitems paid = .error (Err.http 409 (.insufficient sl)) ∧
      ∀ s : Shortage, s ∈ sl ↔
        s.product_id ∈ oitems.map ShopOrderLine.product_id ∧
        s.requested = shopOrderReqQty oitems s.product_id ∧
        ∃ p, db.products.find? (isMgrRow u.id s.product_id) = some p ∧
          s.available = p.quantity ∧ s.requested > p.quantity) ∧
    (∃ sl, accept_dispatch db u did now = .error (Err.http 409 (.insufficient sl)) ∧
      ∀ s : Shortage, s ∈ sl ↔
        ∃ it ∈ d.items, ∃ p, db.products.find? (isPoolRow it.product_id) = some p ∧
          p.quantity < it.quantity ∧ s = ⟨it.product_id, it.quantity, p.quantity⟩) ∧
    (∃ sl, create_manager_return db u ritems = .error (Err.http 409 (.insufficient sl)) ∧
      ∀ s : Shortage, s ∈ sl ↔
        s.product_id ∈ ritems.map ReturnLine.product_id ∧
        s.requested = returnReqQty ritems s.product_id ∧
        ∃ p, db.products.find? (isMgrRow u.id s.product_id) = some p ∧
          s.available = p.quantity ∧ s.requested > p.quantity) := by
  refine ⟨?_, ?_, ?_⟩
  · rw [create_shop_order_reduce db u sid shop oitems paid hrole hshop hone hoval hofound]
    have hne : (sumFold ShopOrderLine.product_id (fun it => pyInt it.quantity) [] oitems).filterMap
        (fun (e : Nat × Int) =>
          match db.products.find? (isMgrRow u.id e.1) with
          | some p => if e.2 > p.quantity then some (Shortage.mk e.1 e.2 p.quantity) else none
          | none => none) ≠ [] := by
      obtain ⟨it, hit, p, hfp, hgt⟩ := hoshort
      apply List.ne_nil_of_mem
        (a := Shortage.mk it.product_id (shopOrderReqQty oitems it.product_id) p.quantity)
      rw [filterMap_short_mem ShopOrderLine.product_id (fun it => pyInt it.quantity) oitems
        (fun pid => db.products.find? (isMgrRow u.id pid))]
      exact ⟨List.mem_map_of_mem ShopOrderLine.product_id hit, rfl, p, hfp, rfl, hgt⟩
    simp only [ne_eq]
    rw [if_pos (by simpa using hne)]
    refine ⟨_, rfl, ?_⟩
    intro s
    rw [filterMap_short_mem ShopOrderLine.product_id (fun it => pyInt it.quantity) oitems
      (fun pid => db.products.find? (isMgrRow u.id pid))]
    exact Iff.rfl
  · rw [accept_dispatch_reduce db u did now d hrole hfind hown hstat hdne hdfound]
    have hne : d.items.filterMap (fun (it : DispatchItem) =>
        match db.products.find? (isPoolRow it.product_id) with
        | some p =>
          if p.quantity < it.quantity then some (Shortage.mk it.product_id it.quantity p.quantity)
          else none
        | none => none) ≠ [] := by
      obtain ⟨it, hit, p, hfp, hlt⟩ := hdshort
      apply List.ne_nil_of_mem (a := Shortage.mk it.product_id it.quantity p.quantity)
      rw [List.mem_filterMap]
      refine ⟨it, hit, ?_⟩
      rw [hfp]
      dsimp only
      rw [if_pos hlt]
    simp only [ne_eq]
    rw [if_pos (by simpa using hne)]
    refine ⟨_, rfl, ?_⟩
    intro s
    rw [List.mem_filterMap]
    constructor
    · rintro ⟨it, hit, hfn⟩
      rcases hfp : db.products.find? (isPoolRow it.product_id) with _ | p
      · rw [hfp] at hfn; simp at hfn
      · rw [hfp] at hfn
        dsimp only at hfn
        by_cases hlt : p.quantity < it.quantity
        · rw [if_pos hlt, Option.some_inj] at hfn
          exact ⟨it, hit, p, hfp, hlt, hfn.symm⟩
        · rw [if_neg hlt] at hfn
          simp at hfn
    · rintro ⟨it, hit, p, hfp, hlt, rfl⟩
      refine ⟨it, hit, ?_⟩
      rw [hfp]
      dsimp only
      rw [if_pos hlt]
  · rw [create_manager_return_reduce db u ritems hrole hrne hrval hrfound]
    have hne : (sumFold ReturnLine.product_id (fun it => pyInt it.quantity) [] ritems).filterMap
        (fun (e : Nat × Int) =>
          match db.products.find? (isMgrRow u.id e.1) with
          | some p => if e.2 > p.quantity then some (Shortage.mk e.1 e.2 p.quantity) else none
          | none => none) ≠ [] := by
      obtain ⟨it, hit, p, hfp, hgt⟩ := hrshort
      apply List.ne_nil_of_mem
        (a := Shortage.mk it.product_id (returnReqQty ritems it.product_id) p.quantity)
      rw [filterMap_short_mem ReturnLine.product_id (fun it => pyInt it.quantity) ritems
        (fun pid => db.products.find? (isMgrRow u.id pid))]
      exact ⟨List.mem_map_of_mem ReturnLine.product_id hit, rfl, p, hfp, rfl, hgt⟩
    simp only [ne_eq]
    rw [if_pos (by simpa using hne)]
    refine ⟨_, rfl, ?_⟩
    intro s
    rw [filterMap_short_mem ReturnLine.product_id (fun it => pyInt it.quantity) ritems
      (fun pid => db.products.find? (isMgrRow u.id pid))]
    exact Iff.rfl

/-- Witness for `C3_conflict_lists_every_shortage`: two short products in
the shop-order and manager-return requests (20 and 21, both over-asked),
and a pending dispatch line of 300 P against a pool of 100. -/
theorem C3_conflict_lists_every_shortage_witness :
    (∃ sl, create_shop_order shortDB mgrUser 30
        [⟨20, 9, none, false⟩, ⟨21, 9, none, false⟩] 0 =
        .error (Err.http 409 (.insufficient sl)) ∧
      ∀ s : Shortage, s ∈ sl ↔
        s.product_id ∈ [⟨20, 9, none, false⟩, (⟨21, 9, none, false⟩ : ShopOrderLine)].map
          ShopOrderLine.product_id ∧
        s.requested = shopOrderReqQty
          [⟨20, 9, none, false⟩, ⟨21, 9, none, false⟩] s.product_id ∧
        ∃ p, shortDB.products.find? (isMgrRow mgrUser.id s.product_id) = some p ∧
          s.available = p.quantity ∧ s.requested > p.quantity) ∧
    (∃ sl, accept_dispatch shortDB mgrUser 1 9 = .error (Err.http 409 (.insufficient sl)) ∧
      ∀ s : Shortage, s ∈ sl ↔
        ∃ it ∈ [(⟨10, 300, some 5⟩ : DispatchItem)], ∃ p,
          shortDB.products.find? (isPoolRow it.product_id) = some p ∧
          p.quantity < it.quantity ∧ s = ⟨it.product_id, it.quantity, p.quantity⟩) ∧
    (∃ sl, create_manager_return shortDB mgrUser [⟨20, 9⟩, ⟨21, 9⟩] =
        .error (Err.http 409 (.insufficient sl)) ∧
      ∀ s : Shortage, s ∈ sl ↔
        s.product_id ∈ [⟨20, 9⟩, (⟨21, 9⟩ : ReturnLine)].map ReturnLine.product_id ∧
        s.requested = returnReqQty [⟨20, 9⟩, ⟨21, 9⟩] s.product_id ∧
        ∃ p, shortDB.products.find? (isMgrRow mgrUser.id s.product_id) = some p ∧
          s.available = p.quantity ∧ s.requested > p.quantity) :=
  C3_conflict_lists_every_shortage shortDB mgrUser 30 shopA
    [⟨20, 9, none, false⟩, ⟨21, 9, none, false⟩] 0 1 9
    ⟨1, 2, some "pending", none, [⟨10, 300, some 5⟩]⟩ [⟨20, 9⟩, ⟨21, 9⟩]
    (by decide) (by decide) (by decide)
    (by
      intro it hit
      rcases List.mem_cons.mp hit with rfl | hit2
      · exact ⟨by decide, fun pr hpr => Option.noConfusion hpr⟩
      · rcases List.mem_singleton.mp hit2 with rfl
        exact ⟨by decide, fun pr hpr => Option.noConfusion hpr⟩)
    (by decide)
    ⟨⟨20, 9, none, false⟩, by decide, mgrP, by decide, by decide⟩
    (by decide) (by decide) (by decide) (by decide) (by decide)
    ⟨⟨10, 300, some 5⟩, by decide, poolP, by decide, by decide⟩
    (by decide) (by decide) (by decide)
    ⟨⟨20, 9⟩, by decide, mgrP, by decide, by decide⟩

/-- **C7.**  In `create_dispatch` and `create_shop_order`, line items
for the same product are summed into one required quantity *before* the
availability check, and `create_dispatch` keeps the last-seen price.
For `create_dispatch` (given sufficiency of the aggregated sums) the
stored dispatch has exactly one line per product, carrying the summed
quantity and the last-seen price; for `create_shop_order` the whole
outcome is decided by the shortage list computed from per-product sums
of truncated quantities (so e.g. lines of 30 and 20 are checked as a
required 50). -/
theorem C7_aggregation_before_check (db : DB) (u : User) (mid : Nat) (mgr : User)
    (items : List DispatchLine) (now : Nat)
    (mu : User) (sid : Nat) (shop : Shop) (oitems : List ShopOrderLine) (paid : ℚ)
    (hrole : u.role = "admin")
    (hmgr : db.users.find? (fun m => decide (m.id = mid ∧ m.role = "manager")) = some mgr)
    (hne : items ≠ [])
    (hval : ∀ it ∈ items, 0 < it.quantity ∧ ¬ it.price < 0)
    (hfound : ∀ it ∈ items, (db.products.find? (isPoolRow it.product_id)).isSome)
    (hsuff : ∀ it ∈ items, ∀ p, db.products.find? (isPoolRow it.product_id) = some p →
      ¬ dispatchReqQty items it.product_id > p.quantity)
    (hmurole : mu.role = "manager")
    (hshop : db.shops.find? (fun s => decide (s.id = sid ∧ s.manager_id = some mu.id)) = some shop)
    (hone : oitems ≠ [])
    (hoval : ∀ it ∈ oitems, 0 < pyInt it.quantity ∧ (∀ pr, it.price = some pr → ¬ pr < 0))
    (hofound : ∀ it ∈ oitems, (db.products.find? (isMgrRow mu.id it.product_id)).isSome) :
    (∃ stored : List DispatchItem,
      create_dispatch db u mid items now =
        .ok ({ db with dispatches := db.dispatches ++
            [⟨db.dispatches.length + 1, mid, some "pending", none, stored⟩] },
          db.dispatches.length + 1) ∧
      (∀ pid q pr, (⟨pid, q, some pr⟩ : DispatchItem) ∈ stored ↔
        pid ∈ items.map DispatchLine.product_id ∧ q = dispatchReqQty items pid ∧
          lastPriceD items pid = some pr)) ∧
    (∃ sl, create_shop_order db mu sid oitems paid =
        (if sl ≠ [] then .error (Err.http 409 (.insufficient sl))
         else .error (Err.attrError "returns")) ∧
      ∀ s : Shortage, s ∈ sl ↔
        s.product_id ∈ oitems.map ShopOrderLine.product_id ∧
        s.requested = shopOrderReqQty oitems s.product_id ∧
        ∃ p, db.products.find? (isMgrRow mu.id s.product_id) = some p ∧
          s.available = p.quantity ∧ s.requested > p.quantity) := by
  constructor
  · rw [create_dispatch_reduce db u mid mgr items now hrole hmgr hne hval hfound]
    have hins : (dispatchFold [] items).filterMap (fun (e : Nat × (Int × ℚ)) =>
        let available : Int :=
          match db.products.find? (isPoolRow e.1) with
          | some p => p.quantity
          | none => 0
        if e.2.1 > available then some (Shortage.mk e.1 e.2.1 available) else none) = [] := by
      rw [List.filterMap_eq_nil_iff]
      intro e he
      obtain ⟨pid, qr⟩ := e
      obtain ⟨q, pr⟩ := qr
      rw [dispatchFold_nil_mem] at he
      obtain ⟨hm, rfl, hlast⟩ := he
      rcases List.mem_map.mp hm with ⟨it, hit, rfl⟩
      have hs := hfound it hit
      rcases hfp : db.products.find? (isPoolRow it.product_id) with _ | p
      · exact absurd (hfp ▸ hs) (by simp)
      · simp only [hfp]
        rw [if_neg (hsuff it hit p hfp)]
    simp only [hins]
    rw [if_neg (by simp)]
    refine ⟨(dispatchFold [] items).map
      (fun (e : Nat × (Int × ℚ)) => ⟨e.1, e.2.1, some e.2.2⟩), rfl, ?_⟩
    intro pid q pr
    rw [List.mem_map]
    constructor
    · rintro ⟨e, he, heq⟩
      obtain ⟨pid', qr⟩ := e
      obtain ⟨q', pr'⟩ := qr
      injection heq with h1 h2 h3
      injection h3 with h3
      subst h1
      subst h2
      subst h3
      exact (dispatchFold_nil_mem items pid' q' pr').mp he
    · rintro ⟨hm, rfl, hlast⟩
      exact ⟨(pid, (dispatchReqQty items pid, pr)),
        (dispatchFold_nil_mem items pid (dispatchReqQty items pid) pr).mpr ⟨hm, rfl, hlast⟩, rfl⟩
  · rw [create_shop_order_reduce db mu sid shop oitems paid hmurole hshop hone hoval hofound]
    refine ⟨_, rfl, ?_⟩
    intro s
    rw [filterMap_short_mem ShopOrderLine.product_id (fun it => pyInt it.quantity) oitems
      (fun pid => db.products.find? (isMgrRow mu.id pid))]
    exact Iff.rfl

/-- Witness for `C7_aggregation_before_check`: a dispatch request with
two lines for product 10 (30 at price 5, then 20 at price 6) against a
pool of 100 — stored as one line of 50 at price 6 — and a shop order
with two lines for product 20 (30 and 20) against a stock of 5 —
rejected as a single required 50. -/
theorem C7_aggregation_before_check_witness :
    (∃ stored : List DispatchItem,
      create_dispatch baseDB adminUser 2 [⟨10, 30, 5⟩, ⟨10, 20, 6⟩] 0 =
        .ok ({ baseDB with dispatches := baseDB.dispatches ++
            [⟨baseDB.dispatches.length + 1, 2, some "pending", none, stored⟩] },
          baseDB.dispatches.length + 1) ∧
      (∀ pid q pr, (⟨pid, q, some pr⟩ : DispatchItem) ∈ stored ↔
        pid ∈ [⟨10, 30, 5⟩, (⟨10, 20, 6⟩ : DispatchLine)].map DispatchLine.product_id ∧
        q = dispatchReqQty [⟨10, 30, 5⟩, ⟨10, 20, 6⟩] pid ∧
          lastPriceD [⟨10, 30, 5⟩, ⟨10, 20, 6⟩] pid = some pr)) ∧
    (∃ sl, create_shop_order baseDB mgrUser 30
        [⟨20, 30, none, false⟩, ⟨20, 20, none, false⟩] 0 =
        (if sl ≠ [] then .error (Err.http 409 (.insufficient sl))
         else .error (Err.attrError "returns")) ∧
      ∀ s : Shortage, s ∈ sl ↔
        s.product_id ∈ [⟨20, 30, none, false⟩, (⟨20, 20, none, false⟩ : ShopOrderLine)].map
          ShopOrderLine.product_id ∧
        s.requested = shopOrderReqQty [⟨20, 30, none, false⟩, ⟨20, 20, none, false⟩]
          s.product_id ∧
        ∃ p, baseDB.products.find? (isMgrRow mgrUser.id s.product_id) = some p ∧
          s.available = p.quantity ∧ s.requested > p.quantity) :=
  C7_aggregation_before_check baseDB adminUser 2 mgrUser [⟨10, 30, 5⟩, ⟨10, 20, 6⟩] 0
    mgrUser 30 shopA [⟨20, 30, none, false⟩, ⟨20, 20, none, false⟩] 0
    (by decide) (by decide) (by decide)
    (by
      intro it hit
      rcases List.mem_cons.mp hit with rfl | hit2
      · exact ⟨by decide, by decide⟩
      · rcases List.mem_singleton.mp hit2 with rfl
        exact ⟨by decide, by decide⟩)
    (by decide)
    (by
      intro it hit p hfp
      have hf : baseDB.products.find? (isPoolRow it.product_id) = some poolP := by
        rcases List.mem_cons.mp hit with rfl | hit2
        · decide
        · rcases List.mem_singleton.mp hit2 with rfl
          decide
      rw [hf, Option.some_inj] at hfp
      subst hfp
      rcases List.mem_cons.mp hit with rfl | hit2
      · decide
      · rcases List.mem_singleton.mp hit2 with rfl
        decide)
    (by decide) (by decide) (by decide)
    (by
      intro it hit
      rcases List.mem_cons.mp hit with rfl | hit2
      · exact ⟨by decide, fun pr hpr => Option.noConfusion hpr⟩
      · rcases List.mem_singleton.mp hit2 with rfl
        exact ⟨by decide, fun pr hpr => Option.noConfusion hpr⟩)
    (by decide)

/-- **C10.**  `create_shop_order`, `create_shop_return` and
`create_manager_return` truncate each line's decimal quantity toward
zero (`int(...)`, embedded as `pyInt`) before aggregation and
sufficiency checking: a schema-valid quantity `q` with `0 < q < 1`
truncates to 0 and is rejected as non-positive by all three endpoints
(even though `condecimal(gt=0)` accepts it), and a successful
`create_shop_return` stores, per product, the sum of the *truncated*
line quantities (so 2.5 is processed as 2). -/
theorem C10_quantities_truncated_toward_zero (db : DB) (u : User)
    (sid : Nat) (shop : Shop) (q : ℚ) (pid : Nat) (price : Option ℚ) (paid : ℚ)
    (items : List ReturnLine)
    (hrole : u.role = "manager")
    (hshop : db.shops.find? (fun s => decide (s.id = sid ∧ s.manager_id = some u.id)) = some shop)
    (hq0 : 0 < q) (hq1 : q < 1)
    (hne : items ≠ [])
    (hval : ∀ it ∈ items, 1 ≤ it.quantity)
    (hfound : ∀ it ∈ items, (db.products.find? (isMgrRow u.id it.product_id)).isSome) :
    pyInt q = 0 ∧
    create_shop_order db u sid [⟨pid, q, price, false⟩] paid =
      .error (Err.http 400 (.msg "quantity must be positive")) ∧
    create_shop_return db u sid [⟨pid, q⟩] =
      .error (Err.http 400 (.msg "quantity must be positive")) ∧
    create_manager_return db u [⟨pid, q⟩] =
      .error (Err.http 400 (.msg "quantity must be positive")) ∧
    (∃ res, create_shop_return db u sid items = .ok res ∧
      ∀ pid' v, (pid', v) ∈ res.2.items ↔
        pid' ∈ items.map ReturnLine.product_id ∧ v = returnReqQty items pid') := by
  have hz : pyInt q = 0 := pyInt_eq_zero_of_lt_one q hq0 hq1
  refine ⟨hz, ?_, ?_, ?_, ?_⟩
  · simp only [create_shop_order, hrole, hshop]
    rw [if_neg (by simp), if_neg (by simp)]
    simp only [shopOrderAgg, hz]
    rfl
  · simp only [create_shop_return, hrole, hshop]
    rw [if_neg (by simp), if_neg (by simp)]
    simp only [returnAgg, hz]
    rfl
  · simp only [create_manager_return, hrole]
    rw [if_neg (by simp), if_neg (by simp)]
    simp only [returnAgg, hz]
    rfl
  · have hval' : ∀ it ∈ items, 0 < pyInt it.quantity := by
      intro it hit
      have := one_le_pyInt it.quantity (hval it hit)
      omega
    rw [create_shop_return_reduce db u sid shop items hrole hshop hne hval' hfound]
    refine ⟨_, rfl, ?_⟩
    intro pid' v
    exact sumFold_nil_mem ReturnLine.product_id (fun it => pyInt it.quantity) items pid' v

/-- Witness for `C10_quantities_truncated_toward_zero`: quantity 1/2 is
rejected by all three endpoints, and a shop return of quantity 5/2 of
product 20 stores the truncated quantity 2. -/
theorem C10_quantities_truncated_toward_zero_witness :
    pyInt (mkRat 1 2) = 0 ∧
    create_shop_order baseDB mgrUser 30 [⟨20, mkRat 1 2, none, false⟩] 0 =
      .error (Err.http 400 (.msg "quantity must be positive")) ∧
    create_shop_return baseDB mgrUser 30 [⟨20, mkRat 1 2⟩] =
      .error (Err.http 400 (.msg "quantity must be positive")) ∧
    create_manager_return baseDB mgrUser [⟨20, mkRat 1 2⟩] =
      .error (Err.http 400 (.msg "quantity must be positive")) ∧
    (∃ res, create_shop_return baseDB mgrUser 30 [⟨20, mkRat 5 2⟩] = .ok res ∧
      ∀ pid' v, (pid', v) ∈ res.2.items ↔
        pid' ∈ [(⟨20, mkRat 5 2⟩ : ReturnLine)].map ReturnLine.product_id ∧
        v = returnReqQty [⟨20, mkRat 5 2⟩] pid') :=
  C10_quantities_truncated_toward_zero baseDB mgrUser 30 shopA (mkRat 1 2) 20 none 0
    [⟨20, mkRat 5 2⟩]
    (by decide) (by decide) (by decide) (by decide) (by decide) (by decide) (by decide)

/-- **C9.**  A manager→pool return (the `create_manager_return`
endpoint, and likewise the legacy `create_return` endpoint) that names a
product whose name has no matching non-return pool row fails with an
HTTP 404 not-found error, provided the request is otherwise valid (the
manager's rows are found and sufficiently stocked, so no earlier check
fires).  Only an error is returned, i.e. the transaction performs no
write: no stock quantity is mutated on either side. -/
theorem C9_missing_pool_name_404 (db : DB) (u : User)
    (items : List ReturnLine) (litems : List LegacyReturnLine)
    (hrole : u.role = "manager")
    (hne : items ≠ [])
    (hval : ∀ it ∈ items, 0 < pyInt it.quantity)
    (hfound : ∀ it ∈ items, (db.products.find? (isMgrRow u.id it.product_id)).isSome)
    (hsuff : ∀ it ∈ items, ∀ p, db.products.find? (isMgrRow u.id it.product_id) = some p →
      ¬ returnReqQty items it.product_id > p.quantity)
    (hmiss : ∃ it ∈ items, ∃ p, db.products.find? (isMgrRow u.id it.product_id) = some p ∧
      (db.products.filter (isPoolName p.name)).getLast? = none)
    (hlne : litems ≠ [])
    (hlval : ∀ it ∈ litems, 0 < it.quantity)
    (hlfound : ∀ it ∈ litems, (db.products.find? (isMgrRow u.id it.product_id)).isSome)
    (hlsuff : ∀ it ∈ litems, ∀ p, db.products.find? (isMgrRow u.id it.product_id) = some p →
      ¬ legacyReturnReqQty litems it.product_id > p.quantity)
    (hlmiss : ∃ it ∈ litems, ∃ p, db.products.find? (isMgrRow u.id it.product_id) = some p ∧
      (db.products.filter (isPoolName p.name)).getLast? = none) :
    create_manager_return db u items =
      .error (Err.http 404 (.msg "no pool product for some names")) ∧
    create_return db u litems =
      .error (Err.http 404 (.msg "no pool product for some names")) := by
  constructor
  · rw [create_manager_return_reduce db u items hrole hne hval hfound]
    have hins : (sumFold ReturnLine.product_id (fun it => pyInt it.quantity) [] items).filterMap
        (fun (e : Nat × Int) =>
          match db.products.find? (isMgrRow u.id e.1) with
          | some p => if e.2 > p.quantity then some (Shortage.mk e.1 e.2 p.quantity) else none
          | none => none) = [] :=
      filterMap_short_eq_nil ReturnLine.product_id (fun it => pyInt it.quantity) items
        (fun pid => db.products.find? (isMgrRow u.id pid)) hfound hsuff
    simp only [hins]
    have hnb : ((((sumFold ReturnLine.product_id (fun it => pyInt it.quantity) [] items).map
        Prod.fst).filterMap
          (fun pid => (db.products.find? (isMgrRow u.id pid)).map Product.name)).dedup).filter
        (fun nm => (db.products.filter (isPoolName nm)).getLast?.isNone) ≠ [] := by
      obtain ⟨it, hit, p, hfp, hnone⟩ := hmiss
      apply List.ne_nil_of_mem (a := p.name)
      rw [List.mem_filter]
      constructor
      · rw [List.mem_dedup, List.mem_filterMap]
        refine ⟨it.product_id, ?_, by rw [hfp]; rfl⟩
        rw [sumFold_mem_keys]
        exact Or.inr (List.mem_map_of_mem ReturnLine.product_id hit)
      · rw [hnone]
        rfl
    simp only [ne_eq]
    rw [if_neg (by simp)]
    rw [if_pos hnb]
  · rw [create_return_reduce db u litems hrole hlne hlval hlfound]
    have hcheck : legacyReturnCheck u.id db.products
        (sumFold LegacyReturnLine.product_id LegacyReturnLine.quantity [] litems) = none := by
      apply legacyReturnCheck_eq_none
      intro e he p hfp
      obtain ⟨pid, v⟩ := e
      rw [sumFold_nil_mem] at he
      obtain ⟨hm, hv⟩ := he
      rcases List.mem_map.mp hm with ⟨it, hit, rfl⟩
      simp only at hfp ⊢
      rw [hv]
      exact hlsuff it hit p hfp
    simp only [hcheck]
    have hnb : ((((sumFold LegacyReturnLine.product_id LegacyReturnLine.quantity [] litems).map
        Prod.fst).filterMap
          (fun pid => (db.products.find? (isMgrRow u.id pid)).map Product.name)).dedup).filter
        (fun nm => (db.products.filter (isPoolName nm)).getLast?.isNone) ≠ [] := by
      obtain ⟨it, hit, p, hfp, hnone⟩ := hlmiss
      apply List.ne_nil_of_mem (a := p.name)
      rw [List.mem_filter]
      constructor
      · rw [List.mem_dedup, List.mem_filterMap]
        refine ⟨it.product_id, ?_, by rw [hfp]; rfl⟩
        rw [sumFold_mem_keys]
        exact Or.inr (List.mem_map_of_mem LegacyReturnLine.product_id hit)
      · rw [hnone]
        rfl
    rw [if_pos hnb]

/-- Witness for `C9_missing_pool_name_404`: manager 2 returns product 21
("R"), which has no pool row in `noPoolDB`. -/
theorem C9_missing_pool_name_404_witness :
    create_manager_return noPoolDB mgrUser [⟨21, 1⟩] =
      .error (Err.http 404 (.msg "no pool product for some names")) ∧
    create_return noPoolDB mgrUser [⟨21, 1⟩] =
      .error (Err.http 404 (.msg "no pool product for some names")) :=
  C9_missing_pool_name_404 noPoolDB mgrUser [⟨21, 1⟩] [⟨21, 1⟩]
    (by decide) (by decide) (by decide) (by decide)
    (by
      intro it hit p hfp
      rcases List.mem_singleton.mp hit with rfl
      have hf : noPoolDB.products.find? (isMgrRow mgrUser.id 21) =
          some ⟨21, "R", 4, 6, some 2, false⟩ := by decide
      rw [hf, Option.some_inj] at hfp
      subst hfp
      decide)
    ⟨⟨21, 1⟩, by decide, ⟨21, "R", 4, 6, some 2, false⟩, by decide, by decide⟩
    (by decide) (by decide) (by decide)
    (by
      intro it hit p hfp
      rcases List.mem_singleton.mp hit with rfl
      have hf : noPoolDB.products.find? (isMgrRow mgrUser.id 21) =
          some ⟨21, "R", 4, 6, some 2, false⟩ := by decide
      rw [hf, Option.some_inj] at hfp
      subst hfp
      decide)
    ⟨⟨21, 1⟩, by decide, ⟨21, "R", 4, 6, some 2, false⟩, by decide, by decide⟩

/-! ## More list helpers: `find?`/`filter` across a single-row insert -/

theorem find?_append_singleton {α : Type} (l : List α) (a : α) (q : α → Bool)
    (ha : q a = false) : (l ++ [a]).find? q = l.find? q := by
  induction l with
  | nil => simp [List.find?_cons, ha]
  | cons x t ih =>
    by_cases hx : q x = true
    · rw [List.cons_append, List.find?_cons_of_pos _ hx, List.find?_cons_of_pos _ hx]
    · rw [List.cons_append, List.find?_cons_of_neg _ (by simpa using hx),
        List.find?_cons_of_neg _ (by simpa using hx), ih]

theorem find?_append_singleton_pos {α : Type} (l : List α) (a : α) (q : α → Bool)
    (hl : l.find? q = none) (ha : q a = true) : (l ++ [a]).find? q = some a := by
  induction l with
  | nil => simp [List.find?_cons, ha]
  | cons x t ih =>
    rw [List.find?_eq_none] at hl
    have hx : q x = false := by
      have := hl x (List.mem_cons_self x t)
      simpa using this
    rw [List.cons_append, List.find?_cons_of_neg _ (by simp [hx])]
    exact ih (List.find?_eq_none.mpr fun y hy => hl y (List.mem_cons_of_mem _ hy))

theorem filter_append_singleton {α : Type} (l : List α) (a : α) (q : α → Bool)
    (ha : q a = false) : (l ++ [a]).filter q = l.filter q := by
  simp [List.filter_append, List.filter_cons, ha]

theorem filterMap_congr_of_eq {α β : Type} (f g : α → Option β) (l : List α)
    (h : ∀ a ∈ l, f a = g a) : l.filterMap f = l.filterMap g := by
  induction l with
  | nil => rfl
  | cons x t ih =>
    rw [List.filterMap_cons, List.filterMap_cons, h x (List.mem_cons_self x t),
      ih fun y hy => h y (List.mem_cons_of_mem _ hy)]

/-- `modifyFirst` with a field-preserving `f` does not change the image
under a preserved projection (used with `Product.id` and `Product.name`). -/
theorem map_modifyFirst_eq {α β : Type} (p : α → Bool) (f : α → α) (g : α → β)
    (hf : ∀ x, g (f x) = g x) (l : List α) :
    (modifyFirst p f l).map g = l.map g := by
  induction l with
  | nil => rfl
  | cons x t ih =>
    by_cases hx : p x = true
    · simp [modifyFirst, hx, hf]
    · simp [modifyFirst, hx, ih]

/-! ## Disjointness of the row filters -/

theorem isPoolRow_ne_false {i j : Nat} (x : Product) (hij : i ≠ j)
    (hx : isPoolRow i x = true) : isPoolRow j x = false := by
  simp only [isPoolRow, decide_eq_true_eq] at hx
  simp [isPoolRow, hx.1, hij]

theorem isMgrName_of_isPoolRow_false (uid : Nat) (nm : String) {i : Nat} (x : Product)
    (hx : isPoolRow i x = true) : isMgrName uid nm x = false := by
  simp only [isPoolRow, decide_eq_true_eq] at hx
  simp [isMgrName, hx.2.1]

theorem isPoolRow_of_isMgrName_false {uid : Nat} {nm : String} (j : Nat) (x : Product)
    (hx : isMgrName uid nm x = true) : isPoolRow j x = false := by
  simp only [isMgrName, decide_eq_true_eq] at hx
  simp [isPoolRow, hx.1]

theorem isMgrName_ne_false {uid : Nat} {nm nm' : String} (x : Product) (h : nm ≠ nm')
    (hx : isMgrName uid nm x = true) : isMgrName uid nm' x = false := by
  simp only [isMgrName, decide_eq_true_eq] at hx
  simp [isMgrName, hx.2.1, h]

theorem isMgrRow_ne_false {uid i j : Nat} (x : Product) (hij : i ≠ j)
    (hx : isMgrRow uid i x = true) : isMgrRow uid j x = false := by
  simp only [isMgrRow, decide_eq_true_eq] at hx
  simp [isMgrRow, hx.1, hij]

theorem isPoolName_of_isMgrRow_false {uid i : Nat} (nm : String) (x : Product)
    (hx : isMgrRow uid i x = true) : isPoolName nm x = false := by
  simp only [isMgrRow, decide_eq_true_eq] at hx
  simp [isPoolName, hx.2.1]

theorem isMgrRow_of_isPoolName_false {nm : String} (uid j : Nat) (x : Product)
    (hx : isPoolName nm x = true) : isMgrRow uid j x = false := by
  simp only [isPoolName, decide_eq_true_eq] at hx
  simp [isMgrRow, hx.1]

theorem isPoolName_ne_false {nm nm' : String} (x : Product) (h : nm ≠ nm')
    (hx : isPoolName nm x = true) : isPoolName nm' x = false := by
  simp only [isPoolName, decide_eq_true_eq] at hx
  simp [isPoolName, hx.2.2, h]

theorem isMgrName_of_isPoolName_false (uid : Nat) (nm' : String) {nm : String} (x : Product)
    (hx : isPoolName nm x = true) : isMgrName uid nm' x = false := by
  simp only [isPoolName, decide_eq_true_eq] at hx
  simp [isMgrName, hx.1]

theorem isPoolName_of_isMgrName_false {uid : Nat} {nm : String} (nm' : String) (x : Product)
    (hx : isMgrName uid nm x = true) : isPoolName nm' x = false := by
  simp only [isMgrName, decide_eq_true_eq] at hx
  simp [isPoolName, hx.1]

/-! ## One step of the `accept_dispatch` apply loop -/

/-- A step for line `it` leaves the pool row of any other product id
untouched. -/
theorem acceptStep_pool_frame (uid : Nat) (ps : List Product) (np : Nat)
    (it : DispatchItem) (j : Nat) (hj : it.product_id ≠ j) :
    (acceptStep uid ps np it).1.find? (isPoolRow j) = ps.find? (isPoolRow j) := by
  rcases hf : ps.find? (isPoolRow it.product_id) with _ | product
  · simp only [acceptStep, hf]
  · simp only [acceptStep, hf]
    have h1 : (modifyFirst (isPoolRow it.product_id)
        (fun p => { p with quantity := p.quantity - it.quantity }) ps).find? (isPoolRow j)
        = ps.find? (isPoolRow j) :=
      find?_modifyFirst_disjoint _ _ _ _
        (fun x _ hx => isPoolRow_ne_false x hj hx)
        (fun x _ hx => (isPoolRow_set_quantity j x _).trans (isPoolRow_ne_false x hj hx))
    rcases hg : (modifyFirst (isPoolRow it.product_id)
        (fun p => { p with quantity := p.quantity - it.quantity }) ps).find?
        (isMgrName uid product.name) with _ | M
    · simp only [hg]
      rw [find?_append_singleton _ _ _ (by simp [isPoolRow])]
      exact h1
    · simp only [hg]
      rw [find?_modifyFirst_disjoint _ _ _ _
        (fun x _ hx => isPoolRow_of_isMgrName_false j x hx)
        (fun x _ hx => (isPoolRow_set_qp j x _ _).trans (isPoolRow_of_isMgrName_false j x hx))]
      exact h1

/-- A step for line `it` debits the pool row of `it.product_id` by the
line quantity and changes nothing else about it. -/
theorem acceptStep_pool_self (uid : Nat) (ps : List Product) (np : Nat)
    (it : DispatchItem) (P : Product)
    (hf : ps.find? (isPoolRow it.product_id) = some P) :
    (acceptStep uid ps np it).1.find? (isPoolRow it.product_id) =
      some { P with quantity := P.quantity - it.quantity } := by
  simp only [acceptStep, hf]
  have h1 : (modifyFirst (isPoolRow it.product_id)
      (fun p => { p with quantity := p.quantity - it.quantity }) ps).find?
      (isPoolRow it.product_id)
      = some { P with quantity := P.quantity - it.quantity } := by
    rw [find?_modifyFirst_self _ _ _ (fun x => isPoolRow_set_quantity _ x _), hf]
    rfl
  rcases hg : (modifyFirst (isPoolRow it.product_id)
      (fun p => { p with quantity := p.quantity - it.quantity }) ps).find?
      (isMgrName uid P.name) with _ | M
  · simp only [hg]
    rw [find?_append_singleton _ _ _ (by simp [isPoolRow])]
    exact h1
  · simp only [hg]
    rw [find?_modifyFirst_disjoint _ _ _ _
      (fun x _ hx => isPoolRow_of_isMgrName_false _ x hx)
      (fun x _ hx => (isPoolRow_set_qp _ x _ _).trans (isPoolRow_of_isMgrName_false _ x hx))]
    exact h1

/-- A step for line `it` leaves the caller's row of any name other than
the pool row's name untouched. -/
theorem acceptStep_mgr_frame (uid : Nat) (ps : List Product) (np : Nat)
    (it : DispatchItem) (nm : String)
    (hnm : ∀ P, ps.find? (isPoolRow it.product_id) = some P → P.name ≠ nm) :
    (acceptStep uid ps np it).1.find? (isMgrName uid nm) = ps.find? (isMgrName uid nm) := by
  rcases hf : ps.find? (isPoolRow it.product_id) with _ | product
  · simp only [acceptStep, hf]
  · have hname := hnm product hf
    simp only [acceptStep, hf]
    have h1 : (modifyFirst (isPoolRow it.product_id)
        (fun p => { p with quantity := p.quantity - it.quantity }) ps).find? (isMgrName uid nm)
        = ps.find? (isMgrName uid nm) :=
      find?_modifyFirst_disjoint _ _ _ _
        (fun x _ hx => isMgrName_of_isPoolRow_false uid nm x hx)
        (fun x _ hx => (isMgrName_set_quantity uid nm x _).trans
          (isMgrName_of_isPoolRow_false uid nm x hx))
    rcases hg : (modifyFirst (isPoolRow it.product_id)
        (fun p => { p with quantity := p.quantity - it.quantity }) ps).find?
        (isMgrName uid product.name) with _ | M
    · simp only [hg]
      rw [find?_append_singleton _ _ _ (by simp [isMgrName, hname])]
      exact h1
    · simp only [hg]
      rw [find?_modifyFirst_disjoint _ _ _ _
        (fun x _ hx => isMgrName_ne_false x hname hx)
        (fun x _ hx => (isMgrName_set_qp uid nm x _ _).trans (isMgrName_ne_false x hname hx))]
      exact h1

/-- A step for line `it` whose pool row is `P` credits the caller's
`P.name` row by the line quantity and overwrites its price (falling back
to the pool price when the line has none), or creates that row with id
`np` when it was absent. -/
theorem acceptStep_mgr_credit (uid : Nat) (ps : List Product) (np : Nat)
    (it : DispatchItem) (P : Product)
    (hf : ps.find? (isPoolRow it.product_id) = some P) :
    (∀ M, ps.find? (isMgrName uid P.name) = some M →
      (acceptStep uid ps np it).1.find? (isMgrName uid P.name) =
        some { M with
                quantity := M.quantity + it.quantity
                price := it.price.getD P.price }) ∧
    (ps.find? (isMgrName uid P.name) = none →
      (acceptStep uid ps np it).1.find? (isMgrName uid P.name) =
        some { id := np, name := P.name, quantity := it.quantity,
               price := it.price.getD P.price, manager_id := some uid,
               is_return := false }) := by
  have h1 : (modifyFirst (isPoolRow it.product_id)
      (fun p => { p with quantity := p.quantity - it.quantity }) ps).find?
      (isMgrName uid P.name)
      = ps.find? (isMgrName uid P.name) :=
    find?_modifyFirst_disjoint _ _ _ _
      (fun x _ hx => isMgrName_of_isPoolRow_false uid P.name x hx)
      (fun x _ hx => (isMgrName_set_quantity uid P.name x _).trans
        (isMgrName_of_isPoolRow_false uid P.name x hx))
  constructor
  · intro M hM
    simp only [acceptStep, hf]
    rw [h1.trans hM]
    rw [find?_modifyFirst_self _ _ _
      (fun x => isMgrName_set_qp uid P.name x _ _), h1.trans hM]
    rfl
  · intro hnone
    simp only [acceptStep, hf]
    rw [h1.trans hnone]
    exact find?_append_singleton_pos _ _ _ (h1.trans hnone) (by simp [isMgrName])

/-- A step keeps every quantity non-negative when the debited pool row
holds at least the line quantity and the line quantity is positive. -/
theorem acceptStep_nonneg (uid : Nat) (ps : List Product) (np : Nat) (it : DispatchItem)
    (hnn : ∀ x ∈ ps, 0 ≤ x.quantity)
    (havail : ∀ P, ps.find? (isPoolRow it.product_id) = some P → it.quantity ≤ P.quantity)
    (hpos : 0 < it.quantity) :
    ∀ x ∈ (acceptStep uid ps np it).1, 0 ≤ x.quantity := by
  rcases hf : ps.find? (isPoolRow it.product_id) with _ | P
  · simp only [acceptStep, hf]
    exact hnn
  · have hq := havail P hf
    have hps1 : ∀ x ∈ modifyFirst (isPoolRow it.product_id)
        (fun p => { p with quantity := p.quantity - it.quantity }) ps, 0 ≤ x.quantity := by
      intro x hx
      rcases mem_modifyFirst _ _ _ _ hx with hmem | ⟨a, ha, rfl⟩
      · exact hnn x hmem
      · rw [hf, Option.some_inj] at ha
        subst ha
        exact sub_nonneg.mpr hq
    simp only [acceptStep, hf]
    rcases hg : (modifyFirst (isPoolRow it.product_id)
        (fun p => { p with quantity := p.quantity - it.quantity }) ps).find?
        (isMgrName uid P.name) with _ | M
    · simp only [hg]
      intro x hx
      rcases List.mem_append.mp hx with hmem | hmem
      · exact hps1 x hmem
      · rcases List.mem_singleton.mp hmem with rfl
        exact le_of_lt hpos
    · simp only [hg]
      intro x hx
      rcases mem_modifyFirst _ _ _ _ hx with hmem | ⟨a, ha, rfl⟩
      · exact hps1 x hmem
      · have hmem := List.mem_of_find?_eq_some ha
        exact add_nonneg (hps1 a hmem) (le_of_lt hpos)

/-- A step either leaves the product ids and the id counter unchanged, or
appends exactly the fresh id `np` and bumps the counter. -/
theorem acceptStep_ids (uid : Nat) (ps : List Product) (np : Nat) (it : DispatchItem) :
    ((acceptStep uid ps np it).1.map Product.id = ps.map Product.id ∧
      (acceptStep uid ps np it).2 = np) ∨
    ((acceptStep uid ps np it).1.map Product.id = ps.map Product.id ++ [np] ∧
      (acceptStep uid ps np it).2 = np + 1) := by
  rcases hf : ps.find? (isPoolRow it.product_id) with _ | P
  · left
    exact ⟨by simp [acceptStep, hf], by simp [acceptStep, hf]⟩
  · have h1 : (modifyFirst (isPoolRow it.product_id)
        (fun p => { p with quantity := p.quantity - it.quantity }) ps).map Product.id
        = ps.map Product.id :=
      map_modifyFirst_eq (isPoolRow it.product_id)
        (fun p => { p with quantity := p.quantity - it.quantity }) Product.id
        (fun x => rfl) ps
    simp only [acceptStep, hf]
    rcases hg : (modifyFirst (isPoolRow it.product_id)
        (fun p => { p with quantity := p.quantity - it.quantity }) ps).find?
        (isMgrName uid P.name) with _ | M
    · right
      simp only [hg]
      refine ⟨?_, by trivial⟩
      rw [List.map_append, h1]
      rfl
    · left
      simp only [hg]
      refine ⟨?_, by trivial⟩
      exact (map_modifyFirst_eq (isMgrName uid P.name)
        (fun p => { p with
                     quantity := p.quantity + it.quantity
                     price := it.price.getD P.price }) Product.id
        (fun x => rfl) _).trans h1

/-! ## The `accept_dispatch` apply loop as a whole -/

/-- The loop leaves the pool row of any product id not on the dispatch
untouched. -/
theorem acceptApply_pool_frame (uid : Nat) (items : List DispatchItem) :
    ∀ (ps : List Product) (np : Nat) (j : Nat), (∀ it ∈ items, it.product_id ≠ j) →
    (acceptApply uid ps np items).1.find? (isPoolRow j) = ps.find? (isPoolRow j) := by
  induction items with
  | nil => intro ps np j _; rfl
  | cons it rest ih =>
    intro ps np j hj
    simp only [acceptApply]
    rw [ih _ _ j (fun x hx => hj x (List.mem_cons_of_mem _ hx)),
      acceptStep_pool_frame uid ps np it j (hj it (List.mem_cons_self it rest))]

/-- The loop leaves the caller's row of any name that is not the name of
some line's pool row untouched. -/
theorem acceptApply_mgr_frame (uid : Nat) (items : List DispatchItem) :
    ∀ (ps : List Product) (np : Nat) (nm : String),
    (∀ it ∈ items, ∀ P, ps.find? (isPoolRow it.product_id) = some P → P.name ≠ nm) →
    (acceptApply uid ps np items).1.find? (isMgrName uid nm) =
      ps.find? (isMgrName uid nm) := by
  induction items with
  | nil => intro ps np nm _; rfl
  | cons it rest ih =>
    intro ps np nm hnm
    have htail : ∀ it' ∈ rest, ∀ P,
        (acceptStep uid ps np it).1.find? (isPoolRow it'.product_id) = some P →
        P.name ≠ nm := by
      intro it' hit' P hP
      by_cases hpid : it.product_id = it'.product_id
      · rcases hf : ps.find? (isPoolRow it.product_id) with _ | P0
        · have hid : (acceptStep uid ps np it).1 = ps := by simp [acceptStep, hf]
          rw [hid] at hP
          exact hnm it' (List.mem_cons_of_mem _ hit') P hP
        · have hself := acceptStep_pool_self uid ps np it P0 hf
          rw [hpid] at hself
          rw [hself, Option.some_inj] at hP
          subst hP
          exact hnm it (List.mem_cons_self it rest) P0 hf
      · rw [acceptStep_pool_frame uid ps np it it'.product_id hpid] at hP
        exact hnm it' (List.mem_cons_of_mem _ hit') P hP
    simp only [acceptApply]
    rw [ih _ _ nm htail,
      acceptStep_mgr_frame uid ps np it nm (hnm it (List.mem_cons_self it rest))]

/-- The loop keeps every quantity non-negative when line product ids are
pairwise distinct, line quantities positive, and every present pool row
holds at least its line's quantity. -/
theorem acceptApply_nonneg (uid : Nat) (items : List DispatchItem) :
    ∀ (ps : List Product) (np : Nat),
    (items.map DispatchItem.product_id).Nodup →
    (∀ it ∈ items, 0 < it.quantity) →
    (∀ it ∈ items, ∀ P, ps.find? (isPoolRow it.product_id) = some P →
      it.quantity ≤ P.quantity) →
    (∀ x ∈ ps, 0 ≤ x.quantity) →
    ∀ x ∈ (acceptApply uid ps np items).1, 0 ≤ x.quantity := by
  induction items with
  | nil => intro ps np _ _ _ hnn; exact hnn
  | cons it rest ih =>
    intro ps np hnodup hpos havail hnn
    simp only [List.map_cons, List.nodup_cons] at hnodup
    have hstep := acceptStep_nonneg uid ps np it hnn
      (fun P hP => havail it (List.mem_cons_self it rest) P hP)
      (hpos it (List.mem_cons_self it rest))
    have havail' : ∀ it' ∈ rest, ∀ P,
        (acceptStep uid ps np it).1.find? (isPoolRow it'.product_id) = some P →
        it'.quantity ≤ P.quantity := by
      intro it' hit' P hP
      have hne : it.product_id ≠ it'.product_id := by
        intro he
        exact hnodup.1 (by rw [he]; exact List.mem_map_of_mem _ hit')
      rw [acceptStep_pool_frame uid ps np it it'.product_id hne] at hP
      exact havail it' (List.mem_cons_of_mem _ hit') P hP
    simp only [acceptApply]
    exact ih _ _ hnodup.2 (fun x hx => hpos x (List.mem_cons_of_mem _ hx)) havail' hstep

/-- The loop preserves distinctness of product ids and the id-counter
bound: created rows take fresh serial ids. -/
theorem acceptApply_ids (uid : Nat) (items : List DispatchItem) :
    ∀ (ps : List Product) (np : Nat),
    (ps.map Product.id).Nodup → (∀ i ∈ ps.map Product.id, i < np) →
    ((acceptApply uid ps np items).1.map Product.id).Nodup ∧
    (∀ i ∈ (acceptApply uid ps np items).1.map Product.id,
      i < (acceptApply uid ps np items).2) ∧
    np ≤ (acceptApply uid ps np items).2 := by
  induction items with
  | nil => intro ps np hnd hbd; exact ⟨hnd, hbd, le_refl np⟩
  | cons it rest ih =>
    intro ps np hnd hbd
    simp only [acceptApply]
    rcases acceptStep_ids uid ps np it with ⟨hm, hn⟩ | ⟨hm, hn⟩
    · have h := ih (acceptStep uid ps np it).1 (acceptStep uid ps np it).2
        (by rw [hm]; exact hnd) (by rw [hm, hn]; exact hbd)
      exact ⟨h.1, h.2.1, le_trans (le_of_eq hn.symm) h.2.2⟩
    · have hnd' : ((acceptStep uid ps np it).1.map Product.id).Nodup := by
        rw [hm, List.nodup_append]
        refine ⟨hnd, by simp, ?_⟩
        intro i hi
        have := hbd i hi
        simp only [List.mem_singleton]
        omega
      have hbd' : ∀ i ∈ (acceptStep uid ps np it).1.map Product.id,
          i < (acceptStep uid ps np it).2 := by
        rw [hm, hn]
        intro i hi
        rcases List.mem_append.mp hi with h | h
        · exact lt_trans (hbd i h) (Nat.lt_succ_self np)
        · rcases List.mem_singleton.mp h with rfl
          exact Nat.lt_succ_self _
      have h := ih (acceptStep uid ps np it).1 (acceptStep uid ps np it).2 hnd' hbd'
      refine ⟨h.1, h.2.1, ?_⟩
      calc np ≤ np + 1 := Nat.le_succ np
        _ ≤ _ := le_of_eq hn.symm |>.trans h.2.2

/-- The heart of the acceptance transfer: for each dispatch line, the
loop debits the line's pool row by the line quantity, and credits the
caller's same-name non-return row by the same quantity — overwriting its
price with the line price (pool price when the line price is NULL) — or
creates that row with exactly the line quantity.  Requires pairwise
distinct line product ids and pairwise distinct pool-row names (lines of
the same name would merge). -/
theorem acceptApply_transfer (uid : Nat) (items : List DispatchItem) :
    ∀ (ps : List Product) (np : Nat),
    (items.map DispatchItem.product_id).Nodup →
    ((items.filterMap
      (fun it => (ps.find? (isPoolRow it.product_id)).map Product.name)).Nodup) →
    ∀ it ∈ items, ∀ P, ps.find? (isPoolRow it.product_id) = some P →
      (acceptApply uid ps np items).1.find? (isPoolRow it.product_id) =
        some { P with quantity := P.quantity - it.quantity } ∧
      (∀ M, ps.find? (isMgrName uid P.name) = some M →
        (acceptApply uid ps np items).1.find? (isMgrName uid P.name) =
          some { M with
                  quantity := M.quantity + it.quantity
                  price := it.price.getD P.price }) ∧
      (ps.find? (isMgrName uid P.name) = none →
        ∃ nid, (acceptApply uid ps np items).1.find? (isMgrName uid P.name) =
          some { id := nid, name := P.name, quantity := it.quantity,
                 price := it.price.getD P.price, manager_id := some uid,
                 is_return := false }) := by
  induction items with
  | nil => intro ps np _ _ it hit; exact absurd hit (by simp)
  | cons it0 rest ih =>
    intro ps np hnodup hnames it hit P hP
    simp only [List.map_cons, List.nodup_cons] at hnodup
    simp only [acceptApply]
    rcases List.mem_cons.mp hit with heq | hit_tail
    · subst heq
      -- the head line: one step does the transfer, the tail is framed away
      have hnames_head : P.name ∉ rest.filterMap
          (fun it' => (ps.find? (isPoolRow it'.product_id)).map Product.name) := by
        simp only [List.filterMap_cons, hP, Option.map_some'] at hnames
        exact (List.nodup_cons.mp hnames).1
      have htail_ne : ∀ it' ∈ rest, it'.product_id ≠ it.product_id := by
        intro it' hit' he
        exact hnodup.1 (by rw [← he]; exact List.mem_map_of_mem _ hit')
      have hmgr_tail : ∀ it' ∈ rest, ∀ P',
          (acceptStep uid ps np it).1.find? (isPoolRow it'.product_id) = some P' →
          P'.name ≠ P.name := by
        intro it' hit' P' hP' he
        rw [acceptStep_pool_frame uid ps np it it'.product_id
          (fun h => htail_ne it' hit' h.symm)] at hP'
        exact hnames_head (he ▸ List.mem_filterMap.mpr
          ⟨it', hit', by rw [hP']; rfl⟩)
      refine ⟨?_, ?_, ?_⟩
      · rw [acceptApply_pool_frame uid rest _ _ it.product_id htail_ne]
        exact acceptStep_pool_self uid ps np it P hP
      · intro M hM
        rw [acceptApply_mgr_frame uid rest _ _ P.name hmgr_tail]
        exact (acceptStep_mgr_credit uid ps np it P hP).1 M hM
      · intro hnone
        refine ⟨np, ?_⟩
        rw [acceptApply_mgr_frame uid rest _ _ P.name hmgr_tail]
        exact (acceptStep_mgr_credit uid ps np it P hP).2 hnone
    · -- a tail line: the head step is framed away, then induct
      have hne : it0.product_id ≠ it.product_id := by
        intro he
        exact hnodup.1 (by rw [he]; exact List.mem_map_of_mem _ hit_tail)
      have hstepframe : ∀ it' ∈ rest,
          (acceptStep uid ps np it0).1.find? (isPoolRow it'.product_id) =
          ps.find? (isPoolRow it'.product_id) := by
        intro it' hit'
        by_cases hpid : it0.product_id = it'.product_id
        · exfalso
          exact hnodup.1 (by rw [hpid]; exact List.mem_map_of_mem _ hit')
        · exact acceptStep_pool_frame uid ps np it0 it'.product_id hpid
      have hnames_tail : (rest.filterMap
          (fun it' => ((acceptStep uid ps np it0).1.find?
            (isPoolRow it'.product_id)).map Product.name)).Nodup := by
        rw [filterMap_congr_of_eq _ _ rest
          (fun it' hit' => by rw [hstepframe it' hit'])]
        rcases hf0 : ps.find? (isPoolRow it0.product_id) with _ | P0
        · simpa only [List.filterMap_cons, hf0, Option.map_none'] using hnames
        · simp only [List.filterMap_cons, hf0, Option.map_some'] at hnames
          exact (List.nodup_cons.mp hnames).2
      have hP1 : (acceptStep uid ps np it0).1.find? (isPoolRow it.product_id) =
          some P := by rw [hstepframe it hit_tail]; exact hP
      have hmgrframe : (acceptStep uid ps np it0).1.find? (isMgrName uid P.name) =
          ps.find? (isMgrName uid P.name) := by
        apply acceptStep_mgr_frame
        intro P0 hf0 he
        simp only [List.filterMap_cons, hf0, Option.map_some'] at hnames
        exact (List.nodup_cons.mp hnames).1 (he ▸ List.mem_filterMap.mpr
          ⟨it, hit_tail, by rw [hP]; rfl⟩)
      have h := ih (acceptStep uid ps np it0).1 (acceptStep uid ps np it0).2
        hnodup.2 hnames_tail it hit_tail P hP1
      refine ⟨h.1, ?_, ?_⟩
      · intro M hM
        exact h.2.1 M (by rw [hmgrframe]; exact hM)
      · intro hnone
        exact h.2.2 (by rw [hmgrframe]; exact hnone)

/-- The status update `dispatch.status = "sent"; dispatch.accepted_at = now`
as seen through a later lookup of the same dispatch id. -/
theorem find?_map_update_status (l : List Dispatch) (did now : Nat) (d : Dispatch)
    (h : l.find? (fun d' => decide (d'.id = did)) = some d) :
    (l.map (fun d' => if d'.id = did then
        { d' with status := some "sent", accepted_at := some now } else d')).find?
      (fun d' => decide (d'.id = did)) =
      some { d with status := some "sent", accepted_at := some now } := by
  induction l with
  | nil => simp at h
  | cons x t ih =>
    by_cases hx : x.id = did
    · rw [List.find?_cons_of_pos _ (by simp [hx])] at h
      rw [Option.some_inj] at h
      subst h
      simp only [List.map_cons, if_pos hx]
      rw [List.find?_cons_of_pos _ (by simp [hx])]
    · rw [List.find?_cons_of_neg _ (by simp [hx])] at h
      simp only [List.map_cons, if_neg hx]
      rw [List.find?_cons_of_neg _ (by simp [hx])]
      exact ih h

/-- **C1**.  For every successful `accept_dispatch` — with the line
product ids and the pool-row names of the dispatch pairwise distinct, as
`create_dispatch` guarantees for stored dispatches — each line's
central-pool row is debited by the line quantity; the accepting manager's
same-name non-return row is credited by the same amount with its price
overwritten to the dispatch line's price, or created with exactly the
line quantity and that price when absent; and the dispatch is marked
`status = "sent"` with `accepted_at` set (main.py lines 974-1012). -/
theorem C1_accept_dispatch_transfer (db : DB) (u : User) (did now : Nat) (d : Dispatch)
    (hrole : u.role = "manager")
    (hfind : db.dispatches.find? (fun d' => decide (d'.id = did)) = some d)
    (hown : d.manager_id = u.id)
    (hstat : d.status.getD "pending" = "pending")
    (hne : d.items ≠ [])
    (hfound : ∀ it ∈ d.items, (db.products.find? (isPoolRow it.product_id)).isSome)
    (hnodup : (d.items.map DispatchItem.product_id).Nodup)
    (hnames : (d.items.filterMap
      (fun it => (db.products.find? (isPoolRow it.product_id)).map Product.name)).Nodup)
    (hnoshort : d.items.filterMap (fun (it : DispatchItem) =>
        match db.products.find? (isPoolRow it.product_id) with
        | some p => if p.quantity < it.quantity then
            some (Shortage.mk it.product_id it.quantity p.quantity) else none
        | none => none) = []) :
    ∃ db', accept_dispatch db u did now = .ok db' ∧
      db'.dispatches.find? (fun d' => decide (d'.id = did)) =
        some { d with status := some "sent", accepted_at := some now } ∧
      ∀ it ∈ d.items, ∀ P, db.products.find? (isPoolRow it.product_id) = some P →
        db'.products.find? (isPoolRow it.product_id) =
          some { P with quantity := P.quantity - it.quantity } ∧
        ∀ pr, it.price = some pr →
          (∀ M, db.products.find? (isMgrName u.id P.name) = some M →
            db'.products.find? (isMgrName u.id P.name) =
              some { M with quantity := M.quantity + it.quantity, price := pr }) ∧
          (db.products.find? (isMgrName u.id P.name) = none →
            ∃ nid, db'.products.find? (isMgrName u.id P.name) =
              some ⟨nid, P.name, it.quantity, pr, some u.id, false⟩) := by
  have hmain := accept_dispatch_reduce db u did now d hrole hfind hown hstat hne hfound
  have hok : accept_dispatch db u did now = .ok { db with
      products := (acceptApply u.id db.products db.next_product_id d.items).1
      next_product_id := (acceptApply u.id db.products db.next_product_id d.items).2
      dispatches := db.dispatches.map (fun d' =>
        if d'.id = did then { d' with status := some "sent", accepted_at := some now }
        else d') } := by
    rw [hmain]
    simp only [hnoshort]
    rw [if_neg (by simp)]
  refine ⟨_, hok, ?_, ?_⟩
  · exact find?_map_update_status db.dispatches did now d hfind
  · intro it hit P hP
    have htr := acceptApply_transfer u.id d.items db.products db.next_product_id
      hnodup hnames it hit P hP
    refine ⟨htr.1, ?_⟩
    intro pr hpr
    constructor
    · intro M hM
      have h2 := htr.2.1 M hM
      rw [hpr] at h2
      simpa using h2
    · intro hnone
      obtain ⟨nid, h2⟩ := htr.2.2 hnone
      rw [hpr] at h2
      exact ⟨nid, by simpa using h2⟩

/-- **C1 witness**: manager 2 accepts pending dispatch 1 of `pendingDB`
(30 units of pool product 10 at line price 5). -/
theorem C1_accept_dispatch_transfer_witness :
    ∃ db', accept_dispatch pendingDB mgrUser 1 7 = .ok db' ∧
      db'.dispatches.find? (fun d' => decide (d'.id = 1)) =
        some ⟨1, 2, some "sent", some 7, [⟨10, 30, some 5⟩]⟩ ∧
      ∀ it ∈ ([⟨10, 30, some 5⟩] : List DispatchItem), ∀ P,
        pendingDB.products.find? (isPoolRow it.product_id) = some P →
        db'.products.find? (isPoolRow it.product_id) =
          some { P with quantity := P.quantity - it.quantity } ∧
        ∀ pr, it.price = some pr →
          (∀ M, pendingDB.products.find? (isMgrName mgrUser.id P.name) = some M →
            db'.products.find? (isMgrName mgrUser.id P.name) =
              some { M with quantity := M.quantity + it.quantity, price := pr }) ∧
          (pendingDB.products.find? (isMgrName mgrUser.id P.name) = none →
            ∃ nid, db'.products.find? (isMgrName mgrUser.id P.name) =
              some ⟨nid, P.name, it.quantity, pr, some mgrUser.id, false⟩) :=
  C1_accept_dispatch_transfer pendingDB mgrUser 1 7
    ⟨1, 2, some "pending", none, [⟨10, 30, some 5⟩]⟩
    (by decide) (by decide) (by decide) (by decide) (by decide) (by decide)
    (by decide) (by decide) (by decide)

/-! ## One step of the manager→pool return loop -/

theorem mem_modifyFirst_of_not {α : Type} {p : α → Bool} (f : α → α) {l : List α} {x : α}
    (hx : x ∈ l) (hpx : p x = false) : x ∈ modifyFirst p f l := by
  induction l with
  | nil => simp at hx
  | cons y t ih =>
    by_cases hy : p y = true
    · simp only [modifyFirst, if_pos hy]
      rcases List.mem_cons.mp hx with rfl | h
    -- x = y contradicts p x = false
      · rw [hy] at hpx; exact absurd hpx (by simp)
      · exact List.mem_cons_of_mem _ h
    · simp only [modifyFirst, if_neg hy]
      rcases List.mem_cons.mp hx with rfl | h
      · exact List.mem_cons_self _ _
      · exact List.mem_cons_of_mem _ (ih h)

/-- When the table's ids are unique and `q` selects exactly the row `B`,
updating the first row with `B`'s id updates exactly `B`. -/
theorem filter_modifyFirst_unique (l : List Product) (B : Product) (f : Product → Product)
    (q : Product → Bool)
    (hids : (l.map Product.id).Nodup)
    (hfl : l.filter q = [B])
    (hfq : ∀ x, q (f x) = q x) :
    (modifyFirst (fun p => decide (p.id = B.id)) f l).filter q = [f B] := by
  induction l with
  | nil => simp at hfl
  | cons x t ih =>
    simp only [List.map_cons, List.nodup_cons] at hids
    by_cases hx : q x = true
    · rw [List.filter_cons_of_pos hx, List.cons.injEq] at hfl
      obtain ⟨rfl, hft⟩ := hfl
      have hstep : modifyFirst (fun p => decide (p.id = x.id)) f (x :: t) = f x :: t := by
        simp [modifyFirst]
      rw [hstep, List.filter_cons_of_pos (show q (f x) = true by rw [hfq]; exact hx), hft]
    · rw [List.filter_cons_of_neg hx] at hfl
      have hB : B ∈ t := List.mem_of_mem_filter (hfl ▸ List.mem_singleton_self B)
      have hxB : x.id ≠ B.id := by
        intro he
        exact hids.1 (by rw [he]; exact List.mem_map_of_mem _ hB)
      have hstep : modifyFirst (fun p => decide (p.id = B.id)) f (x :: t) =
          x :: modifyFirst (fun p => decide (p.id = B.id)) f t := by
        simp [modifyFirst, hxB]
      rw [hstep, List.filter_cons_of_neg hx]
      exact ih hids.2 hfl

/-- When the entry's manager row is present and the pool holds exactly
one row of its name, a step is the debit followed by the credit of that
pool row. -/
theorem managerReturnStep_eq (uid : Nat) (ps : List Product) (doc : List (Nat × Int))
    (pid : Nat) (q : Int) (M B : Product)
    (hfM : ps.find? (isMgrRow uid pid) = some M)
    (hfB : ps.filter (isPoolName M.name) = [B]) :
    managerReturnStep uid ps doc pid q =
      (modifyFirst (fun p => decide (p.id = B.id))
        (fun p => { p with quantity := p.quantity + q })
        (modifyFirst (isMgrRow uid pid)
          (fun p => { p with quantity := p.quantity - q }) ps),
       doc ++ [(B.id, q)]) := by
  have h1 : (modifyFirst (isMgrRow uid pid)
      (fun p => { p with quantity := p.quantity - q }) ps).filter (isPoolName M.name)
      = [B] := by
    rw [filter_modifyFirst_disjoint _ _ _ _
      (fun x _ hx => isPoolName_of_isMgrRow_false _ x hx)
      (fun x _ hx => (isPoolName_set_quantity _ x _).trans
        (isPoolName_of_isMgrRow_false _ x hx))]
    exact hfB
  simp only [managerReturnStep, hfM, h1, List.getLast?_singleton]

/-- A step leaves the product ids of the table unchanged. -/
theorem managerReturnStep_ids (uid : Nat) (ps : List Product) (doc : List (Nat × Int))
    (pid : Nat) (q : Int) :
    (managerReturnStep uid ps doc pid q).1.map Product.id = ps.map Product.id := by
  rcases hf : ps.find? (isMgrRow uid pid) with _ | mp
  · simp only [managerReturnStep, hf]
  · simp only [managerReturnStep, hf]
    rcases hg : ((modifyFirst (isMgrRow uid pid)
        (fun p => { p with quantity := p.quantity - q }) ps).filter
        (isPoolName mp.name)).getLast? with _ | bp
    · simp only [hg]
      exact map_modifyFirst_eq (isMgrRow uid pid)
        (fun p => { p with quantity := p.quantity - q }) Product.id (fun x => rfl) ps
    · simp only [hg]
      exact (map_modifyFirst_eq (fun p => decide (p.id = bp.id))
        (fun p => { p with quantity := p.quantity + q }) Product.id (fun x => rfl) _).trans
        (map_modifyFirst_eq (isMgrRow uid pid)
          (fun p => { p with quantity := p.quantity - q }) Product.id (fun x => rfl) ps)

/-- After a step, the entry's manager row is debited by the aggregated
quantity. -/
theorem managerReturnStep_mgr_self (uid : Nat) (ps : List Product) (doc : List (Nat × Int))
    (pid : Nat) (q : Int) (M B : Product)
    (hids : (ps.map Product.id).Nodup)
    (hfM : ps.find? (isMgrRow uid pid) = some M)
    (hfB : ps.filter (isPoolName M.name) = [B]) :
    (managerReturnStep uid ps doc pid q).1.find? (isMgrRow uid pid) =
      some { M with quantity := M.quantity - q } := by
  rw [managerReturnStep_eq uid ps doc pid q M B hfM hfB]
  have hBps : B ∈ ps ∧ isPoolName M.name B = true :=
    List.mem_filter.mp (hfB ▸ List.mem_singleton_self B)
  have hids1 : ((modifyFirst (isMgrRow uid pid)
      (fun p => { p with quantity := p.quantity - q }) ps).map Product.id).Nodup := by
    rw [map_modifyFirst_eq (isMgrRow uid pid)
      (fun p => { p with quantity := p.quantity - q }) Product.id (fun x => rfl) ps]
    exact hids
  have hB1 : B ∈ modifyFirst (isMgrRow uid pid)
      (fun p => { p with quantity := p.quantity - q }) ps :=
    mem_modifyFirst_of_not _ hBps.1 (isMgrRow_of_isPoolName_false uid pid B hBps.2)
  have hdisj : ∀ x ∈ modifyFirst (isMgrRow uid pid)
      (fun p => { p with quantity := p.quantity - q }) ps,
      decide (x.id = B.id) = true → isMgrRow uid pid x = false := by
    intro x hx hid
    have hxB : x = B :=
      List.inj_on_of_nodup_map hids1 hx hB1 (by simpa using hid)
    subst hxB
    exact isMgrRow_of_isPoolName_false uid pid x hBps.2
  rw [find?_modifyFirst_disjoint _ _ _ _ hdisj
    (fun x hx hp => (isMgrRow_set_quantity uid pid x _).trans (hdisj x hx hp)),
    find?_modifyFirst_self _ _ _ (fun x => isMgrRow_set_quantity uid pid x _), hfM]
  rfl

/-- After a step, the unique pool row of the entry's name is credited by
the aggregated quantity. -/
theorem managerReturnStep_pool_credit (uid : Nat) (ps : List Product)
    (doc : List (Nat × Int)) (pid : Nat) (q : Int) (M B : Product)
    (hids : (ps.map Product.id).Nodup)
    (hfM : ps.find? (isMgrRow uid pid) = some M)
    (hfB : ps.filter (isPoolName M.name) = [B]) :
    (managerReturnStep uid ps doc pid q).1.filter (isPoolName M.name) =
      [{ B with quantity := B.quantity + q }] := by
  rw [managerReturnStep_eq uid ps doc pid q M B hfM hfB]
  have hids1 : ((modifyFirst (isMgrRow uid pid)
      (fun p => { p with quantity := p.quantity - q }) ps).map Product.id).Nodup := by
    rw [map_modifyFirst_eq (isMgrRow uid pid)
      (fun p => { p with quantity := p.quantity - q }) Product.id (fun x => rfl) ps]
    exact hids
  have h1 : (modifyFirst (isMgrRow uid pid)
      (fun p => { p with quantity := p.quantity - q }) ps).filter (isPoolName M.name)
      = [B] := by
    rw [filter_modifyFirst_disjoint _ _ _ _
      (fun x _ hx => isPoolName_of_isMgrRow_false _ x hx)
      (fun x _ hx => (isPoolName_set_quantity _ x _).trans
        (isPoolName_of_isMgrRow_false _ x hx))]
    exact hfB
  exact filter_modifyFirst_unique _ B _ _ hids1 h1
    (fun x => isPoolName_set_quantity _ x _)

/-- A step leaves the manager rows of every other product id untouched. -/
theorem managerReturnStep_mgr_frame (uid : Nat) (ps : List Product)
    (doc : List (Nat × Int)) (pid : Nat) (q : Int) (M B : Product) (j : Nat)
    (hids : (ps.map Product.id).Nodup)
    (hfM : ps.find? (isMgrRow uid pid) = some M)
    (hfB : ps.filter (isPoolName M.name) = [B])
    (hj : pid ≠ j) :
    (managerReturnStep uid ps doc pid q).1.find? (isMgrRow uid j) =
      ps.find? (isMgrRow uid j) := by
  rw [managerReturnStep_eq uid ps doc pid q M B hfM hfB]
  have hBps : B ∈ ps ∧ isPoolName M.name B = true :=
    List.mem_filter.mp (hfB ▸ List.mem_singleton_self B)
  have hids1 : ((modifyFirst (isMgrRow uid pid)
      (fun p => { p with quantity := p.quantity - q }) ps).map Product.id).Nodup := by
    rw [map_modifyFirst_eq (isMgrRow uid pid)
      (fun p => { p with quantity := p.quantity - q }) Product.id (fun x => rfl) ps]
    exact hids
  have hB1 : B ∈ modifyFirst (isMgrRow uid pid)
      (fun p => { p with quantity := p.quantity - q }) ps :=
    mem_modifyFirst_of_not _ hBps.1 (isMgrRow_of_isPoolName_false uid pid B hBps.2)
  have hdisj : ∀ x ∈ modifyFirst (isMgrRow uid pid)
      (fun p => { p with quantity := p.quantity - q }) ps,
      decide (x.id = B.id) = true → isMgrRow uid j x = false := by
    intro x hx hid
    have hxB : x = B :=
      List.inj_on_of_nodup_map hids1 hx hB1 (by simpa using hid)
    subst hxB
    exact isMgrRow_of_isPoolName_false uid j x hBps.2
  rw [find?_modifyFirst_disjoint _ _ _ _ hdisj
    (fun x hx hp => (isMgrRow_set_quantity uid j x _).trans (hdisj x hx hp)),
    find?_modifyFirst_disjoint _ _ _ _
      (fun x _ hx => isMgrRow_ne_false x hj hx)
      (fun x _ hx => (isMgrRow_set_quantity uid j x _).trans (isMgrRow_ne_false x hj hx))]

/-- A step leaves the pool rows of every other name untouched. -/
theorem managerReturnStep_pool_frame (uid : Nat) (ps : List Product)
    (doc : List (Nat × Int)) (pid : Nat) (q : Int) (M B : Product) (nm : String)
    (hids : (ps.map Product.id).Nodup)
    (hfM : ps.find? (isMgrRow uid pid) = some M)
    (hfB : ps.filter (isPoolName M.name) = [B])
    (hnm : M.name ≠ nm) :
    (managerReturnStep uid ps doc pid q).1.filter (isPoolName nm) =
      ps.filter (isPoolName nm) := by
  rw [managerReturnStep_eq uid ps doc pid q M B hfM hfB]
  have hBps : B ∈ ps ∧ isPoolName M.name B = true :=
    List.mem_filter.mp (hfB ▸ List.mem_singleton_self B)
  have hids1 : ((modifyFirst (isMgrRow uid pid)
      (fun p => { p with quantity := p.quantity - q }) ps).map Product.id).Nodup := by
    rw [map_modifyFirst_eq (isMgrRow uid pid)
      (fun p => { p with quantity := p.quantity - q }) Product.id (fun x => rfl) ps]
    exact hids
  have hB1 : B ∈ modifyFirst (isMgrRow uid pid)
      (fun p => { p with quantity := p.quantity - q }) ps :=
    mem_modifyFirst_of_not _ hBps.1 (isMgrRow_of_isPoolName_false uid pid B hBps.2)
  have hdisj : ∀ x ∈ modifyFirst (isMgrRow uid pid)
      (fun p => { p with quantity := p.quantity - q }) ps,
      decide (x.id = B.id) = true → isPoolName nm x = false := by
    intro x hx hid
    have hxB : x = B :=
      List.inj_on_of_nodup_map hids1 hx hB1 (by simpa using hid)
    subst hxB
    exact isPoolName_ne_false x hnm hBps.2
  rw [filter_modifyFirst_disjoint _ _ _ _ hdisj
    (fun x hx hp => (isPoolName_set_quantity nm x _).trans (hdisj x hx hp)),
    filter_modifyFirst_disjoint _ _ _ _
      (fun x _ hx => isPoolName_of_isMgrRow_false nm x hx)
      (fun x _ hx => (isPoolName_set_quantity nm x _).trans
        (isPoolName_of_isMgrRow_false nm x hx))]

/-- A step keeps every quantity non-negative when the debited manager row
holds at least the aggregated quantity and the quantity is positive. -/
theorem managerReturnStep_nonneg (uid : Nat) (ps : List Product)
    (doc : List (Nat × Int)) (pid : Nat) (q : Int)
    (hnn : ∀ x ∈ ps, 0 ≤ x.quantity)
    (havail : ∀ M, ps.find? (isMgrRow uid pid) = some M → q ≤ M.quantity)
    (hq : 0 ≤ q) :
    ∀ x ∈ (managerReturnStep uid ps doc pid q).1, 0 ≤ x.quantity := by
  rcases hf : ps.find? (isMgrRow uid pid) with _ | mp
  · simp only [managerReturnStep, hf]
    exact hnn
  · have hps1 : ∀ x ∈ modifyFirst (isMgrRow uid pid)
        (fun p => { p with quantity := p.quantity - q }) ps, 0 ≤ x.quantity := by
      intro x hx
      rcases mem_modifyFirst _ _ _ _ hx with hmem | ⟨a, ha, rfl⟩
      · exact hnn x hmem
      · rw [hf, Option.some_inj] at ha
        subst ha
        exact sub_nonneg.mpr (havail mp hf)
    simp only [managerReturnStep, hf]
    rcases hg : ((modifyFirst (isMgrRow uid pid)
        (fun p => { p with quantity := p.quantity - q }) ps).filter
        (isPoolName mp.name)).getLast? with _ | bp
    · simp only [hg]
      exact hps1
    · simp only [hg]
      intro x hx
      rcases mem_modifyFirst _ _ _ _ hx with hmem | ⟨a, ha, rfl⟩
      · exact hps1 x hmem
      · exact add_nonneg (hps1 a (List.mem_of_find?_eq_some ha)) hq

/-- A step preserves "the manager row is present and the pool holds
exactly one row of its name" for every product id. -/
theorem managerReturnStep_found_preserved (uid : Nat) (ps : List Product)
    (doc : List (Nat × Int)) (pid : Nat) (q : Int) (M B : Product)
    (hids : (ps.map Product.id).Nodup)
    (hfM : ps.find? (isMgrRow uid pid) = some M)
    (hfB : ps.filter (isPoolName M.name) = [B]) (j : Nat)
    (h : ∃ M' B', ps.find? (isMgrRow uid j) = some M' ∧
      ps.filter (isPoolName M'.name) = [B']) :
    ∃ M' B', (managerReturnStep uid ps doc pid q).1.find? (isMgrRow uid j) = some M' ∧
      (managerReturnStep uid ps doc pid q).1.filter (isPoolName M'.name) = [B'] := by
  obtain ⟨M', B', hfM', hfB'⟩ := h
  by_cases he : pid = j
  · subst he
    rw [hfM, Option.some_inj] at hfM'
    subst hfM'
    exact ⟨{ M with quantity := M.quantity - q }, { B with quantity := B.quantity + q },
      managerReturnStep_mgr_self uid ps doc pid q M B hids hfM hfB,
      managerReturnStep_pool_credit uid ps doc pid q M B hids hfM hfB⟩
  · have hfr := managerReturnStep_mgr_frame uid ps doc pid q M B j hids hfM hfB he
    by_cases hnm : M.name = M'.name
    · refine ⟨M', { B with quantity := B.quantity + q }, by rw [hfr]; exact hfM', ?_⟩
      rw [← hnm]
      exact managerReturnStep_pool_credit uid ps doc pid q M B hids hfM hfB
    · refine ⟨M', B', by rw [hfr]; exact hfM', ?_⟩
      rw [managerReturnStep_pool_frame uid ps doc pid q M B M'.name hids hfM hfB hnm]
      exact hfB'

/-- Frames and id-preservation for the whole debit/credit loop: product
ids never change, manager rows of ids outside the aggregation and pool
rows of names outside the aggregation are untouched. -/
theorem managerReturnApply_master (uid : Nat) (agg : List (Nat × Int)) :
    ∀ (ps : List Product) (doc : List (Nat × Int)),
    (ps.map Product.id).Nodup →
    (∀ e ∈ agg, ∃ M B, ps.find? (isMgrRow uid e.1) = some M ∧
      ps.filter (isPoolName M.name) = [B]) →
    ((managerReturnApply uid ps doc agg).1.map Product.id = ps.map Product.id) ∧
    (∀ j, (∀ e ∈ agg, e.1 ≠ j) →
      (managerReturnApply uid ps doc agg).1.find? (isMgrRow uid j) =
        ps.find? (isMgrRow uid j)) ∧
    (∀ nm, (∀ e ∈ agg, ∀ M, ps.find? (isMgrRow uid e.1) = some M → M.name ≠ nm) →
      (managerReturnApply uid ps doc agg).1.filter (isPoolName nm) =
        ps.filter (isPoolName nm)) := by
  induction agg with
  | nil => intro ps doc _ _; exact ⟨rfl, fun j _ => rfl, fun nm _ => rfl⟩
  | cons e rest ih =>
    intro ps doc hids hfound
    obtain ⟨pid, q⟩ := e
    obtain ⟨M, B, hfM, hfB⟩ := hfound (pid, q) (List.mem_cons_self _ _)
    have hids' : ((managerReturnStep uid ps doc pid q).1.map Product.id).Nodup := by
      rw [managerReturnStep_ids]
      exact hids
    have hfound' : ∀ e' ∈ rest, ∃ M' B',
        (managerReturnStep uid ps doc pid q).1.find? (isMgrRow uid e'.1) = some M' ∧
        (managerReturnStep uid ps doc pid q).1.filter (isPoolName M'.name) = [B'] :=
      fun e' he' => managerReturnStep_found_preserved uid ps doc pid q M B hids hfM hfB
        e'.1 (hfound e' (List.mem_cons_of_mem _ he'))
    obtain ⟨ihids, ihmgr, ihpool⟩ :=
      ih (managerReturnStep uid ps doc pid q).1 (managerReturnStep uid ps doc pid q).2
        hids' hfound'
    refine ⟨?_, ?_, ?_⟩
    · simp only [managerReturnApply]
      rw [ihids, managerReturnStep_ids]
    · intro j hj
      simp only [managerReturnApply]
      rw [ihmgr j (fun e' he' => hj e' (List.mem_cons_of_mem _ he')),
        managerReturnStep_mgr_frame uid ps doc pid q M B j hids hfM hfB
          (hj (pid, q) (List.mem_cons_self _ _))]
    · intro nm hnm
      simp only [managerReturnApply]
      have htail : ∀ e' ∈ rest, ∀ M',
          (managerReturnStep uid ps doc pid q).1.find? (isMgrRow uid e'.1) = some M' →
          M'.name ≠ nm := by
        intro e' he' M' hM'
        by_cases he : pid = e'.1
        · rw [← he, managerReturnStep_mgr_self uid ps doc pid q M B hids hfM hfB,
            Option.some_inj] at hM'
          subst hM'
          exact hnm (pid, q) (List.mem_cons_self _ _) M hfM
        · rw [managerReturnStep_mgr_frame uid ps doc pid q M B e'.1 hids hfM hfB he] at hM'
          exact hnm e' (List.mem_cons_of_mem _ he') M' hM'
      rw [ihpool nm htail,
        managerReturnStep_pool_frame uid ps doc pid q M B nm hids hfM hfB
          (hnm (pid, q) (List.mem_cons_self _ _) M hfM)]

/-- The heart of the manager→pool return: for each aggregated
`(product_id, quantity)` entry, the loop debits the manager's row by the
aggregated quantity and credits the unique same-name non-return pool row
by the same amount.  Requires unique table ids, pairwise distinct
aggregated ids and names, and presence of a manager row and a unique pool
row per entry. -/
theorem managerReturnApply_spec (uid : Nat) (agg : List (Nat × Int)) :
    ∀ (ps : List Product) (doc : List (Nat × Int)),
    (ps.map Product.id).Nodup →
    (agg.map Prod.fst).Nodup →
    ((agg.filterMap (fun e => (ps.find? (isMgrRow uid e.1)).map Product.name)).Nodup) →
    (∀ e ∈ agg, ∃ M B, ps.find? (isMgrRow uid e.1) = some M ∧
      ps.filter (isPoolName M.name) = [B]) →
    ∀ e ∈ agg, ∀ M, ps.find? (isMgrRow uid e.1) = some M →
      (managerReturnApply uid ps doc agg).1.find? (isMgrRow uid e.1) =
        some { M with quantity := M.quantity - e.2 } ∧
      ∀ B, ps.filter (isPoolName M.name) = [B] →
        (managerReturnApply uid ps doc agg).1.filter (isPoolName M.name) =
          [{ B with quantity := B.quantity + e.2 }] := by
  induction agg with
  | nil => intro ps doc _ _ _ _ e he; exact absurd he (by simp)
  | cons e0 rest ih =>
    intro ps doc hids hkeys hnames hfound e he M hM
    obtain ⟨pid0, q0⟩ := e0
    obtain ⟨M0, B0, hfM0, hfB0⟩ := hfound (pid0, q0) (List.mem_cons_self _ _)
    simp only [List.map_cons, List.nodup_cons] at hkeys
    simp only [List.filterMap_cons, hfM0, Option.map_some'] at hnames
    rw [List.nodup_cons] at hnames
    have hids' : ((managerReturnStep uid ps doc pid0 q0).1.map Product.id).Nodup := by
      rw [managerReturnStep_ids]
      exact hids
    have hfound' : ∀ e' ∈ rest, ∃ M' B',
        (managerReturnStep uid ps doc pid0 q0).1.find? (isMgrRow uid e'.1) = some M' ∧
        (managerReturnStep uid ps doc pid0 q0).1.filter (isPoolName M'.name) = [B'] :=
      fun e' he' => managerReturnStep_found_preserved uid ps doc pid0 q0 M0 B0 hids
        hfM0 hfB0 e'.1 (hfound e' (List.mem_cons_of_mem _ he'))
    have hstepframe : ∀ e' ∈ rest,
        (managerReturnStep uid ps doc pid0 q0).1.find? (isMgrRow uid e'.1) =
        ps.find? (isMgrRow uid e'.1) := by
      intro e' he'
      have hne : pid0 ≠ e'.1 := by
        intro hcon
        exact hkeys.1 (by rw [hcon]; exact List.mem_map_of_mem _ he')
      exact managerReturnStep_mgr_frame uid ps doc pid0 q0 M0 B0 e'.1 hids hfM0 hfB0 hne
    simp only [managerReturnApply]
    rcases List.mem_cons.mp he with heq | he_tail
    · subst heq
      dsimp only at hM ⊢
      rw [hfM0, Option.some_inj] at hM
      subst hM
      obtain ⟨_, mfr, pfr⟩ :=
        managerReturnApply_master uid rest (managerReturnStep uid ps doc pid0 q0).1
          (managerReturnStep uid ps doc pid0 q0).2 hids' hfound'
      constructor
      · rw [mfr pid0 (fun e' he' hcon =>
          hkeys.1 (by rw [← hcon]; exact List.mem_map_of_mem _ he'))]
        exact managerReturnStep_mgr_self uid ps doc pid0 q0 M0 B0 hids hfM0 hfB0
      · intro B hB
        rw [hfB0, List.cons.injEq] at hB
        obtain ⟨hBB, -⟩ := hB
        subst hBB
        have htailnames : ∀ e' ∈ rest, ∀ M',
            (managerReturnStep uid ps doc pid0 q0).1.find? (isMgrRow uid e'.1) = some M' →
            M'.name ≠ M0.name := by
          intro e' he' M' hM' he2
          rw [hstepframe e' he'] at hM'
          exact hnames.1 (he2 ▸ List.mem_filterMap.mpr ⟨e', he', by rw [hM']; rfl⟩)
        rw [pfr M0.name htailnames]
        exact managerReturnStep_pool_credit uid ps doc pid0 q0 M0 B0 hids hfM0 hfB0
    · have hM' : (managerReturnStep uid ps doc pid0 q0).1.find? (isMgrRow uid e.1) =
          some M := by
        rw [hstepframe e he_tail]
        exact hM
      have hnames' : (rest.filterMap (fun e' =>
          ((managerReturnStep uid ps doc pid0 q0).1.find? (isMgrRow uid e'.1)).map
            Product.name)).Nodup := by
        rw [filterMap_congr_of_eq _ _ rest (fun e' he' => by rw [hstepframe e' he'])]
        exact hnames.2
      have h := ih (managerReturnStep uid ps doc pid0 q0).1
        (managerReturnStep uid ps doc pid0 q0).2 hids' hkeys.2 hnames' hfound'
        e he_tail M hM'
      refine ⟨h.1, ?_⟩
      intro B hB
      have hnmne : M0.name ≠ M.name := by
        intro he2
        exact hnames.1 (he2 ▸ List.mem_filterMap.mpr ⟨e, he_tail, by rw [hM]; rfl⟩)
      have hB' : (managerReturnStep uid ps doc pid0 q0).1.filter (isPoolName M.name) =
          [B] := by
        rw [managerReturnStep_pool_frame uid ps doc pid0 q0 M0 B0 M.name hids hfM0
          hfB0 hnmne]
        exact hB
      exact h.2 B hB'

/-- A successful `create_shop_return` writes only the `ShopReturn`
document: the product table is returned unchanged (no code path in
main.py lines 2497-2578 assigns any quantity). -/
theorem create_shop_return_ok_products (db : DB) (u : User) (sid : Nat)
    (items : List ReturnLine) (res : DB × ShopReturnDoc)
    (h : create_shop_return db u sid items = .ok res) : res.1.products = db.products := by
  unfold create_shop_return at h
  split at h
  · simp at h
  · split at h
    · simp at h
    · split at h
      · simp at h
      · split at h
        · simp at h
        · dsimp only at h
          split at h
          · simp at h
          · rw [Except.ok.injEq] at h
            rw [← h]

/-- **C6** (amended).  Manager→pool conservation: under the success
conditions of `create_manager_return` (valid lines, unique table ids,
per-entry manager row with sufficient stock and a unique same-name pool
row, pairwise distinct names), the handler succeeds and, for every
aggregated entry, debits the manager's row by the aggregated quantity
and credits the same-name non-return pool row by the same amount.  A
successful shop→manager return (`create_shop_return`), by contrast, only
records the return document and changes no product quantity in any
scope. -/
theorem C6_returns_conservation_amended :
    (∀ (db : DB) (u : User) (items : List ReturnLine),
      u.role = "manager" → items ≠ [] →
      (∀ it ∈ items, 0 < pyInt it.quantity) →
      (db.products.map Product.id).Nodup →
      ((sumFold ReturnLine.product_id (fun it => pyInt it.quantity) [] items).filterMap
        (fun e => (db.products.find? (isMgrRow u.id e.1)).map Product.name)).Nodup →
      (∀ e ∈ sumFold ReturnLine.product_id (fun it => pyInt it.quantity) [] items,
        ∃ M B, db.products.find? (isMgrRow u.id e.1) = some M ∧ ¬ e.2 > M.quantity ∧
          db.products.filter (isPoolName M.name) = [B]) →
      ∃ res, create_manager_return db u items = .ok res ∧
        ∀ e ∈ sumFold ReturnLine.product_id (fun it => pyInt it.quantity) [] items,
          ∀ M, db.products.find? (isMgrRow u.id e.1) = some M →
            res.1.products.find? (isMgrRow u.id e.1) =
              some { M with quantity := M.quantity - e.2 } ∧
            ∀ B, db.products.filter (isPoolName M.name) = [B] →
              res.1.products.filter (isPoolName M.name) =
                [{ B with quantity := B.quantity + e.2 }]) ∧
    (∀ (db : DB) (u : User) (sid : Nat) (items : List ReturnLine) (res : DB × ShopReturnDoc),
      create_shop_return db u sid items = .ok res → res.1.products = db.products) := by
  constructor
  · intro db u items hrole hne hval hids hnames hagg
    have hfound : ∀ it ∈ items,
        (db.products.find? (isMgrRow u.id it.product_id)).isSome := by
      intro it hit
      have hk : it.product_id ∈ (sumFold ReturnLine.product_id
          (fun it => pyInt it.quantity) [] items).map Prod.fst := by
        rw [sumFold_mem_keys]
        exact Or.inr (List.mem_map_of_mem _ hit)
      rcases List.mem_map.mp hk with ⟨e, he, hke⟩
      obtain ⟨M, B, hfM, -, -⟩ := hagg e he
      rw [← hke, hfM]
      rfl
    have hkeys : ((sumFold ReturnLine.product_id (fun it => pyInt it.quantity) []
        items).map Prod.fst).Nodup :=
      sumFold_keys_nodup _ _ items [] (by simp)
    have hfound2 : ∀ e ∈ sumFold ReturnLine.product_id (fun it => pyInt it.quantity)
        [] items, ∃ M B, db.products.find? (isMgrRow u.id e.1) = some M ∧
        db.products.filter (isPoolName M.name) = [B] := by
      intro e he
      obtain ⟨M, B, hfM, -, hfB⟩ := hagg e he
      exact ⟨M, B, hfM, hfB⟩
    have hins : (sumFold ReturnLine.product_id (fun it => pyInt it.quantity) []
        items).filterMap (fun (e : Nat × Int) =>
          match db.products.find? (isMgrRow u.id e.1) with
          | some p => if e.2 > p.quantity then some (Shortage.mk e.1 e.2 p.quantity)
            else none
          | none => none) = [] := by
      apply filterMap_short_eq_nil ReturnLine.product_id
        (fun it => pyInt it.quantity) items
        (fun pid => db.products.find? (isMgrRow u.id pid)) hfound
      intro it hit p hf
      have he : (it.product_id,
          ((items.filter (fun x => decide (x.product_id = it.product_id))).map
            (fun it => pyInt it.quantity)).sum) ∈
          sumFold ReturnLine.product_id (fun it => pyInt it.quantity) [] items := by
        rw [sumFold_nil_mem]
        exact ⟨List.mem_map_of_mem _ hit, rfl⟩
      obtain ⟨M, B, hfM, hsuff, -⟩ := hagg _ he
      rw [hfM, Option.some_inj] at hf
      subst hf
      exact hsuff
    have hbase : ((((sumFold ReturnLine.product_id (fun it => pyInt it.quantity) []
        items).map Prod.fst).filterMap
          (fun pid => (db.products.find? (isMgrRow u.id pid)).map Product.name)).dedup).filter
        (fun nm => (db.products.filter (isPoolName nm)).getLast?.isNone) = [] := by
      rw [List.filter_eq_nil_iff]
      intro nm hnm
      rw [List.mem_dedup, List.mem_filterMap] at hnm
      obtain ⟨pid, hpid, hname⟩ := hnm
      rcases List.mem_map.mp hpid with ⟨e, he, hke⟩
      obtain ⟨M, B, hfM, -, hfB⟩ := hagg e he
      rw [← hke] at hname
      rw [hfM] at hname
      simp only [Option.map_some', Option.some_inj] at hname
      subst hname
      simp [hfB]
    have hred := create_manager_return_reduce db u items hrole hne hval hfound
    have hok : create_manager_return db u items = .ok
        ({ db with
            products := (managerReturnApply u.id db.products []
              (sumFold ReturnLine.product_id (fun it => pyInt it.quantity) [] items)).1
            manager_returns := db.manager_returns ++
              [{ id := db.manager_returns.length + 1, manager_id := u.id,
                 items := (managerReturnApply u.id db.products []
                   (sumFold ReturnLine.product_id
                     (fun it => pyInt it.quantity) [] items)).2 }] },
         { id := db.manager_returns.length + 1, manager_id := u.id,
           items := (managerReturnApply u.id db.products []
             (sumFold ReturnLine.product_id (fun it => pyInt it.quantity) [] items)).2 }) := by
      rw [hred]
      simp only [hins]
      rw [if_neg (by simp)]
      simp only [hbase]
      rw [if_neg (by simp)]
    refine ⟨_, hok, ?_⟩
    intro e he M hM
    exact managerReturnApply_spec u.id
      (sumFold ReturnLine.product_id (fun it => pyInt it.quantity) [] items)
      db.products [] hids hkeys hnames hfound2 e he M hM
  · exact create_shop_return_ok_products

/-- **C6 witness**: manager 2 returns 2.5 units (truncated to 2) of
product 20 ("P", stock 5) against `baseDB`; the pool row "P" (id 10,
stock 100) is the unique credit target.  The shop-return half is
instanced on a successful concrete shop return. -/
theorem C6_returns_conservation_amended_witness :
    (∃ res, create_manager_return baseDB mgrUser [⟨20, mkRat 5 2⟩] = .ok res ∧
      ∀ e ∈ sumFold ReturnLine.product_id (fun it => pyInt it.quantity) []
          [(⟨20, mkRat 5 2⟩ : ReturnLine)],
        ∀ M, baseDB.products.find? (isMgrRow mgrUser.id e.1) = some M →
          res.1.products.find? (isMgrRow mgrUser.id e.1) =
            some { M with quantity := M.quantity - e.2 } ∧
          ∀ B, baseDB.products.filter (isPoolName M.name) = [B] →
            res.1.products.filter (isPoolName M.name) =
              [{ B with quantity := B.quantity + e.2 }]) ∧
    (({ baseDB with shop_returns := [⟨1, 2, 30, [(20, 2)]⟩] },
        (⟨1, 2, 30, [(20, 2)]⟩ : ShopReturnDoc)).1.products = baseDB.products) :=
  ⟨C6_returns_conservation_amended.1 baseDB mgrUser [⟨20, mkRat 5 2⟩]
    (by decide) (by decide) (by decide) (by decide) (by decide)
    (by
      intro e he
      rcases List.mem_singleton.mp he with rfl
      exact ⟨⟨20, "P", 5, 4, some 2, false⟩, ⟨10, "P", 100, 5, none, false⟩,
        by decide, by decide, by decide⟩),
   C6_returns_conservation_amended.2 baseDB mgrUser 30 [⟨20, mkRat 5 2⟩]
    ({ baseDB with shop_returns := [⟨1, 2, 30, [(20, 2)]⟩] }, ⟨1, 2, 30, [(20, 2)]⟩)
    (by decide)⟩

/-! ## Inversion of the validation loops

An `.ok` result means every guard passed and the accumulator is the pure
fold; these let the invariant proofs recover the per-line facts from a
successful run. -/

theorem returnAgg_ok_inv (items : List ReturnLine) :
    ∀ (acc agg : List (Nat × Int)), returnAgg acc items = .ok agg →
    (∀ it ∈ items, 0 < pyInt it.quantity) ∧
    agg = sumFold ReturnLine.product_id (fun it => pyInt it.quantity) acc items := by
  induction items with
  | nil =>
    intro acc agg h
    simp only [returnAgg, Except.ok.injEq] at h
    exact ⟨by simp, h.symm⟩
  | cons it rest ih =>
    intro acc agg h
    simp only [returnAgg] at h
    split at h
    · simp at h
    · rename_i hguard
      obtain ⟨h1, h2⟩ := ih _ _ h
      refine ⟨?_, h2⟩
      intro x hx
      rcases List.mem_cons.mp hx with rfl | hx2
      · omega
      · exact h1 x hx2

theorem legacyReturnAgg_ok_inv (items : List LegacyReturnLine) :
    ∀ (acc agg : List (Nat × Int)), legacyReturnAgg acc items = .ok agg →
    (∀ it ∈ items, 0 < it.quantity) ∧
    agg = sumFold LegacyReturnLine.product_id LegacyReturnLine.quantity acc items := by
  induction items with
  | nil =>
    intro acc agg h
    simp only [legacyReturnAgg, Except.ok.injEq] at h
    exact ⟨by simp, h.symm⟩
  | cons it rest ih =>
    intro acc agg h
    simp only [legacyReturnAgg] at h
    split at h
    · simp at h
    · rename_i hguard
      obtain ⟨h1, h2⟩ := ih _ _ h
      refine ⟨?_, h2⟩
      intro x hx
      rcases List.mem_cons.mp hx with rfl | hx2
      · omega
      · exact h1 x hx2

theorem incomingAgg_ok_inv (items : List IncomingLine) :
    ∀ (acc agg : List (Nat × Int)), incomingAgg acc items = .ok agg →
    (∀ it ∈ items, 0 < it.quantity) ∧
    agg = sumFold IncomingLine.product_id (fun it => pyInt it.quantity) acc items := by
  induction items with
  | nil =>
    intro acc agg h
    simp only [incomingAgg, Except.ok.injEq] at h
    exact ⟨by simp, h.symm⟩
  | cons it rest ih =>
    intro acc agg h
    simp only [incomingAgg] at h
    split at h
    · simp at h
    · rename_i hguard
      obtain ⟨h1, h2⟩ := ih _ _ h
      refine ⟨?_, h2⟩
      intro x hx
      rcases List.mem_cons.mp hx with rfl | hx2
      · exact lt_of_not_le hguard
      · exact h1 x hx2

theorem dispatchAgg_ok_inv (items : List DispatchLine) :
    ∀ (acc agg : List (Nat × (Int × ℚ))), dispatchAgg acc items = .ok agg →
    (∀ it ∈ items, 0 < it.quantity) ∧ agg = dispatchFold acc items := by
  induction items with
  | nil =>
    intro acc agg h
    simp only [dispatchAgg, Except.ok.injEq] at h
    exact ⟨by simp, h.symm⟩
  | cons it rest ih =>
    intro acc agg h
    simp only [dispatchAgg] at h
    split at h
    · simp at h
    · rename_i hguard
      split at h
      · simp at h
      · obtain ⟨h1, h2⟩ := ih _ _ h
        refine ⟨?_, h2⟩
        intro x hx
        rcases List.mem_cons.mp hx with rfl | hx2
        · omega
        · exact h1 x hx2

/-- Per-product quantity of the dispatch fold stays positive. -/
theorem dispatchFold_val_pos (items : List DispatchLine) :
    ∀ (acc : List (Nat × (Int × ℚ))), (∀ e ∈ acc, 0 < e.2.1) →
    (∀ it ∈ items, 0 < it.quantity) →
    ∀ e ∈ dispatchFold acc items, 0 < e.2.1 := by
  induction items with
  | nil => intro acc hacc _; exact hacc
  | cons it rest ih =>
    intro acc hacc hval
    simp only [dispatchFold]
    refine ih _ ?_ (fun x hx => hval x (List.mem_cons_of_mem _ hx))
    intro e he
    rcases mem_upsert_val _ _ _ _ _ he with h | h
    · exact hacc e h
    · subst h
      simp only
      have hv := hval it (List.mem_cons_self it rest)
      rcases ho : alookup acc it.product_id with _ | v
      · simpa [ho] using hv
      · have := hacc _ (mem_of_alookup_eq_some ho)
        simp only [ho, Option.getD_some]
        dsimp only at this ⊢
        omega

/-- The product ids of the stored dispatch lines are the aggregation
keys. -/
theorem dispatch_items_map_id (agg : List (Nat × (Int × ℚ))) :
    (agg.map (fun e => (⟨e.1, e.2.1, some e.2.2⟩ : DispatchItem))).map
      DispatchItem.product_id = agg.map Prod.fst := by
  induction agg with
  | nil => rfl
  | cons e rest ih => simp [ih]

/-- An `.ok []` from the acceptance check loop means every line's pool
row exists and holds at least the line quantity. -/
theorem acceptCheck_ok_nil_inv (ps : List Product) (items : List DispatchItem)
    (h : acceptCheck ps items = .ok []) :
    ∀ it ∈ items, ∃ p, ps.find? (isPoolRow it.product_id) = some p ∧
      ¬ p.quantity < it.quantity := by
  induction items with
  | nil => intro it hit; simp at hit
  | cons it0 rest ih =>
    simp only [acceptCheck] at h
    split at h
    · simp at h
    · rename_i p hf
      split at h
      · simp at h
      · rename_i tailShort htail
        split at h
        · simp at h
        · rename_i hq
          rw [Except.ok.injEq] at h
          subst h
          intro it hit
          rcases List.mem_cons.mp hit with rfl | hmem
          · exact ⟨p, hf, hq⟩
          · exact ih htail it hmem

/-- A `none` from the legacy sufficiency check means no present product
is short. -/
theorem legacyReturnCheck_none_inv (uid : Nat) (ps : List Product)
    (agg : List (Nat × Int)) (h : legacyReturnCheck uid ps agg = none) :
    ∀ e ∈ agg, ∀ p, ps.find? (isMgrRow uid e.1) = some p → ¬ e.2 > p.quantity := by
  induction agg with
  | nil => intro e he; simp at he
  | cons e0 rest ih =>
    obtain ⟨pid, q⟩ := e0
    simp only [legacyReturnCheck] at h
    split at h
    · rename_i hf
      intro e he p hp
      rcases List.mem_cons.mp he with rfl | hmem
      · dsimp only at hp
        rw [hf] at hp
        exact absurd hp (by simp)
      · exact ih h e hmem p hp
    · rename_i p0 hf0
      split at h
      · simp at h
      · rename_i hq0
        intro e he p hp
        rcases List.mem_cons.mp he with rfl | hmem
        · dsimp only at hp ⊢
          rw [hf0, Option.some_inj] at hp
          subst hp
          exact hq0
        · exact ih h e hmem p hp

/-- A successful legacy order loop never debits below zero and keeps the
product ids. -/
theorem orderLoop_ok_inv (uid sid : Nat) (items : List OrderItemReq) :
    ∀ (ps : List Product) (rows : List OrderRow) (res : List Product × List OrderRow),
    orderLoop uid sid ps rows items = .ok res →
    ((∀ x ∈ ps, 0 ≤ x.quantity) → ∀ x ∈ res.1, 0 ≤ x.quantity) ∧
    res.1.map Product.id = ps.map Product.id := by
  induction items with
  | nil =>
    intro ps rows res h
    simp only [orderLoop, Except.ok.injEq] at h
    subst h
    exact ⟨fun hnn => hnn, rfl⟩
  | cons it rest ih =>
    intro ps rows res h
    simp only [orderLoop] at h
    split at h
    · simp at h
    · rename_i p hf
      split at h
      · simp at h
      · rename_i hq
        obtain ⟨ihnn, ihids⟩ := ih _ _ _ h
        constructor
        · intro hnn
          apply ihnn
          intro x hx
          rcases mem_modifyFirst _ _ _ _ hx with hmem | ⟨a, ha, rfl⟩
          · exact hnn x hmem
          · rw [hf, Option.some_inj] at ha
            subst ha
            exact sub_nonneg.mpr (not_lt.mp hq)
        · rw [ihids]
          exact map_modifyFirst_eq (isMgrAnyRow uid it.product_id)
            (fun x => { x with quantity := x.quantity - it.quantity }) Product.id
            (fun x => rfl) ps

/-! ## Non-negativity and id-stability of the remaining apply loops -/

/-- The manager-row frame of one return step, from unique table ids
alone (the credit targets the pool row found by name, which cannot be a
manager row). -/
theorem managerReturnStep_mgr_frame2 (uid : Nat) (ps : List Product)
    (doc : List (Nat × Int)) (pid : Nat) (q : Int) (j : Nat)
    (hids : (ps.map Product.id).Nodup) (hj : pid ≠ j) :
    (managerReturnStep uid ps doc pid q).1.find? (isMgrRow uid j) =
      ps.find? (isMgrRow uid j) := by
  rcases hf : ps.find? (isMgrRow uid pid) with _ | mp
  · simp only [managerReturnStep, hf]
  · have hps1 : (modifyFirst (isMgrRow uid pid)
        (fun p => { p with quantity := p.quantity - q }) ps).find? (isMgrRow uid j)
        = ps.find? (isMgrRow uid j) :=
      find?_modifyFirst_disjoint _ _ _ _
        (fun x _ hx => isMgrRow_ne_false x hj hx)
        (fun x _ hx => (isMgrRow_set_quantity uid j x _).trans (isMgrRow_ne_false x hj hx))
    simp only [managerReturnStep, hf]
    rcases hg : ((modifyFirst (isMgrRow uid pid)
        (fun p => { p with quantity := p.quantity - q }) ps).filter
        (isPoolName mp.name)).getLast? with _ | bp
    · simp only [hg]
      exact hps1
    · simp only [hg]
      have hbp := List.mem_filter.mp (List.mem_of_getLast?_eq_some hg)
      have hids1 : ((modifyFirst (isMgrRow uid pid)
          (fun p => { p with quantity := p.quantity - q }) ps).map Product.id).Nodup := by
        rw [map_modifyFirst_eq (isMgrRow uid pid)
          (fun p => { p with quantity := p.quantity - q }) Product.id (fun x => rfl) ps]
        exact hids
      have hdisj : ∀ x ∈ modifyFirst (isMgrRow uid pid)
          (fun p => { p with quantity := p.quantity - q }) ps,
          decide (x.id = bp.id) = true → isMgrRow uid j x = false := by
        intro x hx hid
        have hxbp : x = bp :=
          List.inj_on_of_nodup_map hids1 hx hbp.1 (by simpa using hid)
        subst hxbp
        exact isMgrRow_of_isPoolName_false uid j x hbp.2
      rw [find?_modifyFirst_disjoint _ _ _ _ hdisj
        (fun x hx hp => (isMgrRow_set_quantity uid j x _).trans (hdisj x hx hp))]
      exact hps1

/-- The debit/credit loop keeps every quantity non-negative when the
aggregated ids are distinct, quantities non-negative and within the
manager rows' stock. -/
theorem managerReturnApply_nonneg (uid : Nat) (agg : List (Nat × Int)) :
    ∀ (ps : List Product) (doc : List (Nat × Int)),
    (ps.map Product.id).Nodup →
    (agg.map Prod.fst).Nodup →
    (∀ e ∈ agg, 0 ≤ e.2) →
    (∀ e ∈ agg, ∀ M, ps.find? (isMgrRow uid e.1) = some M → e.2 ≤ M.quantity) →
    (∀ x ∈ ps, 0 ≤ x.quantity) →
    ∀ x ∈ (managerReturnApply uid ps doc agg).1, 0 ≤ x.quantity := by
  induction agg with
  | nil => intro ps doc _ _ _ _ hnn; exact hnn
  | cons e0 rest ih =>
    intro ps doc hids hkeys hvals havail hnn
    obtain ⟨pid, q⟩ := e0
    simp only [List.map_cons, List.nodup_cons] at hkeys
    simp only [managerReturnApply]
    refine ih _ _ ?_ hkeys.2 (fun e he => hvals e (List.mem_cons_of_mem _ he)) ?_ ?_
    · rw [managerReturnStep_ids]
      exact hids
    · intro e he M hM
      have hne : pid ≠ e.1 := by
        intro hcon
        exact hkeys.1 (by rw [hcon]; exact List.mem_map_of_mem _ he)
      rw [managerReturnStep_mgr_frame2 uid ps doc pid q e.1 hids hne] at hM
      exact havail e (List.mem_cons_of_mem _ he) M hM
    · exact managerReturnStep_nonneg uid ps doc pid q hnn
        (fun M hM => havail (pid, q) (List.mem_cons_self _ _) M hM)
        (hvals (pid, q) (List.mem_cons_self _ _))

/-- The debit/credit loop never changes a product id. -/
theorem managerReturnApply_ids_all (uid : Nat) (agg : List (Nat × Int)) :
    ∀ (ps : List Product) (doc : List (Nat × Int)),
    (managerReturnApply uid ps doc agg).1.map Product.id = ps.map Product.id := by
  induction agg with
  | nil => intro ps doc; rfl
  | cons e0 rest ih =>
    intro ps doc
    obtain ⟨pid, q⟩ := e0
    simp only [managerReturnApply]
    rw [ih, managerReturnStep_ids]

/-- The incoming credit loop keeps quantities non-negative when every
credit is non-negative. -/
theorem incomingApply_nonneg (agg : List (Nat × Int)) :
    ∀ (ps : List Product), (∀ e ∈ agg, 0 ≤ e.2) → (∀ x ∈ ps, 0 ≤ x.quantity) →
    ∀ x ∈ incomingApply ps agg, 0 ≤ x.quantity := by
  induction agg with
  | nil => intro ps _ hnn; exact hnn
  | cons e0 rest ih =>
    intro ps hvals hnn
    obtain ⟨pid, q⟩ := e0
    simp only [incomingApply]
    refine ih _ (fun e he => hvals e (List.mem_cons_of_mem _ he)) ?_
    intro x hx
    rcases mem_modifyFirst _ _ _ _ hx with hmem | ⟨a, ha, rfl⟩
    · exact hnn x hmem
    · exact add_nonneg (hnn a (List.mem_of_find?_eq_some ha))
        (hvals (pid, q) (List.mem_cons_self _ _))

/-- The incoming credit loop never changes a product id. -/
theorem incomingApply_ids (agg : List (Nat × Int)) :
    ∀ (ps : List Product), (incomingApply ps agg).map Product.id = ps.map Product.id := by
  induction agg with
  | nil => intro ps; rfl
  | cons e0 rest ih =>
    intro ps
    obtain ⟨pid, q⟩ := e0
    simp only [incomingApply]
    rw [ih, map_modifyFirst_eq (isPoolRow pid)
      (fun p => { p with quantity := p.quantity + q }) Product.id (fun x => rfl) ps]

/-! ## Inversion of the handlers: what a committed state looks like -/

theorem accept_dispatch_ok_inv (db : DB) (u : User) (did now : Nat) (db' : DB)
    (h : accept_dispatch db u did now = .ok db') :
    ∃ d, db.dispatches.find? (fun d' => decide (d'.id = did)) = some d ∧
      acceptCheck db.products d.items = .ok [] ∧
      db' = { db with
        products := (acceptApply u.id db.products db.next_product_id d.items).1
        next_product_id := (acceptApply u.id db.products db.next_product_id d.items).2
        dispatches := db.dispatches.map (fun d' =>
          if d'.id = did then { d' with status := some "sent", accepted_at := some now }
          else d') } := by
  unfold accept_dispatch at h
  split at h
  · simp at h
  · split at h
    · simp at h
    · rename_i d hfind
      split at h
      · simp at h
      · split at h
        · simp at h
        · split at h
          · simp at h
          · split at h
            · simp at h
            · rename_i missing hcheck
              split at h
              · simp at h
              · rename_i hmiss
                injection h with h2
                have hm : missing = [] := not_ne_iff.mp hmiss
                subst hm
                exact ⟨d, hfind, hcheck, h2.symm⟩

theorem create_incoming_ok_inv (db : DB) (u : User) (req : IncomingReq)
    (res : DB × Nat) (h : create_incoming db u req = .ok res) :
    ∃ (itemsL : List IncomingLine) (agg : List (Nat × Int)),
      incomingAgg [] itemsL = .ok agg ∧
      res.1 = { db with
        products := incomingApply db.products agg
        incomings := db.incomings ++ [{ id := db.incomings.length + 1, items := agg }] } := by
  unfold create_incoming at h
  split at h
  · simp at h
  · dsimp only at h
    split at h
    · simp at h
    · split at h
      · simp at h
      · rename_i agg hagg
        split at h
        · simp at h
        · split at h
          · simp at h
          · injection h with h2
            refine ⟨_, agg, hagg, ?_⟩
            rw [← h2]

theorem create_dispatch_ok_inv (db : DB) (u : User) (mid : Nat)
    (items : List DispatchLine) (now : Nat) (res : DB × Nat)
    (h : create_dispatch db u mid items now = .ok res) :
    ∃ agg, dispatchAgg [] items = .ok agg ∧
      res.1 = { db with dispatches := db.dispatches ++
        [{ id := db.dispatches.length + 1, manager_id := mid, status := some "pending",
           accepted_at := none,
           items := agg.map (fun e => ⟨e.1, e.2.1, some e.2.2⟩) }] } := by
  unfold create_dispatch at h
  split at h
  · simp at h
  · split at h
    · simp at h
    · split at h
      · simp at h
      · split at h
        · simp at h
        · rename_i agg hagg
          dsimp only at h
          split at h
          · simp at h
          · split at h
            · simp at h
            · injection h with h2
              refine ⟨agg, hagg, ?_⟩
              rw [← h2]

theorem create_shop_order_no_ok (db : DB) (u : User) (sid : Nat)
    (items : List ShopOrderLine) (paid : ℚ) (db' : DB) :
    create_shop_order db u sid items paid ≠ .ok db' := by
  intro h
  unfold create_shop_order at h
  split at h
  · simp at h
  · split at h
    · simp at h
    · split at h
      · simp at h
      · split at h
        · simp at h
        · dsimp only at h
          split at h
          · simp at h
          · split at h
            · simp at h
            · simp at h

theorem create_shop_return_ok_state (db : DB) (u : User) (sid : Nat)
    (items : List ReturnLine) (res : DB × ShopReturnDoc)
    (h : create_shop_return db u sid items = .ok res) :
    ∃ doc, res.1 = { db with shop_returns := db.shop_returns ++ [doc] } := by
  unfold create_shop_return at h
  split at h
  · simp at h
  · split at h
    · simp at h
    · split at h
      · simp at h
      · split at h
        · simp at h
        · dsimp only at h
          split at h
          · simp at h
          · injection h with h2
            exact ⟨_, by rw [← h2]⟩

theorem create_manager_return_ok_inv (db : DB) (u : User) (items : List ReturnLine)
    (res : DB × ManagerReturnDoc) (h : create_manager_return db u items = .ok res) :
    ∃ agg, returnAgg [] items = .ok agg ∧
      agg.filterMap (fun (e : Nat × Int) =>
        match db.products.find? (isMgrRow u.id e.1) with
        | some p => if e.2 > p.quantity then some (Shortage.mk e.1 e.2 p.quantity) else none
        | none => none) = [] ∧
      res.1 = { db with
        products := (managerReturnApply u.id db.products [] agg).1
        manager_returns := db.manager_returns ++
          [{ id := db.manager_returns.length + 1, manager_id := u.id,
             items := (managerReturnApply u.id db.products [] agg).2 }] } := by
  unfold create_manager_return at h
  split at h
  · simp at h
  · split at h
    · simp at h
    · rcases hagg : returnAgg [] items with e | agg
      · rw [hagg] at h
        simp at h
      · rw [hagg] at h
        dsimp only at h
        split at h
        · simp at h
        · split at h
          · simp at h
          · rename_i hins
            split at h
            · simp at h
            · injection h with h2
              exact ⟨agg, rfl, not_ne_iff.mp hins, by rw [← h2]⟩

theorem create_order_ok_inv (db : DB) (u : User) (sid : Nat)
    (items : List OrderItemReq) (db' : DB)
    (h : create_order db u sid items = .ok db') :
    ∃ r, orderLoop u.id sid db.products [] items = .ok r ∧
      db' = { db with products := r.1, orders := db.orders ++ r.2 } := by
  unfold create_order at h
  split at h
  · simp at h
  · split at h
    · simp at h
    · split at h
      · simp at h
      · rename_i r hr
        injection h with h2
        exact ⟨r, hr, h2.symm⟩

theorem create_return_ok_inv (db : DB) (u : User) (items : List LegacyReturnLine)
    (res : DB × ManagerReturnDoc) (h : create_return db u items = .ok res) :
    ∃ agg, legacyReturnAgg [] items = .ok agg ∧
      legacyReturnCheck u.id db.products agg = none ∧
      res.1 = { db with
        products := (managerReturnApply u.id db.products [] agg).1
        legacy_returns := db.legacy_returns ++
          [{ id := db.legacy_returns.length + 1, manager_id := u.id,
             items := (managerReturnApply u.id db.products [] agg).2 }] } := by
  unfold create_return at h
  split at h
  · simp at h
  · split at h
    · simp at h
    · rcases hagg : legacyReturnAgg [] items with e | agg
      · rw [hagg] at h
        simp at h
      · rw [hagg] at h
        dsimp only at h
        split at h
        · simp at h
        · rcases hchk : legacyReturnCheck u.id db.products agg with _ | e2
          · rw [hchk] at h
            dsimp only at h
            split at h
            · simp at h
            · injection h with h2
              exact ⟨agg, rfl, hchk, by rw [← h2]⟩
          · rw [hchk] at h
            simp at h

/-- **C4**.  Every operation of the core preserves the ledger invariant
`WF` — in particular, every product quantity stays non-negative: each
handler either aborts (an error rolls the transaction back, so nothing is
written) or commits a state in which no quantity went below zero.
`create_shop_order` preserves it vacuously: it never commits (the
`order.returns` AttributeError fires on every request before any write,
see C2/C5). -/
theorem C4_nonnegativity_invariant :
    (∀ (db : DB) (u : User) (req : IncomingReq) (res : DB × Nat),
      WF db → create_incoming db u req = .ok res → WF res.1) ∧
    (∀ (db : DB) (u : User) (mid : Nat) (items : List DispatchLine) (now : Nat)
      (res : DB × Nat),
      WF db → create_dispatch db u mid items now = .ok res → WF res.1) ∧
    (∀ (db : DB) (u : User) (did now : Nat) (db' : DB),
      WF db → accept_dispatch db u did now = .ok db' → WF db') ∧
    (∀ (db : DB) (u : User) (sid : Nat) (items : List ShopOrderLine) (paid : ℚ)
      (db' : DB), create_shop_order db u sid items paid ≠ .ok db') ∧
    (∀ (db : DB) (u : User) (sid : Nat) (items : List ReturnLine)
      (res : DB × ShopReturnDoc),
      WF db → create_shop_return db u sid items = .ok res → WF res.1) ∧
    (∀ (db : DB) (u : User) (items : List ReturnLine) (res : DB × ManagerReturnDoc),
      WF db → create_manager_return db u items = .ok res → WF res.1) ∧
    (∀ (db : DB) (u : User) (sid : Nat) (items : List OrderItemReq) (db' : DB),
      WF db → create_order db u sid items = .ok db' → WF db') ∧
    (∀ (db : DB) (u : User) (items : List LegacyReturnLine)
      (res : DB × ManagerReturnDoc),
      WF db → create_return db u items = .ok res → WF res.1) := by
  refine ⟨?_, ?_, ?_, ?_, ?_, ?_, ?_, ?_⟩
  · -- create_incoming
    intro db u req res hwf h
    obtain ⟨itemsL, agg, hagg, hstate⟩ := create_incoming_ok_inv db u req res h
    obtain ⟨hval, haggeq⟩ := incomingAgg_ok_inv itemsL [] agg hagg
    have hvals : ∀ e ∈ agg, 0 ≤ e.2 := by
      rw [haggeq]
      exact sumFold_val_nonneg _ _ itemsL [] (by simp)
        (fun it hit => pyInt_nonneg _ (hval it hit))
    unfold WF at hwf
    obtain ⟨hnn, ⟨hnd, hbd⟩, hdisp⟩ := hwf
    rw [hstate]
    unfold WF
    refine ⟨?_, ⟨?_, ?_⟩, hdisp⟩
    · exact incomingApply_nonneg agg db.products hvals hnn
    · rw [incomingApply_ids]
      exact hnd
    · intro p hp
      have hpid := List.mem_map_of_mem Product.id hp
      rw [incomingApply_ids] at hpid
      rcases List.mem_map.mp hpid with ⟨p0, hp0, hpe⟩
      rw [← hpe]
      exact hbd p0 hp0
  · -- create_dispatch
    intro db u mid items now res hwf h
    obtain ⟨agg, hagg, hstate⟩ := create_dispatch_ok_inv db u mid items now res h
    obtain ⟨hval, haggeq⟩ := dispatchAgg_ok_inv items [] agg hagg
    unfold WF at hwf
    obtain ⟨hnn, hid, hdisp⟩ := hwf
    rw [hstate]
    unfold WF
    refine ⟨hnn, hid, ?_⟩
    intro d hd
    rcases List.mem_append.mp hd with hmem | hmem
    · exact hdisp d hmem
    · rcases List.mem_singleton.mp hmem with rfl
      constructor
      · rw [dispatch_items_map_id, haggeq]
        exact dispatchFold_keys_nodup items [] (by simp)
      · intro it hit
        rcases List.mem_map.mp hit with ⟨e, he, rfl⟩
        exact dispatchFold_val_pos items [] (by simp) hval e (haggeq ▸ he)
  · -- accept_dispatch
    intro db u did now db' hwf h
    obtain ⟨d, hfind, hcheck, hstate⟩ := accept_dispatch_ok_inv db u did now db' h
    unfold WF at hwf
    obtain ⟨hnn, ⟨hnd, hbd⟩, hdisp⟩ := hwf
    have hdmem := List.mem_of_find?_eq_some hfind
    obtain ⟨hdnodup, hdpos⟩ := hdisp d hdmem
    have hsuff := acceptCheck_ok_nil_inv db.products d.items hcheck
    have hbd' : ∀ i ∈ db.products.map Product.id, i < db.next_product_id := by
      intro i hi
      rcases List.mem_map.mp hi with ⟨p, hp, rfl⟩
      exact hbd p hp
    have hids := acceptApply_ids u.id d.items db.products db.next_product_id hnd hbd'
    rw [hstate]
    unfold WF
    refine ⟨?_, ⟨hids.1, ?_⟩, ?_⟩
    · apply acceptApply_nonneg u.id d.items db.products db.next_product_id hdnodup
        hdpos ?_ hnn
      intro it hit P hP
      obtain ⟨p, hp, hq⟩ := hsuff it hit
      rw [hp, Option.some_inj] at hP
      subst hP
      exact not_lt.mp hq
    · intro p hp
      exact hids.2.1 p.id (List.mem_map_of_mem _ hp)
    · intro d' hd'
      rcases List.mem_map.mp hd' with ⟨d0, hd0, rfl⟩
      by_cases he : d0.id = did
      · rw [if_pos he]
        exact hdisp d0 hd0
      · rw [if_neg he]
        exact hdisp d0 hd0
  · -- create_shop_order: never commits
    intro db u sid items paid db'
    exact create_shop_order_no_ok db u sid items paid db'
  · -- create_shop_return: state unchanged apart from the document
    intro db u sid items res hwf h
    obtain ⟨doc, hstate⟩ := create_shop_return_ok_state db u sid items res h
    rw [hstate]
    unfold WF at hwf ⊢
    exact hwf
  · -- create_manager_return
    intro db u items res hwf h
    obtain ⟨agg, hagg, hins, hstate⟩ := create_manager_return_ok_inv db u items res h
    obtain ⟨hval, haggeq⟩ := returnAgg_ok_inv items [] agg hagg
    unfold WF at hwf
    obtain ⟨hnn, ⟨hnd, hbd⟩, hdisp⟩ := hwf
    have hkeys : (agg.map Prod.fst).Nodup := by
      rw [haggeq]
      exact sumFold_keys_nodup _ _ items [] (by simp)
    have hvals : ∀ e ∈ agg, 0 ≤ e.2 := by
      rw [haggeq]
      intro e he
      exact le_of_lt (sumFold_val_pos _ _ items [] (by simp) hval e he)
    have havail : ∀ e ∈ agg, ∀ M, db.products.find? (isMgrRow u.id e.1) = some M →
        e.2 ≤ M.quantity := by
      intro e he M hM
      have hfm := List.filterMap_eq_nil_iff.mp hins e he
      rw [hM] at hfm
      dsimp only at hfm
      by_cases hgt : e.2 > M.quantity
      · rw [if_pos hgt] at hfm
        exact absurd hfm (by simp)
      · exact not_lt.mp hgt
    rw [hstate]
    unfold WF
    refine ⟨?_, ⟨?_, ?_⟩, hdisp⟩
    · exact managerReturnApply_nonneg u.id agg db.products [] hnd hkeys hvals havail hnn
    · rw [managerReturnApply_ids_all]
      exact hnd
    · intro p hp
      have hpid := List.mem_map_of_mem Product.id hp
      rw [managerReturnApply_ids_all] at hpid
      rcases List.mem_map.mp hpid with ⟨p0, hp0, hpe⟩
      rw [← hpe]
      exact hbd p0 hp0
  · -- legacy create_order
    intro db u sid items db' hwf h
    obtain ⟨r, hr, hstate⟩ := create_order_ok_inv db u sid items db' h
    obtain ⟨hloopnn, hloopids⟩ := orderLoop_ok_inv u.id sid items db.products [] r hr
    unfold WF at hwf
    obtain ⟨hnn, ⟨hnd, hbd⟩, hdisp⟩ := hwf
    rw [hstate]
    unfold WF
    refine ⟨hloopnn hnn, ⟨?_, ?_⟩, hdisp⟩
    · rw [hloopids]
      exact hnd
    · intro p hp
      have hpid := List.mem_map_of_mem Product.id hp
      rw [hloopids] at hpid
      rcases List.mem_map.mp hpid with ⟨p0, hp0, hpe⟩
      rw [← hpe]
      exact hbd p0 hp0
  · -- legacy create_return
    intro db u items res hwf h
    obtain ⟨agg, hagg, hchk, hstate⟩ := create_return_ok_inv db u items res h
    obtain ⟨hval, haggeq⟩ := legacyReturnAgg_ok_inv items [] agg hagg
    unfold WF at hwf
    obtain ⟨hnn, ⟨hnd, hbd⟩, hdisp⟩ := hwf
    have hkeys : (agg.map Prod.fst).Nodup := by
      rw [haggeq]
      exact sumFold_keys_nodup _ _ items [] (by simp)
    have hvals : ∀ e ∈ agg, 0 ≤ e.2 := by
      rw [haggeq]
      intro e he
      exact le_of_lt (sumFold_val_pos _ _ items [] (by simp) hval e he)
    have havail : ∀ e ∈ agg, ∀ M, db.products.find? (isMgrRow u.id e.1) = some M →
        e.2 ≤ M.quantity := by
      intro e he M hM
      exact not_lt.mp (legacyReturnCheck_none_inv u.id db.products agg hchk e he M hM)
    rw [hstate]
    unfold WF
    refine ⟨?_, ⟨?_, ?_⟩, hdisp⟩
    · exact managerReturnApply_nonneg u.id agg db.products [] hnd hkeys hvals havail hnn
    · rw [managerReturnApply_ids_all]
      exact hnd
    · intro p hp
      have hpid := List.mem_map_of_mem Product.id hp
      rw [managerReturnApply_ids_all] at hpid
      rcases List.mem_map.mp hpid with ⟨p0, hp0, hpe⟩
      rw [← hpe]
      exact hbd p0 hp0

/-- **C4 witness**: one successful concrete run of every operation from a
well-formed state — an incoming credit of 3, a dispatch of 5, the
acceptance of `pendingDB`'s dispatch, a shop order (which always aborts),
a shop return, a manager→pool return of 2, a legacy order of 2 and a
legacy return of 2 — each landing in a state satisfying `WF`. -/
theorem C4_nonnegativity_invariant_witness :
    WF ({ baseDB with
      products := [⟨10, "P", 103, 5, none, false⟩, ⟨11, "Q", 50, 7, none, false⟩,
        ⟨20, "P", 5, 4, some 2, false⟩]
      incomings := [⟨1, [(10, 3)]⟩] }) ∧
    WF ({ baseDB with
      dispatches := [⟨1, 2, some "pending", none, [⟨10, 5, some 2⟩]⟩] }) ∧
    WF ({ pendingDB with
      products := [⟨10, "P", 70, 5, none, false⟩, ⟨11, "Q", 50, 7, none, false⟩,
        ⟨20, "P", 35, 5, some 2, false⟩]
      dispatches := [⟨1, 2, some "sent", some 7, [⟨10, 30, some 5⟩]⟩] }) ∧
    (create_shop_order baseDB mgrUser 30 [⟨20, 1, none, false⟩] 2 ≠ .ok baseDB) ∧
    WF ({ baseDB with shop_returns := [⟨1, 2, 30, [(20, 2)]⟩] }) ∧
    WF ({ baseDB with
      products := [⟨10, "P", 102, 5, none, false⟩, ⟨11, "Q", 50, 7, none, false⟩,
        ⟨20, "P", 3, 4, some 2, false⟩]
      manager_returns := [⟨1, 2, [(10, 2)]⟩] }) ∧
    WF ({ baseDB with
      products := [⟨10, "P", 100, 5, none, false⟩, ⟨11, "Q", 50, 7, none, false⟩,
        ⟨20, "P", 3, 4, some 2, false⟩]
      orders := [⟨2, 30, 20, 2, 4⟩] }) ∧
    WF ({ baseDB with
      products := [⟨10, "P", 102, 5, none, false⟩, ⟨11, "Q", 50, 7, none, false⟩,
        ⟨20, "P", 3, 4, some 2, false⟩]
      legacy_returns := [⟨1, 2, [(10, 2)]⟩] }) :=
  ⟨C4_nonnegativity_invariant.1 baseDB adminUser ⟨some 10, some 3, none⟩
    ({ baseDB with
      products := [⟨10, "P", 103, 5, none, false⟩, ⟨11, "Q", 50, 7, none, false⟩,
        ⟨20, "P", 5, 4, some 2, false⟩]
      incomings := [⟨1, [(10, 3)]⟩] }, 1) (by decide) (by decide),
   C4_nonnegativity_invariant.2.1 baseDB adminUser 2 [⟨10, 5, 2⟩] 0
    ({ baseDB with
      dispatches := [⟨1, 2, some "pending", none, [⟨10, 5, some 2⟩]⟩] }, 1)
    (by decide) (by decide),
   C4_nonnegativity_invariant.2.2.1 pendingDB mgrUser 1 7
    ({ pendingDB with
      products := [⟨10, "P", 70, 5, none, false⟩, ⟨11, "Q", 50, 7, none, false⟩,
        ⟨20, "P", 35, 5, some 2, false⟩]
      dispatches := [⟨1, 2, some "sent", some 7, [⟨10, 30, some 5⟩]⟩] })
    (by decide) (by decide),
   C4_nonnegativity_invariant.2.2.2.1 baseDB mgrUser 30 [⟨20, 1, none, false⟩] 2 baseDB,
   C4_nonnegativity_invariant.2.2.2.2.1 baseDB mgrUser 30 [⟨20, 2⟩]
    ({ baseDB with shop_returns := [⟨1, 2, 30, [(20, 2)]⟩] }, ⟨1, 2, 30, [(20, 2)]⟩)
    (by decide) (by decide),
   C4_nonnegativity_invariant.2.2.2.2.2.1 baseDB mgrUser [⟨20, 2⟩]
    ({ baseDB with
      products := [⟨10, "P", 102, 5, none, false⟩, ⟨11, "Q", 50, 7, none, false⟩,
        ⟨20, "P", 3, 4, some 2, false⟩]
      manager_returns := [⟨1, 2, [(10, 2)]⟩] }, ⟨1, 2, [(10, 2)]⟩)
    (by decide) (by decide),
   C4_nonnegativity_invariant.2.2.2.2.2.2.1 baseDB mgrUser 30 [⟨20, 2, 4⟩]
    ({ baseDB with
      products := [⟨10, "P", 100, 5, none, false⟩, ⟨11, "Q", 50, 7, none, false⟩,
        ⟨20, "P", 3, 4, some 2, false⟩]
      orders := [⟨2, 30, 20, 2, 4⟩] }) (by decide) (by decide),
   C4_nonnegativity_invariant.2.2.2.2.2.2.2 baseDB mgrUser [⟨20, 2⟩]
    ({ baseDB with
      products := [⟨10, "P", 102, 5, none, false⟩, ⟨11, "Q", 50, 7, none, false⟩,
        ⟨20, "P", 3, 4, some 2, false⟩]
      legacy_returns := [⟨1, 2, [(10, 2)]⟩] }, ⟨1, 2, [(10, 2)]⟩)
    (by decide) (by decide)⟩

end TorgManager
